import Mathlib

/-!
# nimoch decoder: frame cache, frame loader, seek index, scene score, serve loop and check

A shallow embedding of `decoder/lib/framecache.c`, of the seek-index helpers of
`decoder/lib/helper.c`, of `decoder/lib/scene_detect.c`, of the start of `serve_stream`,
the frame loader and the command loop of `decoder/serve.c`, and of `perform_check` of
`decoder/check.c`, followed by the properties established about them.

Conventions of the embedding

* A C `long` is a Lean `Int`; where the C code does arithmetic on `long` values the
  result is reduced with `wrap64` (two's complement, 64 bit).  An `unsigned long` is a
  `Nat` reduced with `to_u64`.  Arithmetic on `int` values whose size the code does not
  bound (products, packet counters) is reduced with `wrap32`; a division that C leaves
  undefined is `none`.
* Array lengths and counters that are never negative (`num_frames`,
  `num_allocated_frames`) are `Nat`.
* The `frames` array of a cache is the list of its slots, slot 0 first.  The frames
  that are resident are the first `num_frames` slots.
* libavformat and libavcodec are outside the repository.  The demuxer is the list of
  packets still to be read, each packet carrying what the decoder answers when the
  packet is sent to it; `av_seek_frame` replaces that list.
* A `double` is the rational number it stands for, and each operation on doubles rounds
  its exact result with `to_double` (IEEE 754 binary64, to nearest, ties to even).
* The output pipe is the list of the `fwrite` calls made on it.  A `NULL` pointer that
  is dereferenced and a conversion whose result C leaves undefined end the handling of
  a command with the status `fault`.
-/

namespace Nimoch

/-! ## Machine integers -/

/-- The constant `AV_NOPTS_VALUE` of libavutil, `INT64_MIN`. -/
def AV_NOPTS_VALUE : Int := -9223372036854775808

/-- Reduction of an integer to the range of a signed 64 bit `long`. -/
def wrap64 (x : Int) : Int :=
  (x + 9223372036854775808) % 18446744073709551616 - 9223372036854775808

/-- Reduction of an integer to the range of a signed 32 bit `int`. -/
def wrap32 (x : Int) : Int :=
  (x + 2147483648) % 4294967296 - 2147483648

/-- Conversion of an integer to `unsigned long`. -/
def to_u64 (x : Int) : Nat :=
  (x % 18446744073709551616).toNat

/-- The values a `long` can hold. -/
def in_long (x : Int) : Prop :=
  -9223372036854775808 ≤ x ∧ x ≤ 9223372036854775807

instance (x : Int) : Decidable (in_long x) := by
  unfold in_long
  infer_instance

/-! ## Data model (`framecache.h`) -/

/-- An encoded image (`AVPacket`): its bytes. -/
structure AVPacket where
  data : List Nat
  deriving DecidableEq, Repr

/-- The fields of a decoded `AVFrame` that the decoder core reads; `data` is the
plane `data[0]` (luma) and `linesize` its `linesize[0]`. -/
structure AVFrame where
  pts : Int
  duration : Int := 0
  width : Nat := 0
  height : Nat := 0
  linesize : Nat := 0
  data : List Nat := []
  deriving DecidableEq, Repr

/-- The record `struct frame`: one slot of the cache. -/
structure frame where
  pts : Int
  avf : AVFrame
  encoded : List (Option AVPacket)
  deriving DecidableEq, Repr

/-- The record `struct framecache`. -/
structure framecache where
  pts_range_start : Int
  pts_range_end : Int
  pts_last : Int
  num_frames : Nat
  num_allocated_frames : Nat
  frames : List frame
  delta : Int
  seek_threshold : Int
  seek_amount : Int
  deriving DecidableEq, Repr

/-- A slot as `calloc` leaves it. -/
def zero_frame : frame :=
  { pts := 0, avf := { pts := 0, duration := 0 }, encoded := List.replicate 8 none }

/-- The slot that `add_framecache` writes for a decoded frame. -/
def frame_of (avf : AVFrame) : frame :=
  { pts := avf.pts, avf := avf, encoded := List.replicate 8 none }

/-- The frames that are resident: slots `0 .. num_frames - 1`. -/
def resident (cache : framecache) : List frame :=
  cache.frames.take cache.num_frames

/-- The PTS values of the resident frames, in slot order. -/
def resident_pts (cache : framecache) : List Int :=
  (resident cache).map (fun fr => fr.pts)

/-! ## Slot operations -/

/-- `memmove(frames, frames + src, count * sizeof(frames[0]))`: the first `count`
slots receive the contents of the slots `src .. src + count - 1`, the other slots
keep theirs. -/
def memmove_frames (frames : List frame) (src count : Nat) : List frame :=
  (frames.drop src).take count ++ frames.drop count

/-- The assignment to the slot `frames[n]`.  A write to the slot right after the last
one of the list lengthens the list: the C code writes past its array there. -/
def store_frame (frames : List frame) (n : Nat) (fr : frame) : List frame :=
  frames.take n ++ fr :: frames.drop (n + 1)

/-! ## `framecache.c` -/

/-- The function `init_framecache`. -/
def init_framecache (first_array_size : Nat) (delta : Int) (seek_threshold seek_amount : Int) :
    framecache :=
  { frames := List.replicate first_array_size zero_frame
    num_allocated_frames := first_array_size
    num_frames := 0
    pts_range_end := AV_NOPTS_VALUE
    pts_range_start := AV_NOPTS_VALUE
    pts_last := AV_NOPTS_VALUE
    delta := delta
    seek_threshold := seek_threshold
    seek_amount := seek_amount }

/-- One round of the loop of `__recalculate_pts_range`, on the pair
`(pts_range_start, pts_range_end)`. -/
def recalculate_step (range : Int × Int) (fr : frame) : Int × Int :=
  let pts := fr.pts
  let range_start :=
    if range.1 = AV_NOPTS_VALUE ∨ range.1 > pts then pts else range.1
  let range_end :=
    if range.2 = AV_NOPTS_VALUE ∨ range.2 < pts then pts else range.2
  (range_start, range_end)

/-- The function `__recalculate_pts_range`. -/
def __recalculate_pts_range (cache : framecache) : framecache :=
  let range :=
    (cache.frames.take cache.num_frames).foldl recalculate_step (AV_NOPTS_VALUE, AV_NOPTS_VALUE)
  { cache with pts_range_start := range.1, pts_range_end := range.2 }

/-- The eviction block of `add_framecache`, run when the cache is full. -/
def slide_framecache (cache : framecache) : framecache :=
  let slide := cache.num_allocated_frames / 4
  __recalculate_pts_range
    { cache with
      frames := memmove_frames cache.frames slide (cache.num_frames - slide)
      num_frames := cache.num_frames - slide }

/-- The function `add_framecache`.  Its `int` result is always 0 and is left out. -/
def add_framecache (cache : framecache) (avf : AVFrame) : framecache :=
  let cache :=
    if cache.num_frames = cache.num_allocated_frames then slide_framecache cache else cache
  { cache with
    frames := store_frame cache.frames cache.num_frames (frame_of avf)
    num_frames := cache.num_frames + 1
    pts_range_start :=
      if cache.pts_range_start = AV_NOPTS_VALUE ∨ cache.pts_range_start > avf.pts then avf.pts
      else cache.pts_range_start
    pts_range_end :=
      if cache.pts_range_end = AV_NOPTS_VALUE ∨ cache.pts_range_end < avf.pts then avf.pts
      else cache.pts_range_end
    pts_last := avf.pts }

/-- A linear scan with early return: the index, counted from `i`, of the first
frame of the list that satisfies `p`. -/
def scan_frames (p : frame → Bool) : List frame → Nat → Option Nat
  | [], _ => none
  | fr :: rest, i => if p fr then some i else scan_frames p rest (i + 1)

/-- The function `find_in_framecache`: an index, or -1 (seek), or -2 (decode on). -/
def find_in_framecache (cache : framecache) (pts : Int) : Int :=
  let hit :=
    if pts ≥ cache.pts_range_start ∧ pts ≤ cache.pts_range_end then
      scan_frames (fun fr => decide (fr.pts = pts)) (cache.frames.take cache.num_frames) 0
    else none
  match hit with
  | some i => (i : Int)
  | none =>
    if wrap64 (pts - cache.pts_last) > 0 ∧
        wrap64 (pts - cache.pts_last) < wrap64 (cache.delta * cache.seek_threshold) then -2
    else -1

/-- The test of the loop of `find_nearest_frame`. -/
def covers (pts : Int) (fr : frame) : Prop :=
  fr.pts ≤ pts ∧ wrap64 (fr.pts + fr.avf.duration) > pts

instance (pts : Int) (fr : frame) : Decidable (covers pts fr) := by
  unfold covers
  infer_instance

/-- The function `find_nearest_frame`: an index, or -1. -/
def find_nearest_frame (cache : framecache) (pts : Int) : Int :=
  let hit :=
    if pts ≥ cache.pts_range_start ∧ pts ≤ cache.pts_range_end then
      scan_frames (fun fr => decide (covers pts fr)) (cache.frames.take cache.num_frames) 0
    else none
  match hit with
  | some i => (i : Int)
  | none => -1

/-- The cache after `init_framecache` and the admission of `adds`, in order. -/
def cache_after (first_array_size : Nat) (delta seek_threshold seek_amount : Int)
    (adds : List AVFrame) : framecache :=
  adds.foldl add_framecache (init_framecache first_array_size delta seek_threshold seek_amount)

/-! ## Predicates used to state the properties -/

/-- The array of the cache has a slot for each of its `num_frames` frames. -/
def slots_ok (cache : framecache) : Prop :=
  cache.num_frames ≤ cache.frames.length

/-- The pair `(s, e)` is the PTS range of the PTS list `l`: both are the sentinel when
the list is empty, and otherwise `s` is its smallest and `e` its largest member. -/
def range_ok (l : List Int) (s e : Int) : Prop :=
  (l = [] ∧ s = AV_NOPTS_VALUE ∧ e = AV_NOPTS_VALUE) ∨
    (s ∈ l ∧ e ∈ l ∧ ∀ p ∈ l, s ≤ p ∧ p ≤ e)

/-- The invariant that admissions of frames with a PTS keep: the slots exist, no
resident PTS is the sentinel, and the range fields are the range of the resident PTS. -/
def cache_ok (cache : framecache) : Prop :=
  slots_ok cache ∧ (∀ p ∈ resident_pts cache, p ≠ AV_NOPTS_VALUE) ∧
    range_ok (resident_pts cache) cache.pts_range_start cache.pts_range_end

/-- The index `n` is the first one of `l` whose frame satisfies `p`. -/
def first_index (p : frame → Prop) (l : List frame) (n : Nat) : Prop :=
  (∃ fr, l[n]? = some fr ∧ p fr) ∧ ∀ j fr, j < n → l[j]? = some fr → ¬ p fr

/-! ## Demuxer and decoder (libavformat, libavcodec) -/

/-- What the decoder answers to a packet: `avcodec_send_packet` fails, or
`avcodec_receive_frame` gives a frame, `AVERROR(EAGAIN)` or another error. -/
inductive decode_result where
  | send_failed
  | frame (avf : AVFrame)
  | again
  | error
  deriving DecidableEq, Repr

/-- A packet as `av_read_frame` delivers it, with the answer of the decoder to it. -/
structure stream_packet where
  stream_index : Int
  corrupt : Bool := false
  pos : Int
  decoded : decode_result
  deriving DecidableEq, Repr

/-- The library calls that the loader makes. -/
inductive av_call where
  | read_frame
  | send_packet
  | receive_frame
  | seek_frame (stream_index timestamp flags : Int)
  | flush_buffers
  deriving DecidableEq, Repr

/-- The demuxer and the decoder: the packets still to be read, what a seek makes of
them, and the log of the calls made so far, oldest first. -/
structure av_state where
  packets : List stream_packet
  seek_result : Int → Int → Int → Option (List stream_packet)
  calls : List av_call

def AVSEEK_FLAG_BACKWARD : Int := 1

def AVSEEK_FLAG_BYTE : Int := 2

/-- The call `av_seek_frame`: 0 and the new read position, or a negative error. -/
def av_seek_frame (av : av_state) (stream_index timestamp flags : Int) : Int × av_state :=
  let av := { av with calls := av.calls ++ [av_call.seek_frame stream_index timestamp flags] }
  match av.seek_result stream_index timestamp flags with
  | some packets => (0, { av with packets := packets })
  | none => (-1, av)

/-- The call `avcodec_flush_buffers`. -/
def avcodec_flush_buffers (av : av_state) : av_state :=
  { av with calls := av.calls ++ [av_call.flush_buffers] }

/-! ## Seek index (`helper.c`) -/

/-- The record `struct video_stream_frame_index`; both fields are `unsigned long`. -/
structure video_stream_frame_index where
  pts : Nat
  pos : Nat
  deriving DecidableEq, Repr

instance : Inhabited video_stream_frame_index := ⟨{ pts := 0, pos := 0 }⟩

/-- The loop of `build_index_stream` over the packets read; `none` is the `NULL` of
the error path.  `num_buf` is the size of the allocation, grown before each entry. -/
def build_index_loop (stream_index : Int) :
    List stream_packet → List video_stream_frame_index → Nat →
      Option (List video_stream_frame_index)
  | [], indices, _ => some indices
  | p :: rest, indices, num_buf =>
    if p.stream_index ≠ stream_index then build_index_loop stream_index rest indices num_buf
    else if p.corrupt then build_index_loop stream_index rest indices num_buf
    else
      match p.decoded with
      | decode_result.send_failed => build_index_loop stream_index rest indices num_buf
      | decode_result.frame avf =>
        let num_buf := if num_buf ≥ indices.length then num_buf + 10240 else num_buf
        build_index_loop stream_index rest
          (indices ++ [{ pts := to_u64 avf.pts, pos := to_u64 p.pos }]) num_buf
      | decode_result.again => build_index_loop stream_index rest indices num_buf
      | decode_result.error => none

/-- The function `build_index_stream`: the index array (`*frames` is its length), or
`none` for `NULL`. -/
def build_index_stream (av : av_state) (stream_index : Int) :
    Option (List video_stream_frame_index) :=
  build_index_loop stream_index av.packets [] 10240

/-- The function `compare_stream_frame_index`: the difference of two `unsigned long`
values returned as an `int`. -/
def compare_stream_frame_index (a b : video_stream_frame_index) : Int :=
  wrap32 ((a.pts : Int) - (b.pts : Int))

/-- The loop of the C library `bsearch` over `base[l .. u - 1]`. -/
def bsearch_loop (key : video_stream_frame_index) (base : List video_stream_frame_index)
    (compar : video_stream_frame_index → video_stream_frame_index → Int) :
    Nat → Nat → Nat → Option Nat
  | 0, _, _ => none
  | fuel + 1, l, u =>
    if l < u then
      let idx := (l + u) / 2
      let comparison := compar key (base.getD idx default)
      if comparison < 0 then bsearch_loop key base compar fuel l idx
      else if comparison > 0 then bsearch_loop key base compar fuel (idx + 1) u
      else some idx
    else none

/-- The C library `bsearch`: the index of a matching element, or `none` for `NULL`.
The interval halves at each round, so `nmemb` rounds are enough. -/
def bsearch (key : video_stream_frame_index) (base : List video_stream_frame_index)
    (nmemb : Nat) (compar : video_stream_frame_index → video_stream_frame_index → Int) :
    Option Nat :=
  bsearch_loop key base compar nmemb 0 nmemb

/-- The function `find_index`. -/
def find_index (indices : List video_stream_frame_index) (num : Nat) (pts : Nat) : Option Nat :=
  bsearch { pts := pts, pos := 0 } indices num compare_stream_frame_index

/-- The loop `for (i = 1; i < num; i++)` of `nearest_earlier_index`, over the entries
from index `i` on: the value of `i` when the loop is left. -/
def nearest_earlier_loop (pts : Nat) : List video_stream_frame_index → Nat → Nat
  | [], i => i
  | e :: rest, i => if e.pts > pts then i else nearest_earlier_loop pts rest (i + 1)

/-- The function `nearest_earlier_index`: the index of the entry it points to. -/
def nearest_earlier_index (indices : List video_stream_frame_index) (num : Nat) (pts : Nat) :
    Nat :=
  if (indices.getD 0 default).pts > pts then 0
  else nearest_earlier_loop pts ((indices.take num).drop 1) 1 - 1

/-- The function `seek_frame`; `indices` is `none` for a `NULL` index. -/
def seek_frame (av : av_state) (stream_index : Int) (pts : Nat)
    (indices : Option (List video_stream_frame_index)) (frames_in_indices : Nat) :
    Int × av_state :=
  match indices with
  | some idx =>
    let index :=
      match find_index idx frames_in_indices pts with
      | some i => i
      | none => nearest_earlier_index idx frames_in_indices pts
    match av_seek_frame av stream_index (wrap64 (idx.getD index default).pos) AVSEEK_FLAG_BYTE with
    | (ret, av) => if ret < 0 then (ret, av) else (0, av)
  | none =>
    match av_seek_frame av stream_index (wrap64 pts) AVSEEK_FLAG_BACKWARD with
    | (ret, av) => if ret < 0 then (ret, av) else (0, av)

/-! ## Frame loader (`serve.c`) -/

/-- The loop of `cache_next_frame` over the packets still to be read. -/
def cache_next_frame_loop (cache : framecache) (stream_index pts_min pts_max : Int)
    (seek_result : Int → Int → Int → Option (List stream_packet)) :
    List stream_packet → List av_call → Int × framecache × av_state
  | [], calls =>
    (1, cache, { packets := [], seek_result := seek_result,
                 calls := calls ++ [av_call.read_frame] })
  | p :: rest, calls =>
    let calls := calls ++ [av_call.read_frame]
    if p.stream_index ≠ stream_index then
      cache_next_frame_loop cache stream_index pts_min pts_max seek_result rest calls
    else if p.corrupt then
      cache_next_frame_loop cache stream_index pts_min pts_max seek_result rest calls
    else
      match p.decoded with
      | decode_result.send_failed =>
        cache_next_frame_loop cache stream_index pts_min pts_max seek_result rest
          (calls ++ [av_call.send_packet])
      | decode_result.frame avf =>
        let av : av_state :=
          { packets := rest, seek_result := seek_result,
            calls := calls ++ [av_call.send_packet, av_call.receive_frame] }
        if (pts_min = AV_NOPTS_VALUE ∨ avf.pts ≥ pts_min) ∧
            (pts_max = AV_NOPTS_VALUE ∨ avf.pts ≤ pts_max) then
          (0, add_framecache cache avf, av)
        else (0, cache, av)
      | decode_result.again =>
        cache_next_frame_loop cache stream_index pts_min pts_max seek_result rest
          (calls ++ [av_call.send_packet, av_call.receive_frame])
      | decode_result.error =>
        (1, cache, { packets := rest, seek_result := seek_result,
                     calls := calls ++ [av_call.send_packet, av_call.receive_frame] })

/-- The function `cache_next_frame`: 0 when a frame was decoded, 1 at the end of the
stream or on a decoder error. -/
def cache_next_frame (cache : framecache) (av : av_state) (stream_index pts_min pts_max : Int) :
    Int × framecache × av_state :=
  cache_next_frame_loop cache stream_index pts_min pts_max av.seek_result av.packets av.calls

/-- The `while` loop of `load_frame`.  A round that goes on has read a packet, so the
loop is over after at most `packets.length + 1` rounds; `fuel` counts them. -/
def load_frame_loop (stream_index pts : Int) :
    Nat → framecache → av_state → Option Nat × framecache × av_state
  | 0, cache, av => (none, cache, av)
  | fuel + 1, cache, av =>
    match cache_next_frame cache av stream_index AV_NOPTS_VALUE AV_NOPTS_VALUE with
    | (ret, cache, av) =>
      if ret = 0 then
        if cache.pts_last = pts then
          let ret := find_in_framecache cache pts
          if ret ≥ 0 then (some ret.toNat, cache, av) else (none, cache, av)
        else if cache.pts_last > pts then
          let ret := find_nearest_frame cache pts
          if ret ≥ 0 then (some ret.toNat, cache, av) else (none, cache, av)
        else load_frame_loop stream_index pts fuel cache av
      else (none, cache, av)

/-- The block `if (ret == -1) { ... }` of `load_frame`: the result of `seek_frame`
(0 when there is no seek), the cache and the demuxer after it. -/
def load_frame_seek (cache : framecache) (av : av_state) (stream_index pts : Int)
    (indices : Option (List video_stream_frame_index)) (frames_in_indices : Nat) (ret : Int) :
    Int × framecache × av_state :=
  if ret = -1 then
    let pts_min := wrap64 (pts - wrap64 (cache.delta * cache.seek_amount))
    let cache := { cache with pts_last := AV_NOPTS_VALUE }
    match seek_frame av stream_index (to_u64 pts_min) indices frames_in_indices with
    | (ret, av) => if ret ≠ 0 then (ret, cache, av) else (0, cache, avcodec_flush_buffers av)
  else (0, cache, av)

/-- The function `load_frame`: the index of the slot it returns a pointer to, or `none`
for `NULL`, with the cache and the demuxer as the call leaves them. -/
def load_frame (cache : framecache) (av : av_state) (stream_index pts : Int)
    (indices : Option (List video_stream_frame_index)) (frames_in_indices : Nat) :
    Option Nat × framecache × av_state :=
  let ret := find_in_framecache cache pts
  if ret ≥ 0 then (some ret.toNat, cache, av)
  else
    match load_frame_seek cache av stream_index pts indices frames_in_indices ret with
    | (ret, cache, av) =>
      if ret ≠ 0 then (none, cache, av)
      else load_frame_loop stream_index pts (av.packets.length + 1) cache av

/-- The frames that `cache_next_frame` admits from a packet list: those of the packets
of the stream that are not corrupt and decode to a frame. -/
def admitted (stream_index : Int) (p : stream_packet) (avf : AVFrame) : Prop :=
  p.stream_index = stream_index ∧ p.corrupt = false ∧ p.decoded = decode_result.frame avf


/-- What a call of `cache_next_frame` without PTS bounds on the packet list `packets`
leaves: result 0, one admitted frame added to the cache and fewer packets to read; or
result 1 and the cache as it was. -/
def next_frame_post (cache : framecache) (stream_index : Int)
    (sr : Int → Int → Int → Option (List stream_packet)) (packets : List stream_packet)
    (r : Int × framecache × av_state) : Prop :=
  (r.1 = 0 ∧ ∃ p avf, p ∈ packets ∧ admitted stream_index p avf ∧
      r.2.1 = add_framecache cache avf ∧ r.2.2.packets.length < packets.length ∧
      (∀ q ∈ r.2.2.packets, q ∈ packets) ∧ r.2.2.seek_result = sr) ∨
    (r.1 = 1 ∧ r.2.1 = cache ∧ r.2.2.seek_result = sr)

/-- The slot `i` of the cache holds a frame that answers a request for `pts`: its PTS
is `pts`, or `pts` lies in `[frame.pts, frame.pts + frame.duration)` with the sum as
the code computes it; in both cases its PTS is not after `pts`. -/
def answers (cache : framecache) (pts : Int) (i : Nat) : Prop :=
  ∃ fr, (resident cache)[i]? = some fr ∧
    (fr.pts = pts ∨ (fr.pts ≤ pts ∧ pts < wrap64 (fr.pts + fr.avf.duration))) ∧ ¬ fr.pts > pts

/-- Every frame that `cache_next_frame` admits from `packets` has a PTS. -/
def stream_has_pts (stream_index : Int) (packets : List stream_packet) : Prop :=
  ∀ p ∈ packets, ∀ avf, admitted stream_index p avf → avf.pts ≠ AV_NOPTS_VALUE

/-- A loader state built from frames with a PTS: the cache satisfies `cache_ok`, and the
stream delivers only frames with a PTS, from where it is and after any seek. -/
def loader_ok (cache : framecache) (av : av_state) (stream_index : Int) : Prop :=
  cache_ok cache ∧ stream_has_pts stream_index av.packets ∧
    ∀ s t f l, av.seek_result s t f = some l → stream_has_pts stream_index l

/-! ## A small stream, used to run the loader -/

/-- Three packets of stream 0 that decode to the frames with PTS 0, 3003 and 6006, each
lasting 3003. -/
def sample_packets : List stream_packet :=
  [{ stream_index := 0, pos := 0, decoded := decode_result.frame { pts := 0, duration := 3003 } },
   { stream_index := 0, pos := 188,
     decoded := decode_result.frame { pts := 3003, duration := 3003 } },
   { stream_index := 0, pos := 376,
     decoded := decode_result.frame { pts := 6006, duration := 3003 } }]

/-- The demuxer after the first packet of `sample_packets` was read; a seek goes back to
the first packet. -/
def sample_av : av_state :=
  { packets := sample_packets.drop 1, seek_result := fun _ _ _ => some sample_packets, calls := [] }

/-- The cache of `serve_stream` (120 slots, delta 3003, thresholds 30 and 40) holding the
frame with PTS 0. -/
def sample_cache : framecache :=
  cache_after 120 3003 30 40 [{ pts := 0, duration := 3003 }]

/-- A stream whose second and third frame leave the decoder out of PTS order. -/
def unordered_av : av_state :=
  { packets :=
      [{ stream_index := 0, pos := 0, decoded := decode_result.frame { pts := 0 } },
       { stream_index := 0, pos := 188, decoded := decode_result.frame { pts := 6006 } },
       { stream_index := 0, pos := 376, decoded := decode_result.frame { pts := 3003 } }]
    seek_result := fun _ _ _ => none
    calls := [] }

/-! ## Predicates on the seek index -/

/-- The index is sorted by PTS, non-decreasing. -/
def index_sorted (indices : List video_stream_frame_index) : Prop :=
  List.Pairwise (fun a b : video_stream_frame_index => a.pts ≤ b.pts) indices

instance (indices : List video_stream_frame_index) : Decidable (index_sorted indices) := by
  unfold index_sorted
  infer_instance

/-- A sorted index of three key frames. -/
def sample_index : List video_stream_frame_index :=
  [{ pts := 18000, pos := 0 }, { pts := 21003, pos := 188 }, { pts := 24006, pos := 376 }]

/-- A sorted index whose last PTS is more than `2^31` after the others. -/
def wide_index : List video_stream_frame_index :=
  [{ pts := 0, pos := 0 }, { pts := 1000, pos := 188 }, { pts := 3000000000, pos := 376 }]

/-! ## Double precision (`double`)

A finite `double` is the rational number it stands for.  An operation on doubles is the
exact operation followed by `to_double`, the rounding of IEEE 754 binary64 to the
nearest value with a 53 bit significand, ties to even.  The values of the scene score
stay far inside the exponent range of binary64, so overflow and subnormal numbers are
left out.  A result that is not finite (a division by zero) is `none`. -/

/-- Rounding of a rational number to the nearest integer, ties to the even one. -/
def round_even (x : ℚ) : ℤ :=
  if x - ⌊x⌋ < 1 / 2 then ⌊x⌋
  else if 1 / 2 < x - ⌊x⌋ then ⌊x⌋ + 1
  else if ⌊x⌋ % 2 = 0 then ⌊x⌋ else ⌊x⌋ + 1

/-- The unit in the last place of the binary64 value nearest to `q ≠ 0`. -/
def double_ulp (q : ℚ) : ℚ :=
  (2 : ℚ) ^ (Int.log 2 |q| - 52)

/-- Rounding of a rational number to binary64. -/
def to_double (q : ℚ) : ℚ :=
  if q = 0 then 0 else (round_even (q / double_ulp q) : ℚ) * double_ulp q

/-- The conversion `(int)x` of a finite double: the integral part when it fits an
`int`, undefined (`none`) otherwise. -/
def double_to_int (x : ℚ) : Option Int :=
  if -2147483649 < x ∧ x < 2147483648 then some (if 0 ≤ x then ⌊x⌋ else ⌈x⌉) else none

/-! ## Scene detection (`scene_detect.c`) -/

def MAX_SCENE_CHANGE_SCORE : Int := 10000

/-- The record `struct scene_detect_context`. -/
structure scene_detect_context where
  last_y_sum : ℚ

/-- The bytes that the two loops of `calc_frame_sum` read, in the order they read them:
`y[linesize * h + w]` for each row `h < height` and each `w < width`. -/
def luma_bytes (avf : AVFrame) : List Nat :=
  (List.range avf.height).flatMap fun h =>
    (List.range avf.width).map fun w => avf.data.getD (avf.linesize * h + w) 0 % 256

/-- The function `calc_frame_sum`: `sum += data[w]` in double precision over the bytes
of the luma plane. -/
def calc_frame_sum (avf : AVFrame) : ℚ :=
  (luma_bytes avf).foldl (fun (sum : ℚ) (y : Nat) => to_double (sum + (y : ℚ))) 0

/-- The exact sum of the bytes of the luma plane. -/
def luma_sum (avf : AVFrame) : Nat :=
  (luma_bytes avf).sum

/-- The function `init_scene_detect_context`; the frame pointer may be `NULL` (`none`),
which the function dereferences: `none` is that fault. -/
def init_scene_detect_context (fr : Option frame) : Option scene_detect_context :=
  match fr with
  | none => none
  | some fr => some { last_y_sum := calc_frame_sum fr.avf }

/-- The function `score_scene_change`: the score and the context it leaves.  The score
is `none` when the conversion to `int` is undefined: the previous sum is 0 (the
quotient is not finite) or the value does not fit an `int`. -/
def score_scene_change (context : scene_detect_context) (fr : frame) :
    Option Int × scene_detect_context :=
  let sum := context.last_y_sum
  let new_sum := calc_frame_sum fr.avf
  let score :=
    if sum = 0 then none
    else
      double_to_int
        (to_double (to_double (|to_double (new_sum - sum)| / sum) *
          (MAX_SCENE_CHANGE_SCORE : ℚ)))
  (score, { last_y_sum := new_sum })

/-! ## Serve loop (`serve.c`) -/

def NICM_SERVE_COMMAND_QUIT : Int := 0

def NICM_SERVE_COMMAND_INFO : Int := 1

def NICM_SERVE_COMMAND_IMAGE : Int := 2

def NICM_SERVE_COMMAND_SCENE_DETECT : Int := 256

def SCENE_DETECT_MAX_FRAMES : Int := 2000

def SCENE_DETECT_DEFAULT_FRAMES : Int := 100

/-- The record `struct nicm_serve_command`: 64 bytes, a command code and seven
arguments. -/
structure nicm_serve_command where
  command : Int
  args : Fin 7 → Int

/-- The record `struct nicm_serve_response`: the 16 byte header of a response. -/
structure nicm_serve_response where
  code : Int
  size : Int
  deriving DecidableEq, Repr

/-- What `fwrite` puts on the output pipe: a response header, or payload bytes. -/
inductive pipe_write where
  | header (response : nicm_serve_response)
  | payload (data : List Nat)
  deriving DecidableEq, Repr

/-- The function `send_response`: the header, then `size` bytes of `data` when
`size > 0`.  Write errors are not modelled; no caller looks at the result. -/
def send_response (output : List pipe_write) (code : Int) (size : Nat) (data : List Nat) :
    List pipe_write :=
  let output := output ++ [pipe_write.header { code := code, size := (size : Int) }]
  if size > 0 then output ++ [pipe_write.payload (data.take size)] else output

/-- The function `send_response_json`, on the text that `json_dumps` gives. -/
def send_response_json (output : List pipe_write) (code : Int) (json_str : List Nat) :
    List pipe_write :=
  send_response output code json_str.length json_str

/-- What scaling a decoded frame and encoding it gives: `avcodec_send_frame` fails,
`avcodec_receive_packet` fails, or there is a packet. -/
inductive encode_result where
  | send_failed
  | receive_failed
  | packet (p : AVPacket)
  deriving DecidableEq, Repr

/-- What `serve_stream` sets up before its loop and does not change in it, and the
libraries it calls: the stream, the seek index (`none` without the option `-b`), the
text that `handle_info_command` returns (`none` for `NULL`), the scaler and encoder of
each variant, and `json_dumps` on the object `{"scores": [...]}`. -/
structure serve_env where
  stream_index : Int
  indices : Option (List video_stream_frame_index)
  frames_in_indices : Nat
  info : Option (List Nat)
  encode : AVFrame → Nat → encode_result
  dumps_scores : List Int → List Nat

/-- What the loop of `serve_stream` changes: the cache, the demuxer and the decoder,
the log of the runs of the encoder (PTS of the frame and variant), and the bytes
written to the pipe. -/
structure serve_state where
  cache : framecache
  av : av_state
  encodes : List (Int × Nat)
  output : List pipe_write

/-- How the handling of a command ends: the loop goes on, the loop is left (`QUIT`),
or the process faults (a `NULL` pointer is dereferenced or a conversion is undefined). -/
inductive serve_status where
  | running
  | quit
  | fault
  deriving DecidableEq, Repr

/-- The number `max_frame` that the `SCENE_DETECT` handler computes from `args[2]`. -/
def scene_detect_max_frame (arg2 : Int) : Int :=
  if arg2 > 0 then
    if arg2 > SCENE_DETECT_MAX_FRAMES then SCENE_DETECT_MAX_FRAMES else arg2
  else SCENE_DETECT_DEFAULT_FRAMES

/-- The number `cut_off` that the `SCENE_DETECT` handler computes from `args[3]`. -/
def scene_detect_cut_off (arg3 : Int) : Int :=
  if arg3 > 0 ∧ arg3 < MAX_SCENE_CHANGE_SCORE then arg3 else MAX_SCENE_CHANGE_SCORE

/-- The branch of the `IMAGE` handler for a frame that the loader returned, slot `i` of
the cache: the variant `imageOpt` is encoded unless the slot holds it already, and sent. -/
def serve_image_found (env : serve_env) (st : serve_state) (cache : framecache) (av : av_state)
    (i imageOpt : Nat) : serve_status × serve_state :=
  let fr := cache.frames.getD i zero_frame
  match fr.encoded.getD imageOpt none with
  | some p =>
    (serve_status.running,
      { st with cache := cache, av := av,
                output := send_response st.output 0 p.data.length p.data })
  | none =>
    let encodes := st.encodes ++ [(fr.pts, imageOpt)]
    match env.encode fr.avf imageOpt with
    | encode_result.send_failed =>
      (serve_status.running,
        { cache := cache, av := av, encodes := encodes,
          output := send_response st.output 500 0 [] })
    | encode_result.receive_failed =>
      (serve_status.running,
        { cache := cache, av := av, encodes := encodes,
          output := send_response st.output 500 0 [] })
    | encode_result.packet p =>
      let fr := { fr with encoded := fr.encoded.set imageOpt (some p) }
      (serve_status.running,
        { cache := { cache with frames := cache.frames.set i fr }, av := av,
          encodes := encodes,
          output := send_response st.output 0 p.data.length p.data })

/-- The branch `NICM_SERVE_COMMAND_IMAGE` of the loop of `serve_stream`. -/
def serve_image (env : serve_env) (st : serve_state) (cmd : nicm_serve_command) :
    serve_status × serve_state :=
  if cmd.args 2 < 0 ∨ cmd.args 2 ≥ 8 then
    (serve_status.running, { st with output := send_response st.output 400 0 [] })
  else
    let r := load_frame st.cache st.av env.stream_index (cmd.args 0) env.indices
      env.frames_in_indices
    match r.1 with
    | none =>
      (serve_status.running,
        { st with cache := r.2.1, av := r.2.2, output := send_response st.output 404 0 [] })
    | some i => serve_image_found env st r.2.1 r.2.2 i (cmd.args 2).toNat

/-- The loop `for (f = 1; f <= max_frame; f++)` of the `SCENE_DETECT` handler, with
`rounds` rounds left; `none` is the fault of an undefined score. -/
def scene_detect_loop (env : serve_env) (pts : Int) (backward : Bool) (cut_off : Int) :
    Nat → Int → scene_detect_context → framecache → av_state → List Int →
      Option (List Int × framecache × av_state)
  | 0, _, _, cache, av, scores => some (scores, cache, av)
  | rounds + 1, f, sd, cache, av, scores =>
    let target :=
      if backward then wrap64 (pts - wrap64 (f * cache.delta))
      else wrap64 (pts + wrap64 (f * cache.delta))
    match load_frame cache av env.stream_index target env.indices env.frames_in_indices with
    | (none, cache, av) => some (scores, cache, av)
    | (some i, cache, av) =>
      match score_scene_change sd (cache.frames.getD i zero_frame) with
      | (none, _) => none
      | (some score, sd) =>
        if score > cut_off then some (scores ++ [score], cache, av)
        else scene_detect_loop env pts backward cut_off rounds (f + 1) sd cache av
          (scores ++ [score])

/-- The `SCENE_DETECT` handler from `init_scene_detect_context` on: `fr` is the base
frame that the loader returned (`none` for `NULL`) and `output` the pipe so far. -/
def serve_scene_detect_scores (env : serve_env) (st : serve_state) (cmd : nicm_serve_command)
    (cache : framecache) (av : av_state) (output : List pipe_write) (fr : Option frame) :
    serve_status × serve_state :=
  let backward := decide (cmd.args 1 % 2 = 1)
  let max_frame := scene_detect_max_frame (cmd.args 2)
  let cut_off := scene_detect_cut_off (cmd.args 3)
  match init_scene_detect_context fr with
  | none => (serve_status.fault, { st with cache := cache, av := av, output := output })
  | some sd =>
    match scene_detect_loop env (cmd.args 0) backward cut_off max_frame.toNat 1 sd cache av [] with
    | none => (serve_status.fault, { st with cache := cache, av := av, output := output })
    | some r =>
      (serve_status.running,
        { st with cache := r.2.1, av := r.2.2,
                  output := send_response_json output 0 (env.dumps_scores r.1) })

/-- The branch `NICM_SERVE_COMMAND_SCENE_DETECT` of the loop of `serve_stream`.  After
the response 404 for an absent base frame the code goes on to
`init_scene_detect_context` with the `NULL` frame. -/
def serve_scene_detect (env : serve_env) (st : serve_state) (cmd : nicm_serve_command) :
    serve_status × serve_state :=
  let r := load_frame st.cache st.av env.stream_index (cmd.args 0) env.indices
    env.frames_in_indices
  let output :=
    match r.1 with
    | none => send_response st.output 404 0 []
    | some _ => st.output
  serve_scene_detect_scores env st cmd r.2.1 r.2.2 output
    (r.1.map fun i => r.2.1.frames.getD i zero_frame)

/-- The body of the loop of `serve_stream` for one command read from the input. -/
def serve_command (env : serve_env) (st : serve_state) (cmd : nicm_serve_command) :
    serve_status × serve_state :=
  if cmd.command = NICM_SERVE_COMMAND_QUIT then
    (serve_status.quit, { st with output := send_response st.output 0 0 [] })
  else if cmd.command = NICM_SERVE_COMMAND_INFO then
    match env.info with
    | some result =>
      (serve_status.running, { st with output := send_response st.output 0 result.length result })
    | none => (serve_status.running, { st with output := send_response st.output 500 0 [] })
  else if cmd.command = NICM_SERVE_COMMAND_IMAGE then serve_image env st cmd
  else if cmd.command = NICM_SERVE_COMMAND_SCENE_DETECT then serve_scene_detect env st cmd
  else (serve_status.running, st)

/-- The loop of `serve_stream` over the commands that `fread` delivers, until `QUIT`,
a fault, or the end of the input. -/
def serve_loop (env : serve_env) : serve_state → List nicm_serve_command → serve_status × serve_state
  | st, [] => (serve_status.running, st)
  | st, cmd :: rest =>
    match serve_command env st cmd with
    | (serve_status.running, st) => serve_loop env st rest
    | r => r

/-- The bytes that a command added to the pipe are one response: a header, followed by
as many payload bytes as its `size` says (no payload write when `size` is 0). -/
def one_response (before after : List pipe_write) : Prop :=
  ∃ code : Int, ∃ data : List Nat,
    after = before ++ (pipe_write.header { code := code, size := (data.length : Int) } ::
      (if data.length > 0 then [pipe_write.payload data] else []))

/-! ## A small server, used to run the handlers -/

/-- The command record with the given code and the arguments `args[0]`, `args[1]`,
`args[2]` and `args[3]`; the other arguments are 0. -/
def command_of (command a0 a1 a2 a3 : Int) : nicm_serve_command :=
  { command := command, args := ![a0, a1, a2, a3, 0, 0, 0] }

/-- An environment for stream 0 without a seek index, whose encoder gives the two
bytes "PTS of the frame mod 256" and "variant". -/
def sample_env : serve_env :=
  { stream_index := 0
    indices := none
    frames_in_indices := 0
    info := some [123, 125]
    encode := fun avf k => encode_result.packet { data := [avf.pts.toNat % 256, k] }
    dumps_scores := fun scores => [123] ++ scores.map Int.toNat ++ [125] }

/-- The server state over `sample_cache` and `sample_av`, nothing written yet. -/
def sample_state : serve_state :=
  { cache := sample_cache, av := sample_av, encodes := [], output := [] }

/-- A frame of one row whose luma plane holds the given bytes. -/
def luma_frame (bytes : List Nat) : frame :=
  frame_of { pts := 0, width := bytes.length, height := 1, linesize := bytes.length,
             data := bytes }

/-! ## Start of `serve_stream` (`serve.c`): `delta` and the encode configurations -/

/-- The record `AVRational` of libavutil: two `int`. -/
structure AVRational where
  num : Int
  den : Int
  deriving DecidableEq, Repr

/-- The division `a / b` of two `int`: the quotient cut towards zero; C leaves it undefined
(`none`) for the divisor 0 and for `INT_MIN / -1`. -/
def int_div (a b : Int) : Option Int :=
  if b = 0 ∨ (a = -2147483648 ∧ b = -1) then none else some (Int.tdiv a b)

/-- The `delta` that `serve_stream` computes,
`r_frame_rate.den * time_base.den / r_frame_rate.num / time_base.num`: a product and two
divisions in `int`, from left to right; the result is then widened to `long`. -/
def serve_delta (r_frame_rate time_base : AVRational) : Option Int :=
  (int_div (wrap32 (r_frame_rate.den * time_base.den)) r_frame_rate.num).bind fun q =>
    int_div q time_base.num

/-- The pixel formats that `serve_stream` gives its encoders. -/
inductive AVPixelFormat where
  | AV_PIX_FMT_RGB24
  | AV_PIX_FMT_YUVJ420P
  deriving DecidableEq, Repr

/-- The codecs that `serve_stream` looks up with `avcodec_find_encoder`. -/
inductive AVCodecID where
  | AV_CODEC_ID_PNG
  | AV_CODEC_ID_MJPEG
  deriving DecidableEq, Repr

/-- The fields of `struct encode_configs` that the block "Transform Initialization" sets;
`encoder` is the codec that `avcodec_find_encoder` was asked for. -/
structure encode_configs where
  width : Int
  height : Int
  encoder : AVCodecID
  fmt : AVPixelFormat
  deriving DecidableEq, Repr

/-- The array `encode_configs[8]` after the block "Transform Initialization" of
`serve_stream` and the loop `for (i = 0; i < 4; i++)` that follows it, for the `width`,
`height` and `sample_aspect_ratio` of `stream->codecpar`.  The entries `i` and `i + 4`
get the same width and height; `none` when the division by `sample_aspect_ratio.den` is
undefined. -/
def init_encode_configs (width height : Int) (sample_aspect_ratio : AVRational) :
    Option (List encode_configs) :=
  let width0 := width
  let height0 := height
  let width1 := Int.tdiv width0 2
  let height1 := Int.tdiv height0 2
  match int_div (wrap32 (width * sample_aspect_ratio.num)) sample_aspect_ratio.den with
  | none => none
  | some width2 =>
    let height2 := height
    let width3 := Int.tdiv width2 2
    let height3 := Int.tdiv height2 2
    let sizes := [(width0, height0), (width1, height1), (width2, height2), (width3, height3)]
    some
      (sizes.map (fun s =>
          { width := s.1, height := s.2, encoder := AVCodecID.AV_CODEC_ID_PNG,
            fmt := AVPixelFormat.AV_PIX_FMT_RGB24 }) ++
        sizes.map (fun s =>
          { width := s.1, height := s.2, encoder := AVCodecID.AV_CODEC_ID_MJPEG,
            fmt := AVPixelFormat.AV_PIX_FMT_YUVJ420P }))

/-- The inter-frame PTS increment as the specification gives it:
`time_base.den × fps.den / (time_base.num × fps.num)`, rounded down. -/
def spec_delta (fps time_base : AVRational) : Int :=
  ⌊((time_base.den : ℚ) * (fps.den : ℚ)) / ((time_base.num : ℚ) * (fps.num : ℚ))⌋

/-- One row of the variant table of the specification. -/
def variant_row (width height : ℚ) (fmt : AVPixelFormat) (codec : AVCodecID) : encode_configs :=
  { width := ⌊width⌋, height := ⌊height⌋, encoder := codec, fmt := fmt }

/-- The variant table of the specification for a stream of width `W`, height `H` and
sample aspect ratio `SARn / SARd`, each quotient rounded down. -/
def variant_table (W H SARn SARd : Int) : List encode_configs :=
  [variant_row W H AVPixelFormat.AV_PIX_FMT_RGB24 AVCodecID.AV_CODEC_ID_PNG,
   variant_row ((W : ℚ) / 2) ((H : ℚ) / 2) AVPixelFormat.AV_PIX_FMT_RGB24
     AVCodecID.AV_CODEC_ID_PNG,
   variant_row ((W : ℚ) * SARn / SARd) H AVPixelFormat.AV_PIX_FMT_RGB24
     AVCodecID.AV_CODEC_ID_PNG,
   variant_row ((W : ℚ) * SARn / (2 * SARd)) ((H : ℚ) / 2) AVPixelFormat.AV_PIX_FMT_RGB24
     AVCodecID.AV_CODEC_ID_PNG,
   variant_row W H AVPixelFormat.AV_PIX_FMT_YUVJ420P AVCodecID.AV_CODEC_ID_MJPEG,
   variant_row ((W : ℚ) / 2) ((H : ℚ) / 2) AVPixelFormat.AV_PIX_FMT_YUVJ420P
     AVCodecID.AV_CODEC_ID_MJPEG,
   variant_row ((W : ℚ) * SARn / SARd) H AVPixelFormat.AV_PIX_FMT_YUVJ420P
     AVCodecID.AV_CODEC_ID_MJPEG,
   variant_row ((W : ℚ) * SARn / (2 * SARd)) ((H : ℚ) / 2) AVPixelFormat.AV_PIX_FMT_YUVJ420P
     AVCodecID.AV_CODEC_ID_MJPEG]

/-! ## Transport stream check (`check.c`) -/

def TS_PACKET_SIZE : Nat := 188

def TS_SYNC_BYTE : Nat := 0x47

def TS_PID_COUNT : Nat := 0x2000

/-- The record `struct pid_info`; its four fields are `int`. -/
structure pid_info where
  total : Int
  dropped : Int
  scrambled : Int
  next_counter : Int
  deriving DecidableEq, Repr

/-- The local variables of `perform_check`: the array `pid_info[TS_PID_COUNT]`, as the
function from the index to the entry, the counter `error_packet`, and the number of lines
"Error: error in the logic." written to `stderr`. -/
structure check_state where
  pid_info : Nat → pid_info
  error_packet : Int
  logic_errors : Nat

/-- The byte `packet[i]` of a buffer of `uint8_t`. -/
def packet_byte (packet : List Nat) (i : Nat) : Nat :=
  packet.getD i 0 % 256

/-- The expression `(((int)packet[1] & 0x1f) << 8) | packet[2]` of `perform_check`. -/
def packet_pid (packet : List Nat) : Int :=
  ((((packet_byte packet 1 &&& 0x1f) <<< 8) ||| packet_byte packet 2 : Nat) : Int)

/-- The block `if (packet[3] & 0x10) { ... }` of `perform_check` on the entry of the PID.
For an `int` in two's complement `next_counter & 0x0f` is `next_counter % 16`. -/
def check_continuity (info : pid_info) (packet : List Nat) : pid_info :=
  if packet_byte packet 3 &&& 0x10 ≠ 0 then
    let continuity_counter : Int := ((packet_byte packet 3 &&& 0x0f : Nat) : Int)
    let info :=
      if info.next_counter ≠ 0 ∧ info.next_counter % 16 ≠ continuity_counter then
        { info with dropped := wrap32 (info.dropped + 1) }
      else info
    { info with next_counter := continuity_counter + 1 }
  else info

/-- The body of the `while` loop of `perform_check` for one packet of 188 bytes read. -/
def check_packet (st : check_state) (packet : List Nat) : check_state :=
  if packet_byte packet 0 ≠ TS_SYNC_BYTE then
    { st with error_packet := wrap32 (st.error_packet + 1) }
  else
    let pid := packet_pid packet
    if pid < 0 ∨ pid > 0x1fff then { st with logic_errors := st.logic_errors + 1 }
    else
      let info := st.pid_info pid.toNat
      let info := { info with total := wrap32 (info.total + 1) }
      let info := check_continuity info packet
      let info :=
        if packet_byte packet 3 &&& 0xc0 ≠ 0 then
          { info with scrambled := wrap32 (info.scrambled + 1) }
        else info
      { st with pid_info := Function.update st.pid_info pid.toNat info }

/-- The buffers that the calls `fread(packet, 1, TS_PACKET_SIZE, input)` of the loop fill
while they return `TS_PACKET_SIZE`: the successive blocks of 188 bytes of the input; a
shorter rest ends the loop. -/
def read_packets (input : List Nat) : List (List Nat) :=
  (List.range (input.length / TS_PACKET_SIZE)).map fun i =>
    (input.drop (TS_PACKET_SIZE * i)).take TS_PACKET_SIZE

/-- The array `pid_info` as `= {}` leaves it, with the other local variables. -/
def check_init : check_state :=
  { pid_info := fun _ => { total := 0, dropped := 0, scrambled := 0, next_counter := 0 }
    error_packet := 0
    logic_errors := 0 }

/-- The `while` loop of `perform_check` on the bytes of the input. -/
def check_loop (input : List Nat) : check_state :=
  (read_packets input).foldl check_packet check_init

/-- The function `perform_check`: the members of the JSON object `result`, in the order
they are set: for each PID `i` with `total > 0` the key `i` (written in hexadecimal) and
the values of "total", "dropped" and "scrambled". -/
def perform_check (input : List Nat) : List (Nat × pid_info) :=
  ((List.range TS_PID_COUNT).filter fun i => decide (((check_loop input).pid_info i).total > 0)).map
    fun i => (i, (check_loop input).pid_info i)

/-- The PID of a packet as the specification gives it: the 16 bit value of the bytes 1
and 2, high byte first, masked with `0x1fff`. -/
def ts_pid (packet : List Nat) : Nat :=
  (256 * packet_byte packet 1 + packet_byte packet 2) &&& 0x1fff

/-- The continuity counters (low 4 bits of byte 3) of the packets of a PID that start
with the sync byte and bear a payload (byte 3 `& 0x10`), in the order of the stream. -/
def payload_counters (pid : Nat) (packets : List (List Nat)) : List Nat :=
  (packets.filter fun p =>
    decide (packet_byte p 0 = TS_SYNC_BYTE ∧ ts_pid p = pid ∧ packet_byte p 3 &&& 0x10 ≠ 0)).map
    fun p => packet_byte p 3 &&& 0x0f

/-- The number of counters of the list, the first one apart, that differ from the counter
before them plus one modulo 16. -/
def discontinuities : List Nat → Nat
  | a :: b :: rest => (if b ≠ (a + 1) % 16 then 1 else 0) + discontinuities (b :: rest)
  | _ => 0

/-- The count of `discontinuities` for a list of counters that follows a packet which left
`next_counter` in the entry of the PID (0 when there was none before). -/
def discontinuities_from (next_counter : Int) : List Nat → Nat
  | [] => 0
  | c :: rest =>
    (if next_counter ≠ 0 ∧ next_counter % 16 ≠ (c : Int) then 1 else 0) +
      discontinuities_from ((c : Int) + 1) rest

/-- A packet of 188 bytes: the sync byte, the PID in the bytes 1 and 2, the byte 3, and
184 bytes of value 0. -/
def ts_packet (pid byte3 : Nat) : List Nat :=
  [0x47, pid / 256, pid % 256, byte3] ++ List.replicate 184 0

/-- An input of six packets and a rest of two bytes: the PID `0x100` with the byte 3
`0x1e`, `0x1f`, `0x10` (payload, counters 14, 15, 0), a packet of the PID `0x101`, the PID
`0x100` with the byte 3 `0x22` (no payload) and `0x12` (payload, counter 2). -/
def sample_ts : List Nat :=
  ts_packet 0x100 0x1e ++ ts_packet 0x100 0x1f ++ ts_packet 0x100 0x10 ++ ts_packet 0x101 0x15 ++
    ts_packet 0x100 0x22 ++ ts_packet 0x100 0x12 ++ [0x47, 0x01]

/-! ## Sample data for the seek index, the encode cache and the scene walk -/

/-- What `send_response` writes for a response with the code 0 and the payload `data`. -/
def image_response (data : List Nat) : List pipe_write :=
  send_response [] 0 data.length data

/-- The target of the step `f` of the loop of the `SCENE_DETECT` handler:
`backward ? pts - f * cache.delta : pts + f * cache.delta`. -/
def walk_target (pts : Int) (backward : Bool) (f delta : Int) : Int :=
  if backward then wrap64 (pts - wrap64 (f * delta)) else wrap64 (pts + wrap64 (f * delta))

/-- The key frames of `sample_index` as packets of stream 0, at the byte positions 0, 188
and 376. -/
def index_packets : List stream_packet :=
  [{ stream_index := 0, pos := 0,
     decoded := decode_result.frame { pts := 18000, duration := 3003 } },
   { stream_index := 0, pos := 188,
     decoded := decode_result.frame { pts := 21003, duration := 3003 } },
   { stream_index := 0, pos := 376,
     decoded := decode_result.frame { pts := 24006, duration := 3003 } }]

/-- A demuxer over `index_packets` that has read them all; a seek by byte goes to the
packets from that byte position on, another seek to the first packet. -/
def index_av : av_state :=
  { packets := []
    seek_result := fun _ timestamp flags =>
      if flags = AVSEEK_FLAG_BYTE then
        some (index_packets.filter fun p => decide (p.pos ≥ timestamp))
      else some index_packets
    calls := [] }

/-- The cache of `serve_stream` holding the frame with PTS 24006. -/
def index_cache : framecache :=
  cache_after 120 3003 30 40 [{ pts := 24006, duration := 3003 }]

/-- Three packets of stream 0 that decode to frames of one pixel with the luma bytes 3, 5
and 5, at the PTS 0, 3003 and 6006. -/
def luma_packets : List stream_packet :=
  [{ stream_index := 0, pos := 0,
     decoded := decode_result.frame
       { pts := 0, duration := 3003, width := 1, height := 1, linesize := 1, data := [3] } },
   { stream_index := 0, pos := 188,
     decoded := decode_result.frame
       { pts := 3003, duration := 3003, width := 1, height := 1, linesize := 1, data := [5] } },
   { stream_index := 0, pos := 376,
     decoded := decode_result.frame
       { pts := 6006, duration := 3003, width := 1, height := 1, linesize := 1, data := [5] } }]

/-- The server state after the first packet of `luma_packets` was read and its frame
admitted to the cache. -/
def luma_state : serve_state :=
  { cache := cache_after 120 3003 30 40
      [{ pts := 0, duration := 3003, width := 1, height := 1, linesize := 1, data := [3] }]
    av := { packets := luma_packets.drop 1, seek_result := fun _ _ _ => some luma_packets,
            calls := [] }
    encodes := []
    output := [] }

/-! ## Slots and resident frames -/

theorem take_store_frame (frames : List frame) (n : Nat) (fr : frame) (h : n ≤ frames.length) :
    (store_frame frames n fr).take (n + 1) = frames.take n ++ [fr] := by
  unfold store_frame
  rw [List.take_append_eq_append_take]
  simp [List.length_take, Nat.min_eq_left h, List.take_take]

theorem length_store_frame (frames : List frame) (n : Nat) (fr : frame) (h : n ≤ frames.length) :
    n + 1 ≤ (store_frame frames n fr).length := by
  unfold store_frame
  simp [List.length_take, Nat.min_eq_left h]

theorem take_memmove_frames (frames : List frame) (n s : Nat) (h : n ≤ frames.length)
    (hs : s ≤ n) :
    (memmove_frames frames s (n - s)).take (n - s) = (frames.take n).drop s := by
  unfold memmove_frames
  rw [List.take_append_eq_append_take]
  have hlen : ((frames.drop s).take (n - s)).length = n - s := by
    simp [List.length_take, List.length_drop]
    omega
  rw [hlen]
  simp [List.take_take]
  rw [List.drop_take]

theorem length_memmove_frames (frames : List frame) (n s : Nat) (h : n ≤ frames.length)
    (hs : s ≤ n) :
    n - s ≤ (memmove_frames frames s (n - s)).length := by
  unfold memmove_frames
  simp [List.length_take, List.length_drop]
  omega


theorem num_frames_slide (c : framecache) :
    (slide_framecache c).num_frames = c.num_frames - c.num_allocated_frames / 4 := rfl

theorem frames_slide (c : framecache) :
    (slide_framecache c).frames =
      memmove_frames c.frames (c.num_allocated_frames / 4)
        (c.num_frames - c.num_allocated_frames / 4) := rfl

theorem num_allocated_slide (c : framecache) :
    (slide_framecache c).num_allocated_frames = c.num_allocated_frames := rfl

theorem resident_slide (c : framecache) (h : slots_ok c)
    (hfull : c.num_frames = c.num_allocated_frames) :
    resident (slide_framecache c) = (resident c).drop (c.num_allocated_frames / 4) := by
  unfold resident
  rw [num_frames_slide, frames_slide]
  exact take_memmove_frames c.frames c.num_frames _ h (by omega)

theorem slots_ok_slide (c : framecache) (h : slots_ok c)
    (hfull : c.num_frames = c.num_allocated_frames) :
    slots_ok (slide_framecache c) := by
  unfold slots_ok
  rw [num_frames_slide, frames_slide]
  exact length_memmove_frames c.frames c.num_frames _ h (by omega)

/-- The cache on which `add_framecache` appends: the cache itself, or what the eviction
block leaves of it. -/
theorem add_framecache_eq (c : framecache) (avf : AVFrame) :
    add_framecache c avf =
      (let c1 := if c.num_frames = c.num_allocated_frames then slide_framecache c else c
       { c1 with
         frames := store_frame c1.frames c1.num_frames (frame_of avf)
         num_frames := c1.num_frames + 1
         pts_range_start := (recalculate_step (c1.pts_range_start, c1.pts_range_end) (frame_of avf)).1
         pts_range_end := (recalculate_step (c1.pts_range_start, c1.pts_range_end) (frame_of avf)).2
         pts_last := avf.pts }) := rfl

theorem resident_add (c : framecache) (avf : AVFrame) (h : slots_ok c) :
    resident (add_framecache c avf) =
      (if c.num_frames = c.num_allocated_frames then
        (resident c).drop (c.num_allocated_frames / 4) else resident c) ++ [frame_of avf] := by
  by_cases hfull : c.num_frames = c.num_allocated_frames
  · have h1 := slots_ok_slide c h hfull
    have h2 := resident_slide c h hfull
    simp only [add_framecache, resident, if_pos hfull] at *
    rw [take_store_frame _ _ _ h1, h2]
  · simp only [add_framecache, resident, if_neg hfull]
    rw [take_store_frame _ _ _ h]

theorem slots_ok_add (c : framecache) (avf : AVFrame) (h : slots_ok c) :
    slots_ok (add_framecache c avf) := by
  by_cases hfull : c.num_frames = c.num_allocated_frames
  · have h1 := slots_ok_slide c h hfull
    simp only [add_framecache, slots_ok, if_pos hfull] at *
    exact length_store_frame _ _ _ h1
  · simp only [add_framecache, slots_ok, if_neg hfull] at *
    exact length_store_frame _ _ _ h

theorem slots_ok_init (n : Nat) (d t a : Int) : slots_ok (init_framecache n d t a) := by
  simp [slots_ok, init_framecache]

theorem resident_init (n : Nat) (d t a : Int) : resident (init_framecache n d t a) = [] := by
  simp [resident, init_framecache]


theorem range_ok_step (l : List Int) (s e : Int) (fr : frame) (h : range_ok l s e)
    (hl : ∀ p ∈ l, p ≠ AV_NOPTS_VALUE) :
    range_ok (l ++ [fr.pts]) (recalculate_step (s, e) fr).1 (recalculate_step (s, e) fr).2 := by
  rcases h with ⟨hnil, hs, he⟩ | ⟨hs, he, hb⟩
  · subst hnil hs he
    right
    simp [recalculate_step]
  · have hs1 : s ≠ AV_NOPTS_VALUE := hl s hs
    have he1 : e ≠ AV_NOPTS_VALUE := hl e he
    right
    simp only [recalculate_step, hs1, he1, false_or]
    refine ⟨?_, ?_, ?_⟩
    · split
      · simp
      · simp [hs]
    · split
      · simp
      · simp [he]
    · intro p hp
      rw [List.mem_append, List.mem_singleton] at hp
      rcases hp with hp | hp
      · have := hb p hp
        constructor
        · split <;> omega
        · split <;> omega
      · subst hp
        constructor
        · split <;> omega
        · split <;> omega

theorem range_ok_foldl (l2 : List frame) (l1 : List frame) (s e : Int)
    (h : range_ok (l1.map (fun fr => fr.pts)) s e)
    (h1 : ∀ fr ∈ l1, fr.pts ≠ AV_NOPTS_VALUE) (h2 : ∀ fr ∈ l2, fr.pts ≠ AV_NOPTS_VALUE) :
    range_ok ((l1 ++ l2).map (fun fr => fr.pts)) (l2.foldl recalculate_step (s, e)).1
      (l2.foldl recalculate_step (s, e)).2 := by
  induction l2 generalizing l1 s e with
  | nil => simpa using h
  | cons fr rest ih =>
    have hstep := range_ok_step (l1.map (fun fr => fr.pts)) s e fr h (by
      intro p hp
      rw [List.mem_map] at hp
      obtain ⟨x, hx, rfl⟩ := hp
      exact h1 x hx)
    have := ih (l1 ++ [fr]) _ _ (by simpa using hstep) (by
      intro x hx
      rw [List.mem_append, List.mem_singleton] at hx
      rcases hx with hx | hx
      · exact h1 x hx
      · subst hx
        exact h2 _ (List.mem_cons_self _ _)) (by
      intro x hx
      exact h2 x (List.mem_cons_of_mem _ hx))
    simpa using this

theorem range_slide (c : framecache) :
    ((slide_framecache c).pts_range_start, (slide_framecache c).pts_range_end) =
      (resident (slide_framecache c)).foldl recalculate_step (AV_NOPTS_VALUE, AV_NOPTS_VALUE) := rfl

theorem cache_ok_slide (c : framecache) (h : cache_ok c)
    (hfull : c.num_frames = c.num_allocated_frames) : cache_ok (slide_framecache c) := by
  obtain ⟨hs, hn, _⟩ := h
  have hres := resident_slide c hs hfull
  have hn1 : ∀ fr ∈ resident (slide_framecache c), fr.pts ≠ AV_NOPTS_VALUE := by
    intro fr hfr
    rw [hres] at hfr
    exact hn fr.pts (List.mem_map_of_mem _ (List.mem_of_mem_drop hfr))
  refine ⟨slots_ok_slide c hs hfull, ?_, ?_⟩
  · intro p hp
    unfold resident_pts at hp
    rw [List.mem_map] at hp
    obtain ⟨x, hx, rfl⟩ := hp
    exact hn1 x hx
  · have := range_ok_foldl (resident (slide_framecache c)) [] AV_NOPTS_VALUE AV_NOPTS_VALUE
      (Or.inl ⟨rfl, rfl, rfl⟩) (by simp) hn1
    rw [← range_slide] at this
    simpa [resident_pts] using this

theorem cache_ok_append (c1 : framecache) (avf : AVFrame) (h : cache_ok c1)
    (hp : avf.pts ≠ AV_NOPTS_VALUE) :
    cache_ok
      { c1 with
        frames := store_frame c1.frames c1.num_frames (frame_of avf)
        num_frames := c1.num_frames + 1
        pts_range_start := (recalculate_step (c1.pts_range_start, c1.pts_range_end) (frame_of avf)).1
        pts_range_end := (recalculate_step (c1.pts_range_start, c1.pts_range_end) (frame_of avf)).2
        pts_last := avf.pts } := by
  obtain ⟨hs, hn, hr⟩ := h
  have hres : ∀ (a b c : Int), resident_pts
      { c1 with
        frames := store_frame c1.frames c1.num_frames (frame_of avf)
        num_frames := c1.num_frames + 1
        pts_range_start := a
        pts_range_end := b
        pts_last := c } = resident_pts c1 ++ [avf.pts] := by
    intro a b c
    simp only [resident_pts, resident]
    rw [take_store_frame _ _ _ hs]
    simp [frame_of]
  refine ⟨length_store_frame _ _ _ hs, ?_, ?_⟩
  · rw [hres]
    intro p hp1
    rw [List.mem_append, List.mem_singleton] at hp1
    rcases hp1 with hp1 | hp1
    · exact hn p hp1
    · rw [hp1]; exact hp
  · rw [hres]
    exact range_ok_step (resident_pts c1) _ _ (frame_of avf) hr hn

theorem cache_ok_add (c : framecache) (avf : AVFrame) (h : cache_ok c)
    (hp : avf.pts ≠ AV_NOPTS_VALUE) : cache_ok (add_framecache c avf) := by
  rw [add_framecache_eq]
  by_cases hfull : c.num_frames = c.num_allocated_frames
  · simp only [if_pos hfull]
    exact cache_ok_append _ avf (cache_ok_slide c h hfull) hp
  · simp only [if_neg hfull]
    exact cache_ok_append _ avf h hp

theorem cache_ok_init (n : Nat) (d t a : Int) : cache_ok (init_framecache n d t a) := by
  refine ⟨slots_ok_init n d t a, ?_, ?_⟩
  · simp [resident_pts, resident_init]
  · refine Or.inl ⟨?_, rfl, rfl⟩
    simp [resident_pts, resident_init]

theorem cache_ok_foldl (adds : List AVFrame) (c : framecache) (h : cache_ok c)
    (hp : ∀ avf ∈ adds, avf.pts ≠ AV_NOPTS_VALUE) : cache_ok (adds.foldl add_framecache c) := by
  induction adds generalizing c with
  | nil => exact h
  | cons avf rest ih =>
    simp only [List.foldl_cons]
    exact ih _ (cache_ok_add c avf h (hp avf (List.mem_cons_self _ _)))
      (fun x hx => hp x (List.mem_cons_of_mem _ hx))

theorem cache_ok_after (n : Nat) (d t a : Int) (adds : List AVFrame)
    (hp : ∀ avf ∈ adds, avf.pts ≠ AV_NOPTS_VALUE) : cache_ok (cache_after n d t a adds) :=
  cache_ok_foldl adds _ (cache_ok_init n d t a) hp


theorem scan_frames_none (p : frame → Prop) [DecidablePred p] (l : List frame) (i : Nat) :
    scan_frames (fun fr => decide (p fr)) l i = none ↔ ∀ fr ∈ l, ¬ p fr := by
  induction l generalizing i with
  | nil => simp [scan_frames]
  | cons fr rest ih =>
    by_cases h : p fr
    · simp [scan_frames, h]
    · simp [scan_frames, h, ih]

theorem scan_frames_some (p : frame → Prop) [DecidablePred p] (l : List frame) (i k : Nat) :
    scan_frames (fun fr => decide (p fr)) l i = some k ↔
      ∃ n, k = i + n ∧ first_index p l n := by
  induction l generalizing i with
  | nil =>
    simp [scan_frames, first_index]
  | cons fr rest ih =>
    by_cases h : p fr
    · simp only [scan_frames, h, decide_True, if_true, Option.some.injEq]
      constructor
      · intro hk
        refine ⟨0, by omega, ⟨fr, by simp, h⟩, ?_⟩
        intro j x hj
        omega
      · rintro ⟨n, hk, ⟨_, hfirst⟩⟩
        cases n with
        | zero => omega
        | succ m =>
          exact absurd h (hfirst 0 fr (by omega) (by simp))
    · simp only [scan_frames, h, decide_False, Bool.false_eq_true, if_false, ih]
      constructor
      · rintro ⟨n, hk, ⟨⟨x, hx, hpx⟩, hfirst⟩⟩
        refine ⟨n + 1, by omega, ⟨x, by simpa using hx, hpx⟩, ?_⟩
        intro j y hj hy
        cases j with
        | zero =>
          simp at hy
          subst hy
          exact h
        | succ m =>
          exact hfirst m y (by omega) (by simpa using hy)
      · rintro ⟨n, hk, ⟨⟨x, hx, hpx⟩, hfirst⟩⟩
        cases n with
        | zero =>
          simp at hx
          subst hx
          exact absurd hpx h
        | succ m =>
          refine ⟨m, by omega, ⟨x, by simpa using hx, hpx⟩, ?_⟩
          intro j y hj hy
          exact hfirst (j + 1) y (by omega) (by simpa using hy)

theorem first_index_mem (p : frame → Prop) (l : List frame) (n : Nat) (h : first_index p l n) :
    ∃ fr ∈ l, p fr := by
  obtain ⟨⟨fr, hfr, hp⟩, _⟩ := h
  exact ⟨fr, List.getElem?_mem hfr, hp⟩

theorem first_index_unique (p : frame → Prop) (l : List frame) (n m : Nat)
    (hn : first_index p l n) (hm : first_index p l m) : n = m := by
  obtain ⟨⟨x, hx, hpx⟩, hfn⟩ := hn
  obtain ⟨⟨y, hy, hpy⟩, hfm⟩ := hm
  rcases Nat.lt_trichotomy n m with h | h | h
  · exact absurd hpx (hfm n x h hx)
  · exact h
  · exact absurd hpy (hfn m y h hy)


theorem find_in_framecache_some (c : framecache) (pts : Int) (n : Nat)
    (hr : c.pts_range_start ≤ pts ∧ pts ≤ c.pts_range_end)
    (h : first_index (fun fr => fr.pts = pts) (resident c) n) :
    find_in_framecache c pts = (n : Int) := by
  have hs : scan_frames (fun fr => decide (fr.pts = pts)) (c.frames.take c.num_frames) 0
      = some n :=
    (scan_frames_some (fun fr => fr.pts = pts) _ 0 n).2 ⟨n, by omega, h⟩
  simp only [find_in_framecache, ge_iff_le, hr, and_self, if_true, hs]

theorem find_in_framecache_miss (c : framecache) (pts : Int)
    (h : ¬ (c.pts_range_start ≤ pts ∧ pts ≤ c.pts_range_end) ∨
      ∀ fr ∈ resident c, fr.pts ≠ pts) :
    find_in_framecache c pts =
      if wrap64 (pts - c.pts_last) > 0 ∧
          wrap64 (pts - c.pts_last) < wrap64 (c.delta * c.seek_threshold) then -2 else -1 := by
  by_cases hr : c.pts_range_start ≤ pts ∧ pts ≤ c.pts_range_end
  · rcases h with h | h
    · exact absurd hr h
    · have hs : scan_frames (fun fr => decide (fr.pts = pts)) (c.frames.take c.num_frames) 0
          = none :=
        (scan_frames_none (fun fr => fr.pts = pts) _ 0).2 h
      simp only [find_in_framecache, ge_iff_le, hr, and_self, if_true, hs]
  · simp only [find_in_framecache, ge_iff_le, hr, if_false]

theorem find_in_framecache_nonneg (c : framecache) (pts : Int)
    (h : 0 ≤ find_in_framecache c pts) :
    ∃ n : Nat, find_in_framecache c pts = (n : Int) ∧
      (c.pts_range_start ≤ pts ∧ pts ≤ c.pts_range_end) ∧
      first_index (fun fr => fr.pts = pts) (resident c) n := by
  by_cases hr : c.pts_range_start ≤ pts ∧ pts ≤ c.pts_range_end
  · cases hs : scan_frames (fun fr => decide (fr.pts = pts)) (c.frames.take c.num_frames) 0 with
    | none =>
      have hm := find_in_framecache_miss c pts
        (Or.inr ((scan_frames_none (fun fr => fr.pts = pts) _ 0).1 hs))
      rw [hm] at h
      split at h <;> omega
    | some n =>
      obtain ⟨m, hm, hfirst⟩ := (scan_frames_some (fun fr => fr.pts = pts) _ 0 n).1 hs
      have hnm : n = m := by omega
      subst hnm
      exact ⟨n, find_in_framecache_some c pts n hr hfirst, hr, hfirst⟩
  · have hm := find_in_framecache_miss c pts (Or.inl hr)
    rw [hm] at h
    split at h <;> omega

theorem find_nearest_frame_some (c : framecache) (pts : Int) (n : Nat)
    (hr : c.pts_range_start ≤ pts ∧ pts ≤ c.pts_range_end)
    (h : first_index (covers pts) (resident c) n) :
    find_nearest_frame c pts = (n : Int) := by
  have hs : scan_frames (fun fr => decide (covers pts fr)) (c.frames.take c.num_frames) 0
      = some n :=
    (scan_frames_some (covers pts) _ 0 n).2 ⟨n, by omega, h⟩
  simp only [find_nearest_frame, ge_iff_le, hr, and_self, if_true, hs]

theorem find_nearest_frame_miss (c : framecache) (pts : Int)
    (h : ¬ (c.pts_range_start ≤ pts ∧ pts ≤ c.pts_range_end) ∨
      ∀ fr ∈ resident c, ¬ covers pts fr) :
    find_nearest_frame c pts = -1 := by
  by_cases hr : c.pts_range_start ≤ pts ∧ pts ≤ c.pts_range_end
  · rcases h with h | h
    · exact absurd hr h
    · have hs : scan_frames (fun fr => decide (covers pts fr)) (c.frames.take c.num_frames) 0
          = none :=
        (scan_frames_none (covers pts) _ 0).2 h
      simp only [find_nearest_frame, ge_iff_le, hr, and_self, if_true, hs]
  · simp only [find_nearest_frame, ge_iff_le, hr, if_false]

theorem find_nearest_frame_nonneg (c : framecache) (pts : Int)
    (h : 0 ≤ find_nearest_frame c pts) :
    ∃ n : Nat, find_nearest_frame c pts = (n : Int) ∧
      (c.pts_range_start ≤ pts ∧ pts ≤ c.pts_range_end) ∧
      first_index (covers pts) (resident c) n := by
  by_cases hr : c.pts_range_start ≤ pts ∧ pts ≤ c.pts_range_end
  · cases hs : scan_frames (fun fr => decide (covers pts fr)) (c.frames.take c.num_frames) 0 with
    | none =>
      have hm := find_nearest_frame_miss c pts
        (Or.inr ((scan_frames_none (covers pts) _ 0).1 hs))
      rw [hm] at h
      omega
    | some n =>
      obtain ⟨m, hm, hfirst⟩ := (scan_frames_some (covers pts) _ 0 n).1 hs
      have hnm : n = m := by omega
      subst hnm
      exact ⟨n, find_nearest_frame_some c pts n hr hfirst, hr, hfirst⟩
  · have hm := find_nearest_frame_miss c pts (Or.inl hr)
    rw [hm] at h
    omega

theorem first_index_exists (p : frame → Prop) [DecidablePred p] (l : List frame)
    (h : ∃ fr ∈ l, p fr) : ∃ n, first_index p l n := by
  cases hs : scan_frames (fun fr => decide (p fr)) l 0 with
  | none =>
    obtain ⟨fr, hfr, hp⟩ := h
    exact absurd hp ((scan_frames_none p l 0).1 hs fr hfr)
  | some n =>
    obtain ⟨m, _, hfirst⟩ := (scan_frames_some p l 0 n).1 hs
    exact ⟨m, hfirst⟩

/-- In a cache that satisfies the range invariant a resident PTS lies in the range. -/
theorem cache_ok_in_range (c : framecache) (h : cache_ok c) (fr : frame) (hfr : fr ∈ resident c) :
    c.pts_range_start ≤ fr.pts ∧ fr.pts ≤ c.pts_range_end := by
  obtain ⟨_, _, hr⟩ := h
  have hmem : fr.pts ∈ resident_pts c := List.mem_map_of_mem _ hfr
  rcases hr with ⟨hnil, _, _⟩ | ⟨_, _, hb⟩
  · rw [hnil] at hmem
    simp at hmem
  · exact hb _ hmem

theorem cache_ok_find_iff (c : framecache) (h : cache_ok c) (pts : Int) :
    0 ≤ find_in_framecache c pts ↔ ∃ fr ∈ resident c, fr.pts = pts := by
  constructor
  · intro hf
    obtain ⟨n, _, _, hfirst⟩ := find_in_framecache_nonneg c pts hf
    exact first_index_mem _ _ _ hfirst
  · rintro ⟨fr, hfr, hp⟩
    obtain ⟨n, hfirst⟩ := first_index_exists (fun fr => fr.pts = pts) (resident c) ⟨fr, hfr, hp⟩
    have hr := cache_ok_in_range c h fr hfr
    rw [hp] at hr
    rw [find_in_framecache_some c pts n hr hfirst]
    omega


theorem num_frames_add (c : framecache) (avf : AVFrame) :
    (add_framecache c avf).num_frames =
      (if c.num_frames = c.num_allocated_frames then
        c.num_frames - c.num_allocated_frames / 4 else c.num_frames) + 1 := by
  unfold add_framecache
  split <;> rfl

theorem num_allocated_add (c : framecache) (avf : AVFrame) :
    (add_framecache c avf).num_allocated_frames = c.num_allocated_frames := by
  unfold add_framecache
  split <;> rfl

theorem slots_ok_foldl (adds : List AVFrame) (c : framecache) (h : slots_ok c) :
    slots_ok (adds.foldl add_framecache c) := by
  induction adds generalizing c with
  | nil => exact h
  | cons avf rest ih => exact ih _ (slots_ok_add c avf h)

theorem num_frames_add_le (c : framecache) (avf : AVFrame) (hcap : 4 ≤ c.num_allocated_frames)
    (h : c.num_frames ≤ c.num_allocated_frames) :
    (add_framecache c avf).num_frames ≤ (add_framecache c avf).num_allocated_frames ∧
      (add_framecache c avf).num_allocated_frames = c.num_allocated_frames := by
  rw [num_frames_add, num_allocated_add]
  have := Nat.div_mul_le_self c.num_allocated_frames 4
  split <;> omega

theorem num_frames_le_capacity (n : Nat) (d t a : Int) (adds : List AVFrame) (hcap : 4 ≤ n) :
    (cache_after n d t a adds).num_frames ≤ n ∧
      (cache_after n d t a adds).num_allocated_frames = n := by
  unfold cache_after
  induction adds using List.reverseRecOn with
  | nil => simp [init_framecache]
  | append_singleton rest avf ih =>
    rw [List.foldl_append, List.foldl_cons, List.foldl_nil]
    have := num_frames_add_le (rest.foldl add_framecache (init_framecache n d t a)) avf
      (by omega) (by omega)
    omega

/-- C1: with capacity 1 the second admission finds the cache full, evicts
`1 / 4 = 0` frames and appends all the same, so `num_frames` is 2 while
`num_allocated_frames` is 1. -/
theorem cache_bound_broken_at_capacity_one :
    (cache_after 1 3003 30 40 [{ pts := 0 }, { pts := 3003 }]).num_frames = 2 ∧
      (cache_after 1 3003 30 40 [{ pts := 0 }, { pts := 3003 }]).num_allocated_frames = 1 := by
  decide

theorem resident_after_ne_nil (n : Nat) (d t a : Int) (adds : List AVFrame) (h : adds ≠ []) :
    resident (cache_after n d t a adds) ≠ [] := by
  unfold cache_after
  induction adds using List.reverseRecOn with
  | nil => exact absurd rfl h
  | append_singleton rest avf _ =>
    rw [List.foldl_append, List.foldl_cons, List.foldl_nil]
    have hs : slots_ok (rest.foldl add_framecache (init_framecache n d t a)) :=
      slots_ok_foldl rest _ (slots_ok_init n d t a)
    rw [resident_add _ _ hs]
    simp

/-- C2, counterexample: after admitting a frame whose PTS is `AV_NOPTS_VALUE` and then
a frame with PTS 5 both frames are resident, `pts_range_start` is 5 and so is not
the smallest resident PTS. -/
theorem pts_range_start_not_min_with_nopts :
    resident_pts (cache_after 120 3003 30 40 [{ pts := AV_NOPTS_VALUE }, { pts := 5 }])
        = [AV_NOPTS_VALUE, 5] ∧
      (cache_after 120 3003 30 40 [{ pts := AV_NOPTS_VALUE }, { pts := 5 }]).pts_range_start = 5 ∧
      ¬ (∀ p ∈ resident_pts (cache_after 120 3003 30 40 [{ pts := AV_NOPTS_VALUE }, { pts := 5 }]),
          (cache_after 120 3003 30 40 [{ pts := AV_NOPTS_VALUE }, { pts := 5 }]).pts_range_start
            ≤ p) := by
  decide

/-- C2, amended: after one or more admissions of frames whose PTS is not
`AV_NOPTS_VALUE`, `pts_range_start ≤ pts_range_end`, both are PTS values of resident
frames, `pts_range_start` is the smallest resident PTS and `pts_range_end` the
largest. -/
theorem pts_range_is_min_max (n : Nat) (d t a : Int) (adds : List AVFrame) (hne : adds ≠ [])
    (hp : ∀ avf ∈ adds, avf.pts ≠ AV_NOPTS_VALUE) :
    (cache_after n d t a adds).pts_range_start ≤ (cache_after n d t a adds).pts_range_end ∧
      (cache_after n d t a adds).pts_range_start ∈ resident_pts (cache_after n d t a adds) ∧
      (cache_after n d t a adds).pts_range_end ∈ resident_pts (cache_after n d t a adds) ∧
      ∀ p ∈ resident_pts (cache_after n d t a adds),
        (cache_after n d t a adds).pts_range_start ≤ p ∧
          p ≤ (cache_after n d t a adds).pts_range_end := by
  obtain ⟨_, _, hr⟩ := cache_ok_after n d t a adds hp
  have hres := resident_after_ne_nil n d t a adds hne
  rcases hr with ⟨hnil, _, _⟩ | ⟨hs, he, hb⟩
  · unfold resident_pts at hnil
    exact absurd (List.map_eq_nil_iff.1 hnil) hres
  · exact ⟨(hb _ he).1, hs, he, hb⟩

theorem pts_range_is_min_max_witness :
    (cache_after 4 3003 30 40 [{ pts := 6006 }, { pts := 0 }, { pts := 3003 }]).pts_range_start = 0 ∧
      (cache_after 4 3003 30 40 [{ pts := 6006 }, { pts := 0 }, { pts := 3003 }]).pts_range_end
        = 6006 ∧
      (cache_after 4 3003 30 40 [{ pts := 6006 }, { pts := 0 }, { pts := 3003 }]).pts_range_start ≤
        (cache_after 4 3003 30 40 [{ pts := 6006 }, { pts := 0 }, { pts := 3003 }]).pts_range_end :=
  ⟨by decide, by decide,
    (pts_range_is_min_max 4 3003 30 40 [{ pts := 6006 }, { pts := 0 }, { pts := 3003 }]
      (by decide) (by decide)).1⟩

/-- C3: in a cache built by admissions of frames whose PTS is not `AV_NOPTS_VALUE`,
`find_in_framecache` returns an index `≥ 0` exactly when a resident frame has the
PTS asked for, and the index is then the first slot holding that PTS. -/
theorem find_in_framecache_exact (n : Nat) (d t a : Int) (adds : List AVFrame)
    (hp : ∀ avf ∈ adds, avf.pts ≠ AV_NOPTS_VALUE) (pts : Int) :
    (0 ≤ find_in_framecache (cache_after n d t a adds) pts ↔
        ∃ fr ∈ resident (cache_after n d t a adds), fr.pts = pts) ∧
      (0 ≤ find_in_framecache (cache_after n d t a adds) pts →
        ∃ i : Nat, find_in_framecache (cache_after n d t a adds) pts = (i : Int) ∧
          (∃ fr, (resident (cache_after n d t a adds))[i]? = some fr ∧ fr.pts = pts) ∧
          ∀ j fr, j < i → (resident (cache_after n d t a adds))[j]? = some fr → fr.pts ≠ pts) := by
  refine ⟨cache_ok_find_iff _ (cache_ok_after n d t a adds hp) pts, ?_⟩
  intro h
  obtain ⟨i, hi, _, hfirst⟩ := find_in_framecache_nonneg _ pts h
  exact ⟨i, hi, hfirst⟩

theorem find_in_framecache_exact_witness :
    find_in_framecache
        (cache_after 4 3003 30 40 [{ pts := 0 }, { pts := 3003 }, { pts := 3003 }]) 3003 = 1 ∧
      (0 ≤ find_in_framecache
          (cache_after 4 3003 30 40 [{ pts := 0 }, { pts := 3003 }, { pts := 3003 }]) 3003 ↔
        ∃ fr ∈ resident (cache_after 4 3003 30 40 [{ pts := 0 }, { pts := 3003 }, { pts := 3003 }]),
          fr.pts = 3003) :=
  ⟨by decide,
    (find_in_framecache_exact 4 3003 30 40 [{ pts := 0 }, { pts := 3003 }, { pts := 3003 }]
      (by decide) 3003).1⟩


theorem wrap64_of_in_long (x : Int) (h : in_long x) : wrap64 x = x := by
  unfold in_long at h
  unfold wrap64
  omega

theorem wrap64_range (x : Int) : in_long (wrap64 x) := by
  unfold in_long wrap64
  omega

/-- C4, counterexample: the newest frame has PTS `2^63 - 1` and the PTS asked for is
`-(2^63 - 1)`, which no resident frame has.  The 64 bit difference wraps to 2, so the
result is -2 although the PTS asked for is not after `pts_last`. -/
theorem find_in_framecache_near_forward_behind_pts_last :
    (∀ fr ∈ resident (cache_after 120 3003 30 40 [{ pts := 9223372036854775807 }]),
        fr.pts ≠ -9223372036854775807) ∧
      (cache_after 120 3003 30 40 [{ pts := 9223372036854775807 }]).pts_last
        = 9223372036854775807 ∧
      find_in_framecache (cache_after 120 3003 30 40 [{ pts := 9223372036854775807 }])
        (-9223372036854775807) = -2 ∧
      ¬ ((-9223372036854775807 : Int) >
        (cache_after 120 3003 30 40 [{ pts := 9223372036854775807 }]).pts_last) := by
  decide

/-- C4, amended: for a PTS that no resident frame has, when the exact difference
`pts - pts_last` is not below `-2^63`, `find_in_framecache` returns -2 exactly when
`pts > pts_last` and `pts - pts_last` is below `delta * seek_threshold` (the product as
the code computes it, in 64 bit), and -1 otherwise.  With the cleared `pts_last` the
difference is never below `-2^63`, and the result is -1 for every `pts ≥ 0`. -/
theorem find_in_framecache_miss_kind (c : framecache) (pts : Int)
    (hres : ∀ fr ∈ resident c, fr.pts ≠ pts) (hpts : in_long pts) (hlast : in_long c.pts_last)
    (hsub : -9223372036854775808 ≤ pts - c.pts_last) :
    (find_in_framecache c pts = -2 ↔
        pts > c.pts_last ∧ pts - c.pts_last < wrap64 (c.delta * c.seek_threshold)) ∧
      (find_in_framecache c pts = -2 ∨ find_in_framecache c pts = -1) ∧
      (c.pts_last = AV_NOPTS_VALUE → 0 ≤ pts → find_in_framecache c pts = -1) := by
  rw [find_in_framecache_miss c pts (Or.inr hres)]
  have hprod := wrap64_range (c.delta * c.seek_threshold)
  generalize wrap64 (c.delta * c.seek_threshold) = prod at *
  unfold in_long at *
  unfold wrap64
  refine ⟨⟨?_, ?_⟩, ?_, ?_⟩
  · intro h
    split at h
    · omega
    · omega
  · intro h
    rw [if_pos (by omega)]
  · split
    · left; rfl
    · right; rfl
  · intro hl h0
    unfold AV_NOPTS_VALUE at hl
    rw [if_neg (by omega)]

theorem find_in_framecache_miss_kind_witness :
    find_in_framecache (cache_after 120 3003 30 40 []) 0 = -1 ∧
      (find_in_framecache (cache_after 120 3003 30 40 [{ pts := 0 }]) 6006 = -2 ↔
        (6006 : Int) > (cache_after 120 3003 30 40 [{ pts := 0 }]).pts_last ∧
          (6006 : Int) - (cache_after 120 3003 30 40 [{ pts := 0 }]).pts_last <
            wrap64 ((cache_after 120 3003 30 40 [{ pts := 0 }]).delta *
              (cache_after 120 3003 30 40 [{ pts := 0 }]).seek_threshold)) :=
  ⟨(find_in_framecache_miss_kind (cache_after 120 3003 30 40 []) 0
      (by decide) (by decide) (by decide) (by decide)).2.2 (by decide) (by decide),
    (find_in_framecache_miss_kind (cache_after 120 3003 30 40 [{ pts := 0 }]) 6006
      (by decide) (by decide) (by decide) (by decide)).1⟩

/-- C5: when `num_frames` equals the capacity, `add_framecache` leaves the resident
sequence without its first `capacity / 4` frames, the survivors in their order,
followed by the new frame; when `num_frames` is below the capacity it leaves the
resident sequence followed by the new frame. -/
theorem add_framecache_resident (c : framecache) (avf : AVFrame)
    (h : c.num_frames ≤ c.frames.length) :
    (c.num_frames = c.num_allocated_frames →
        resident (add_framecache c avf) =
          (resident c).drop (c.num_allocated_frames / 4) ++ [frame_of avf]) ∧
      (c.num_frames < c.num_allocated_frames →
        resident (add_framecache c avf) = resident c ++ [frame_of avf]) := by
  constructor
  · intro hfull
    rw [resident_add c avf h, if_pos hfull]
  · intro hlt
    rw [resident_add c avf h, if_neg (by omega)]

theorem add_framecache_resident_witness :
    resident_pts (add_framecache
        (cache_after 4 3003 30 40 [{ pts := 1 }, { pts := 2 }, { pts := 3 }, { pts := 4 }])
        { pts := 5 }) = [2, 3, 4, 5] ∧
      resident (add_framecache
        (cache_after 4 3003 30 40 [{ pts := 1 }, { pts := 2 }, { pts := 3 }, { pts := 4 }])
        { pts := 5 }) =
      (resident (cache_after 4 3003 30 40 [{ pts := 1 }, { pts := 2 }, { pts := 3 }, { pts := 4 }])).drop
          ((cache_after 4 3003 30 40 [{ pts := 1 }, { pts := 2 }, { pts := 3 },
            { pts := 4 }]).num_allocated_frames / 4) ++ [frame_of { pts := 5 }] :=
  ⟨by decide,
    (add_framecache_resident
      (cache_after 4 3003 30 40 [{ pts := 1 }, { pts := 2 }, { pts := 3 }, { pts := 4 }])
      { pts := 5 } (by decide)).1 (by decide)⟩

theorem getLast_take_store_frame (frames : List frame) (n : Nat) (fr : frame) :
    ((store_frame frames n fr).take (n + 1)).getLast? = some fr := by
  by_cases h : n ≤ frames.length
  · rw [take_store_frame frames n fr h]
    simp
  · have h1 : frames.take n = frames := List.take_of_length_le (by omega)
    have h2 : frames.drop (n + 1) = [] := List.drop_of_length_le (by omega)
    unfold store_frame
    rw [h1, h2, List.take_of_length_le (by simp; omega)]
    simp

theorem pts_last_add (c : framecache) (avf : AVFrame) :
    (add_framecache c avf).pts_last = avf.pts := by
  unfold add_framecache
  split <;> rfl

theorem getLast_resident_add (c : framecache) (avf : AVFrame) :
    (resident (add_framecache c avf)).getLast? = some (frame_of avf) := by
  by_cases hfull : c.num_frames = c.num_allocated_frames
  · simp only [add_framecache, resident, if_pos hfull]
    exact getLast_take_store_frame _ _ _
  · simp only [add_framecache, resident, if_neg hfull]
    exact getLast_take_store_frame _ _ _

/-- C6: after `add_framecache`, with or without eviction, the last resident slot holds
the frame just admitted, under its PTS, and `pts_last` is that PTS. -/
theorem add_framecache_newest (c : framecache) (avf : AVFrame) :
    (∃ fr, (resident (add_framecache c avf)).getLast? = some fr ∧ fr.avf = avf ∧
        fr.pts = avf.pts) ∧
      (add_framecache c avf).pts_last = avf.pts :=
  ⟨⟨frame_of avf, getLast_resident_add c avf, rfl, rfl⟩, pts_last_add c avf⟩

/-- When no resident `frame.pts + frame.duration` overflows a `long`, the frame that
`find_nearest_frame` returns is the first one with `frame.pts ≤ pts` and
`pts < frame.pts + frame.duration` for the exact sum. -/
theorem find_nearest_frame_exact_sum (c : framecache) (pts : Int)
    (hsum : ∀ fr ∈ resident c, in_long (fr.pts + fr.avf.duration)) :
    ((c.pts_range_start ≤ pts ∧ pts ≤ c.pts_range_end) ∧
        (∃ fr ∈ resident c, fr.pts ≤ pts ∧ pts < fr.pts + fr.avf.duration) →
        ∃ i : Nat, find_nearest_frame c pts = (i : Int) ∧
          (∃ fr, (resident c)[i]? = some fr ∧ fr.pts ≤ pts ∧ pts < fr.pts + fr.avf.duration) ∧
          ∀ j fr, j < i → (resident c)[j]? = some fr →
            ¬ (fr.pts ≤ pts ∧ pts < fr.pts + fr.avf.duration)) ∧
      (¬ ((c.pts_range_start ≤ pts ∧ pts ≤ c.pts_range_end) ∧
          ∃ fr ∈ resident c, fr.pts ≤ pts ∧ pts < fr.pts + fr.avf.duration) →
        find_nearest_frame c pts = -1) := by
  have hcov : ∀ fr ∈ resident c,
      (covers pts fr ↔ fr.pts ≤ pts ∧ pts < fr.pts + fr.avf.duration) := by
    intro fr hfr
    unfold covers
    rw [wrap64_of_in_long _ (hsum fr hfr)]
  constructor
  · rintro ⟨hr, fr, hfr, hc⟩
    obtain ⟨i, hfirst⟩ := first_index_exists (covers pts) (resident c)
      ⟨fr, hfr, (hcov fr hfr).2 hc⟩
    obtain ⟨⟨x, hx, hpx⟩, hmin⟩ := hfirst
    refine ⟨i, find_nearest_frame_some c pts i hr ⟨⟨x, hx, hpx⟩, hmin⟩,
      ⟨x, hx, (hcov x (List.getElem?_mem hx)).1 hpx⟩, ?_⟩
    intro j y hj hy hc1
    exact hmin j y hj hy ((hcov y (List.getElem?_mem hy)).2 hc1)
  · intro h
    apply find_nearest_frame_miss
    by_cases hr : c.pts_range_start ≤ pts ∧ pts ≤ c.pts_range_end
    · right
      intro fr hfr hc
      exact h ⟨hr, fr, hfr, (hcov fr hfr).1 hc⟩
    · left
      exact hr

/-- C7: `find_nearest_frame` returns the first slot whose frame has
`frame.pts ≤ pts < frame.pts + frame.duration` (the sum as the code computes it, in
64 bit) when `pts` lies in `[pts_range_start, pts_range_end]` and there is such a
resident frame, and -1 in every other case. -/
theorem find_nearest_frame_first_cover (c : framecache) (pts : Int) :
    ((c.pts_range_start ≤ pts ∧ pts ≤ c.pts_range_end) ∧
        (∃ fr ∈ resident c, fr.pts ≤ pts ∧ pts < wrap64 (fr.pts + fr.avf.duration)) →
        ∃ i : Nat, find_nearest_frame c pts = (i : Int) ∧
          (∃ fr, (resident c)[i]? = some fr ∧
            fr.pts ≤ pts ∧ pts < wrap64 (fr.pts + fr.avf.duration)) ∧
          ∀ j fr, j < i → (resident c)[j]? = some fr →
            ¬ (fr.pts ≤ pts ∧ pts < wrap64 (fr.pts + fr.avf.duration))) ∧
      (¬ ((c.pts_range_start ≤ pts ∧ pts ≤ c.pts_range_end) ∧
          ∃ fr ∈ resident c, fr.pts ≤ pts ∧ pts < wrap64 (fr.pts + fr.avf.duration)) →
        find_nearest_frame c pts = -1) := by
  constructor
  · rintro ⟨hr, hex⟩
    obtain ⟨i, hfirst⟩ := first_index_exists (covers pts) (resident c) hex
    exact ⟨i, find_nearest_frame_some c pts i hr hfirst, hfirst⟩
  · intro h
    apply find_nearest_frame_miss
    by_cases hr : c.pts_range_start ≤ pts ∧ pts ≤ c.pts_range_end
    · right
      intro fr hfr hc
      exact h ⟨hr, fr, hfr, hc⟩
    · left
      exact hr

theorem find_nearest_frame_first_cover_witness :
    find_nearest_frame
        (cache_after 4 3003 30 40 [{ pts := 0, duration := 3003 }, { pts := 3003, duration := 3003 }])
        1000 = 0 ∧
      ∃ i : Nat, find_nearest_frame
        (cache_after 4 3003 30 40 [{ pts := 0, duration := 3003 }, { pts := 3003, duration := 3003 }])
        1000 = (i : Int) :=
  ⟨by decide,
    (((find_nearest_frame_first_cover
      (cache_after 4 3003 30 40 [{ pts := 0, duration := 3003 }, { pts := 3003, duration := 3003 }])
      1000).1 ⟨by decide, by decide⟩).imp fun _ h => h.1)⟩

/-! ## Frame loader -/

theorem next_frame_post_cons (cache : framecache) (stream_index : Int)
    (sr : Int → Int → Int → Option (List stream_packet)) (p : stream_packet)
    (rest : List stream_packet) (r : Int × framecache × av_state)
    (h : next_frame_post cache stream_index sr rest r) :
    next_frame_post cache stream_index sr (p :: rest) r := by
  rcases h with ⟨h0, q, avf, hq, hadm, hc, hlen, hsub, hsr⟩ | ⟨h1, hc, hsr⟩
  · left
    refine ⟨h0, q, avf, List.mem_cons_of_mem _ hq, hadm, hc, ?_, ?_, hsr⟩
    · simp only [List.length_cons]
      omega
    · intro x hx
      exact List.mem_cons_of_mem _ (hsub x hx)
  · right
    exact ⟨h1, hc, hsr⟩

theorem cache_next_frame_loop_post (cache : framecache) (stream_index : Int)
    (sr : Int → Int → Int → Option (List stream_packet)) (packets : List stream_packet)
    (calls : List av_call) :
    next_frame_post cache stream_index sr packets
      (cache_next_frame_loop cache stream_index AV_NOPTS_VALUE AV_NOPTS_VALUE sr packets calls) := by
  induction packets generalizing calls with
  | nil =>
    right
    simp [cache_next_frame_loop]
  | cons p rest ih =>
    by_cases hs : p.stream_index ≠ stream_index
    · simp only [cache_next_frame_loop, if_pos hs]
      exact next_frame_post_cons _ _ _ _ _ _ (ih _)
    · by_cases hcor : p.corrupt = true
      · simp only [cache_next_frame_loop, if_neg hs, if_pos hcor]
        exact next_frame_post_cons _ _ _ _ _ _ (ih _)
      · cases hd : p.decoded with
        | send_failed =>
          simp only [cache_next_frame_loop, if_neg hs, if_neg hcor, hd]
          exact next_frame_post_cons _ _ _ _ _ _ (ih _)
        | again =>
          simp only [cache_next_frame_loop, if_neg hs, if_neg hcor, hd]
          exact next_frame_post_cons _ _ _ _ _ _ (ih _)
        | error =>
          right
          simp [cache_next_frame_loop, hs, hcor, hd]
        | frame avf =>
          left
          have hadm : admitted stream_index p avf :=
            ⟨not_not.1 hs, by simpa using hcor, hd⟩
          have heq :
              cache_next_frame_loop cache stream_index AV_NOPTS_VALUE AV_NOPTS_VALUE sr
                  (p :: rest) calls =
                (0, add_framecache cache avf,
                  { packets := rest, seek_result := sr,
                    calls := (calls ++ [av_call.read_frame]) ++
                      [av_call.send_packet, av_call.receive_frame] }) := by
            simp only [cache_next_frame_loop, if_neg hs, if_neg hcor, hd, true_or, and_self,
              if_true]
          rw [heq]
          exact ⟨rfl, p, avf, List.mem_cons_self _ _, hadm, rfl, by simp, fun x hx =>
            List.mem_cons_of_mem _ hx, rfl⟩

theorem cache_next_frame_post (cache : framecache) (av : av_state) (stream_index : Int) :
    next_frame_post cache stream_index av.seek_result av.packets
      (cache_next_frame cache av stream_index AV_NOPTS_VALUE AV_NOPTS_VALUE) :=
  cache_next_frame_loop_post cache stream_index av.seek_result av.packets av.calls

theorem load_frame_loop_succ (stream_index pts : Int) (fuel : Nat) (cache : framecache)
    (av : av_state) :
    load_frame_loop stream_index pts (fuel + 1) cache av =
      if (cache_next_frame cache av stream_index AV_NOPTS_VALUE AV_NOPTS_VALUE).1 = 0 then
        if (cache_next_frame cache av stream_index AV_NOPTS_VALUE AV_NOPTS_VALUE).2.1.pts_last
            = pts then
          if find_in_framecache
              (cache_next_frame cache av stream_index AV_NOPTS_VALUE AV_NOPTS_VALUE).2.1 pts ≥ 0 then
            (some (find_in_framecache
                (cache_next_frame cache av stream_index AV_NOPTS_VALUE AV_NOPTS_VALUE).2.1
                pts).toNat,
              (cache_next_frame cache av stream_index AV_NOPTS_VALUE AV_NOPTS_VALUE).2)
          else (none, (cache_next_frame cache av stream_index AV_NOPTS_VALUE AV_NOPTS_VALUE).2)
        else if (cache_next_frame cache av stream_index AV_NOPTS_VALUE AV_NOPTS_VALUE).2.1.pts_last
            > pts then
          if find_nearest_frame
              (cache_next_frame cache av stream_index AV_NOPTS_VALUE AV_NOPTS_VALUE).2.1 pts ≥ 0 then
            (some (find_nearest_frame
                (cache_next_frame cache av stream_index AV_NOPTS_VALUE AV_NOPTS_VALUE).2.1
                pts).toNat,
              (cache_next_frame cache av stream_index AV_NOPTS_VALUE AV_NOPTS_VALUE).2)
          else (none, (cache_next_frame cache av stream_index AV_NOPTS_VALUE AV_NOPTS_VALUE).2)
        else
          load_frame_loop stream_index pts fuel
            (cache_next_frame cache av stream_index AV_NOPTS_VALUE AV_NOPTS_VALUE).2.1
            (cache_next_frame cache av stream_index AV_NOPTS_VALUE AV_NOPTS_VALUE).2.2
      else (none, (cache_next_frame cache av stream_index AV_NOPTS_VALUE AV_NOPTS_VALUE).2) :=
  rfl

theorem load_frame_eq (cache : framecache) (av : av_state) (stream_index pts : Int)
    (indices : Option (List video_stream_frame_index)) (n : Nat) :
    load_frame cache av stream_index pts indices n =
      if find_in_framecache cache pts ≥ 0 then
        (some (find_in_framecache cache pts).toNat, cache, av)
      else if (load_frame_seek cache av stream_index pts indices n
          (find_in_framecache cache pts)).1 ≠ 0 then
        (none, (load_frame_seek cache av stream_index pts indices n
          (find_in_framecache cache pts)).2)
      else
        load_frame_loop stream_index pts
          ((load_frame_seek cache av stream_index pts indices n
            (find_in_framecache cache pts)).2.2.packets.length + 1)
          (load_frame_seek cache av stream_index pts indices n (find_in_framecache cache pts)).2.1
          (load_frame_seek cache av stream_index pts indices n (find_in_framecache cache pts)).2.2 :=
  rfl

theorem answers_of_find (c : framecache) (pts : Int) (h : 0 ≤ find_in_framecache c pts) :
    answers c pts (find_in_framecache c pts).toNat := by
  obtain ⟨i, hi, _, ⟨fr, hfr, hp⟩, _⟩ := find_in_framecache_nonneg c pts h
  rw [hi, Int.toNat_ofNat]
  exact ⟨fr, hfr, Or.inl hp, by omega⟩

theorem answers_of_find_nearest (c : framecache) (pts : Int) (h : 0 ≤ find_nearest_frame c pts) :
    answers c pts (find_nearest_frame c pts).toNat := by
  obtain ⟨i, hi, _, ⟨fr, hfr, hp⟩, _⟩ := find_nearest_frame_nonneg c pts h
  rw [hi, Int.toNat_ofNat]
  exact ⟨fr, hfr, Or.inr hp, by have := hp.1; omega⟩

theorem load_frame_loop_answers (stream_index pts : Int) (fuel : Nat) (cache : framecache)
    (av : av_state) (i : Nat)
    (h : (load_frame_loop stream_index pts fuel cache av).1 = some i) :
    answers (load_frame_loop stream_index pts fuel cache av).2.1 pts i := by
  induction fuel generalizing cache av with
  | zero => simp [load_frame_loop] at h
  | succ fuel ih =>
    rw [load_frame_loop_succ] at h ⊢
    split at h
    · split at h
      · split at h
        · rename_i _ _ hf
          rw [if_pos ‹_›, if_pos ‹_›, if_pos hf]
          simp only [Option.some.injEq] at h
          rw [← h]
          exact answers_of_find _ _ hf
        · simp at h
      · split at h
        · split at h
          · rename_i _ hne _ hf
            rw [if_pos ‹_›, if_neg hne, if_pos ‹_›, if_pos hf]
            simp only [Option.some.injEq] at h
            rw [← h]
            exact answers_of_find_nearest _ _ hf
          · simp at h
        · rename_i h0 hne hgt
          rw [if_pos h0, if_neg hne, if_neg hgt]
          exact ih _ _ h
    · simp at h

theorem load_frame_loop_none (stream_index pts : Int) (fuel : Nat) (cache : framecache)
    (av : av_state)
    (h : ∀ p ∈ av.packets, ∀ avf, admitted stream_index p avf → avf.pts < pts) :
    (load_frame_loop stream_index pts fuel cache av).1 = none := by
  induction fuel generalizing cache av with
  | zero => rfl
  | succ fuel ih =>
    rw [load_frame_loop_succ]
    rcases cache_next_frame_post cache av stream_index with
      ⟨h0, p, avf, hp, hadm, hc, _, hsub, _⟩ | ⟨h1, _, _⟩
    · have hlt := h p hp avf hadm
      have hlast :
          (cache_next_frame cache av stream_index AV_NOPTS_VALUE AV_NOPTS_VALUE).2.1.pts_last
            = avf.pts := by
        rw [hc]
        exact pts_last_add cache avf
      rw [if_pos h0, if_neg (by rw [hlast]; omega), if_neg (by rw [hlast]; omega)]
      exact ih _ _ (fun q hq => h q (hsub q hq))
    · rw [if_neg (by rw [h1]; decide)]

theorem load_frame_loop_fuel (stream_index pts : Int) (f1 f2 : Nat) (cache : framecache)
    (av : av_state) (h1 : av.packets.length < f1) (h2 : av.packets.length < f2) :
    load_frame_loop stream_index pts f1 cache av = load_frame_loop stream_index pts f2 cache av := by
  induction f1 generalizing f2 cache av with
  | zero => omega
  | succ f1 ih =>
    cases f2 with
    | zero => omega
    | succ f2 =>
      rw [load_frame_loop_succ, load_frame_loop_succ]
      rcases cache_next_frame_post cache av stream_index with
        ⟨h0, _, _, _, _, _, hlen, _, _⟩ | ⟨hr, _, _⟩
      · rw [ih f2 _ _ (by omega) (by omega)]
      · rw [if_neg (by rw [hr]; decide), if_neg (by rw [hr]; decide)]

theorem mem_resident_add (c : framecache) (avf : AVFrame) (h : slots_ok c) (fr : frame)
    (hfr : fr ∈ resident (add_framecache c avf)) : fr ∈ resident c ∨ fr = frame_of avf := by
  rw [resident_add c avf h, List.mem_append, List.mem_singleton] at hfr
  rcases hfr with hfr | hfr
  · left
    split at hfr
    · exact List.mem_of_mem_drop hfr
    · exact hfr
  · right
    exact hfr

theorem load_frame_loop_exact (stream_index pts : Int) (fuel : Nat) (cache : framecache)
    (av : av_state) (i : Nat) (hc : cache_ok cache)
    (hn : ∀ fr ∈ resident cache, fr.pts ≠ pts)
    (hs : stream_has_pts stream_index av.packets)
    (h : (load_frame_loop stream_index pts fuel cache av).1 = some i) (fr : frame)
    (hfr : (resident (load_frame_loop stream_index pts fuel cache av).2.1)[i]? = some fr)
    (hp : fr.pts = pts) :
    find_in_framecache (load_frame_loop stream_index pts fuel cache av).2.1 pts = (i : Int) := by
  induction fuel generalizing cache av with
  | zero => simp [load_frame_loop] at h
  | succ fuel ih =>
    rw [load_frame_loop_succ] at h hfr ⊢
    rcases cache_next_frame_post cache av stream_index with
      ⟨h0, p, avf, hpm, hadm, hadd, _, hsub, _⟩ | ⟨h1, _, _⟩
    · have hlast :
          (cache_next_frame cache av stream_index AV_NOPTS_VALUE AV_NOPTS_VALUE).2.1.pts_last
            = avf.pts := by
        rw [hadd]
        exact pts_last_add cache avf
      have hres : ∀ x ∈ resident
          (cache_next_frame cache av stream_index AV_NOPTS_VALUE AV_NOPTS_VALUE).2.1,
          x ∈ resident cache ∨ x = frame_of avf := by
        rw [hadd]
        exact fun x hx => mem_resident_add cache avf hc.1 x hx
      rw [if_pos h0] at h hfr ⊢
      by_cases he : avf.pts = pts
      · rw [if_pos (by rw [hlast]; exact he)] at h hfr ⊢
        by_cases hf : find_in_framecache
            (cache_next_frame cache av stream_index AV_NOPTS_VALUE AV_NOPTS_VALUE).2.1 pts ≥ 0
        · rw [if_pos hf] at h ⊢
          have hi : (find_in_framecache
              (cache_next_frame cache av stream_index AV_NOPTS_VALUE AV_NOPTS_VALUE).2.1
              pts).toNat = i := by simpa using h
          show find_in_framecache
            (cache_next_frame cache av stream_index AV_NOPTS_VALUE AV_NOPTS_VALUE).2.1 pts = (i : Int)
          omega
        · rw [if_neg hf] at h
          simp at h
      · rw [if_neg (by rw [hlast]; exact he)] at h hfr ⊢
        by_cases hg : avf.pts > pts
        · rw [if_pos (by rw [hlast]; exact hg)] at h hfr
          exfalso
          by_cases hf : find_nearest_frame
              (cache_next_frame cache av stream_index AV_NOPTS_VALUE AV_NOPTS_VALUE).2.1 pts ≥ 0
          · rw [if_pos hf] at hfr
            rcases hres fr (List.getElem?_mem hfr) with hx | hx
            · exact hn fr hx hp
            · rw [hx] at hp
              exact he hp
          · rw [if_neg hf] at h
            simp at h
        · rw [if_neg (by rw [hlast]; exact hg)] at h hfr ⊢
          refine ih _ _ ?_ ?_ ?_ h hfr
          · rw [hadd]
            exact cache_ok_add cache avf hc (hs p hpm avf hadm)
          · intro x hx
            rcases hres x hx with hx | hx
            · exact hn x hx
            · rw [hx]
              exact he
          · exact fun q hq => hs q (hsub q hq)
    · rw [if_neg (by rw [h1]; decide)] at h
      simp at h

theorem av_seek_frame_packets (av : av_state) (s t f : Int) :
    (av_seek_frame av s t f).2.packets = av.packets ∨
      av.seek_result s t f = some (av_seek_frame av s t f).2.packets := by
  unfold av_seek_frame
  cases hsr : av.seek_result s t f with
  | none => left; simp [hsr]
  | some l => right; simp [hsr]

theorem seek_frame_packets (av : av_state) (stream_index : Int) (pts : Nat)
    (indices : Option (List video_stream_frame_index)) (n : Nat) :
    (seek_frame av stream_index pts indices n).2.packets = av.packets ∨
      ∃ s t f, av.seek_result s t f = some (seek_frame av stream_index pts indices n).2.packets := by
  cases indices with
  | none =>
    simp only [seek_frame]
    rcases av_seek_frame_packets av stream_index (wrap64 pts) AVSEEK_FLAG_BACKWARD with h | h
    · left
      split <;> exact h
    · right
      exact ⟨_, _, _, by split <;> exact h⟩
  | some idx =>
    simp only [seek_frame]
    generalize (match find_index idx n pts with
      | some i => i
      | none => nearest_earlier_index idx n pts) = index
    rcases av_seek_frame_packets av stream_index (wrap64 (idx.getD index default).pos)
      AVSEEK_FLAG_BYTE with h | h
    · left
      split <;> exact h
    · right
      exact ⟨_, _, _, by split <;> exact h⟩

theorem load_frame_seek_ok (cache : framecache) (av : av_state) (stream_index pts : Int)
    (indices : Option (List video_stream_frame_index)) (n : Nat) (ret : Int)
    (h : loader_ok cache av stream_index) :
    cache_ok (load_frame_seek cache av stream_index pts indices n ret).2.1 ∧
      resident (load_frame_seek cache av stream_index pts indices n ret).2.1 = resident cache ∧
      stream_has_pts stream_index
        (load_frame_seek cache av stream_index pts indices n ret).2.2.packets := by
  obtain ⟨hc, hs, hk⟩ := h
  unfold load_frame_seek
  by_cases hr : ret = -1
  · simp only [if_pos hr]
    have hpk : stream_has_pts stream_index
        (seek_frame av stream_index
          (to_u64 (wrap64 (pts - wrap64 (cache.delta * cache.seek_amount)))) indices n).2.packets := by
      rcases seek_frame_packets av stream_index
        (to_u64 (wrap64 (pts - wrap64 (cache.delta * cache.seek_amount)))) indices n with h | h
      · rw [h]; exact hs
      · obtain ⟨s, t, f, h⟩ := h
        exact hk s t f _ h
    split <;> exact ⟨hc, rfl, hpk⟩
  · rw [if_neg hr]
    exact ⟨hc, rfl, hs⟩

theorem sample_loader_ok : loader_ok sample_cache sample_av 0 := by
  have hpk : stream_has_pts 0 sample_packets := by
    intro p hp avf hadm
    obtain ⟨_, _, hd⟩ := hadm
    simp only [sample_packets, List.mem_cons, List.mem_singleton, List.not_mem_nil, or_false] at hp
    rcases hp with rfl | rfl | rfl <;>
      · simp only [decode_result.frame.injEq] at hd
        subst hd
        decide
  refine ⟨cache_ok_after 120 3003 30 40 _ (by decide), ?_, ?_⟩
  · intro p hp
    exact hpk p (List.mem_of_mem_drop hp)
  · intro s t f l hl
    simp only [sample_av, Option.some.injEq] at hl
    rw [← hl]
    exact hpk

/-- C8: a frame that `load_frame` returns has the PTS asked for, or `pts` lies in
`[frame.pts, frame.pts + frame.duration)` (the sum as the code computes it, in 64
bit), and its PTS is never after `pts`; and when the cache misses and every frame
that the stream still delivers, from where the loader reads, has a PTS before `pts`,
`load_frame` returns absent. -/
theorem load_frame_answers_request (cache : framecache) (av : av_state) (stream_index pts : Int)
    (indices : Option (List video_stream_frame_index)) (n : Nat) :
    (∀ i, (load_frame cache av stream_index pts indices n).1 = some i →
        ∃ fr, (resident (load_frame cache av stream_index pts indices n).2.1)[i]? = some fr ∧
          (fr.pts = pts ∨ (fr.pts ≤ pts ∧ pts < wrap64 (fr.pts + fr.avf.duration))) ∧
          ¬ fr.pts > pts) ∧
      (find_in_framecache cache pts < 0 →
        (∀ p ∈ (load_frame_seek cache av stream_index pts indices n
              (find_in_framecache cache pts)).2.2.packets,
            ∀ avf, p.stream_index = stream_index → p.corrupt = false →
              p.decoded = decode_result.frame avf → avf.pts < pts) →
        (load_frame cache av stream_index pts indices n).1 = none) := by
  constructor
  · intro i h
    rw [load_frame_eq] at h ⊢
    by_cases hf : find_in_framecache cache pts ≥ 0
    · rw [if_pos hf] at h ⊢
      have hi : (find_in_framecache cache pts).toNat = i := by simpa using h
      rw [← hi]
      exact answers_of_find cache pts hf
    · rw [if_neg hf] at h ⊢
      by_cases hs : (load_frame_seek cache av stream_index pts indices n
          (find_in_framecache cache pts)).1 ≠ 0
      · rw [if_pos hs] at h
        simp at h
      · rw [if_neg hs] at h ⊢
        exact load_frame_loop_answers _ _ _ _ _ i h
  · intro hf hall
    rw [load_frame_eq, if_neg (by omega)]
    split
    · rfl
    · exact load_frame_loop_none _ _ _ _ _
        (fun p hp avf hadm => hall p hp avf hadm.1 hadm.2.1 hadm.2.2)

theorem load_frame_answers_request_witness :
    (∃ fr, (resident (load_frame sample_cache sample_av 0 1000 none 0).2.1)[0]? = some fr ∧
        (fr.pts = 1000 ∨ (fr.pts ≤ 1000 ∧ 1000 < wrap64 (fr.pts + fr.avf.duration))) ∧
        ¬ fr.pts > 1000) ∧
      (load_frame sample_cache sample_av 0 100000 none 0).1 = none :=
  ⟨(load_frame_answers_request sample_cache sample_av 0 1000 none 0).1 0 (by decide),
    (load_frame_answers_request sample_cache sample_av 0 100000 none 0).2 (by decide)
      (fun p hp avf _ _ hd => by
        have hpk : (load_frame_seek sample_cache sample_av 0 100000 none 0
            (find_in_framecache sample_cache 100000)).2.2.packets = sample_packets := by decide
        rw [hpk] at hp
        simp only [sample_packets, List.mem_cons, List.mem_singleton, List.not_mem_nil,
          or_false] at hp
        rcases hp with rfl | rfl | rfl <;>
          · simp only [decode_result.frame.injEq] at hd
            subst hd
            decide)⟩

/-- C9, counterexample: the cache holds the frame with PTS 0 and `pts` is 1000.  The
first call decodes the frame with PTS 3003 and returns slot 0 (PTS 0, the nearest
frame).  The second call misses the cache, seeks to -119120, flushes the decoder, and
reads and decodes two packets. -/
theorem load_frame_repeat_nearest_seeks :
    (load_frame sample_cache sample_av 0 1000 none 0).1 = some 0 ∧
      resident_pts (load_frame sample_cache sample_av 0 1000 none 0).2.1 = [0, 3003] ∧
      (load_frame sample_cache sample_av 0 1000 none 0).2.2.calls =
        [av_call.read_frame, av_call.send_packet, av_call.receive_frame] ∧
      (load_frame (load_frame sample_cache sample_av 0 1000 none 0).2.1
          (load_frame sample_cache sample_av 0 1000 none 0).2.2 0 1000 none 0).2.2.calls =
        [av_call.read_frame, av_call.send_packet, av_call.receive_frame,
          av_call.seek_frame 0 (-119120) 1, av_call.flush_buffers,
          av_call.read_frame, av_call.send_packet, av_call.receive_frame,
          av_call.read_frame, av_call.send_packet, av_call.receive_frame] ∧
      resident_pts (load_frame (load_frame sample_cache sample_av 0 1000 none 0).2.1
          (load_frame sample_cache sample_av 0 1000 none 0).2.2 0 1000 none 0).2.1 =
        [0, 3003, 0, 3003] := by
  decide

/-- C9, amended: in a loader state built from frames with a PTS, when `load_frame`
returns a frame whose PTS is the PTS asked for, the same call made again right away
returns the same slot and leaves the cache, the demuxer and the log of library calls
as they were: no packet is read or decoded and there is no seek. -/
theorem load_frame_repeat_exact (cache : framecache) (av : av_state) (stream_index pts : Int)
    (indices : Option (List video_stream_frame_index)) (n : Nat)
    (hok : loader_ok cache av stream_index) (i : Nat) (fr : frame)
    (h1 : (load_frame cache av stream_index pts indices n).1 = some i)
    (h2 : (resident (load_frame cache av stream_index pts indices n).2.1)[i]? = some fr)
    (h3 : fr.pts = pts) :
    load_frame (load_frame cache av stream_index pts indices n).2.1
        (load_frame cache av stream_index pts indices n).2.2 stream_index pts indices n =
      (some i, (load_frame cache av stream_index pts indices n).2.1,
        (load_frame cache av stream_index pts indices n).2.2) := by
  have hfind : find_in_framecache (load_frame cache av stream_index pts indices n).2.1 pts
      = (i : Int) := by
    rw [load_frame_eq] at h1 h2 ⊢
    by_cases hf : find_in_framecache cache pts ≥ 0
    · rw [if_pos hf] at h1 ⊢
      have hi : (find_in_framecache cache pts).toNat = i := by simpa using h1
      show find_in_framecache cache pts = (i : Int)
      omega
    · rw [if_neg hf] at h1 h2 ⊢
      by_cases hs : (load_frame_seek cache av stream_index pts indices n
          (find_in_framecache cache pts)).1 ≠ 0
      · rw [if_pos hs] at h1
        simp at h1
      · rw [if_neg hs] at h1 h2 ⊢
        obtain ⟨hc1, hres1, hpk1⟩ := load_frame_seek_ok cache av stream_index pts indices n
          (find_in_framecache cache pts) hok
        refine load_frame_loop_exact _ _ _ _ _ i hc1 ?_ hpk1 h1 fr h2 h3
        rw [hres1]
        intro x hx hxp
        exact hf ((cache_ok_find_iff cache hok.1 pts).2 ⟨x, hx, hxp⟩)
  rw [load_frame_eq (load_frame cache av stream_index pts indices n).2.1, if_pos (by omega), hfind,
    Int.toNat_ofNat]

theorem load_frame_repeat_exact_witness :
    (load_frame sample_cache sample_av 0 3003 none 0).1 = some 1 ∧
      load_frame (load_frame sample_cache sample_av 0 3003 none 0).2.1
          (load_frame sample_cache sample_av 0 3003 none 0).2.2 0 3003 none 0 =
        (some 1, (load_frame sample_cache sample_av 0 3003 none 0).2.1,
          (load_frame sample_cache sample_av 0 3003 none 0).2.2) :=
  ⟨by decide,
    load_frame_repeat_exact sample_cache sample_av 0 3003 none 0 sample_loader_ok 1
      (frame_of { pts := 3003, duration := 3003 }) (by decide) (by decide) (by decide)⟩

/-- C10: three frames leave the decoder with PTS 0, 6006 and 3003; the index that
`build_index_stream` returns lists them in that order and is not sorted by PTS. -/
theorem build_index_stream_keeps_decode_order :
    build_index_stream unordered_av 0 =
        some [{ pts := 0, pos := 0 }, { pts := 6006, pos := 188 }, { pts := 3003, pos := 376 }] ∧
      ¬ List.Pairwise (fun a b : video_stream_frame_index => a.pts ≤ b.pts)
        [{ pts := 0, pos := 0 }, { pts := 6006, pos := 188 }, { pts := 3003, pos := 376 }] := by
  decide

/-! ## Seek index -/

theorem nearest_earlier_loop_bounds (pts : Nat) (l : List video_stream_frame_index) (i : Nat) :
    i ≤ nearest_earlier_loop pts l i ∧ nearest_earlier_loop pts l i ≤ i + l.length ∧
      (∀ j e, i + j < nearest_earlier_loop pts l i → l[j]? = some e → e.pts ≤ pts) ∧
      (∀ e, l[nearest_earlier_loop pts l i - i]? = some e → pts < e.pts) := by
  induction l generalizing i with
  | nil => simp [nearest_earlier_loop]
  | cons x rest ih =>
    by_cases hx : x.pts > pts
    · simp only [nearest_earlier_loop, if_pos hx]
      refine ⟨le_refl _, by omega, ?_, ?_⟩
      · intro j e hj
        omega
      · intro e he
        simp at he
        rw [← he]
        exact hx
    · simp only [nearest_earlier_loop, if_neg hx]
      obtain ⟨h1, h2, h3, h4⟩ := ih (i + 1)
      refine ⟨by omega, by simp only [List.length_cons]; omega, ?_, ?_⟩
      · intro j e hj he
        cases j with
        | zero =>
          simp at he
          rw [← he]
          omega
        | succ k =>
          exact h3 k e (by omega) (by simpa using he)
      · intro e he
        have hsub : nearest_earlier_loop pts rest (i + 1) - i =
            (nearest_earlier_loop pts rest (i + 1) - (i + 1)) + 1 := by omega
        rw [hsub] at he
        exact h4 e (by simpa using he)

/-- What `nearest_earlier_index` returns on a sorted index that is not empty: a valid
index; the entry there has a PTS `≤ pts` as soon as the first entry has; every entry
with a PTS `≤ pts` has a PTS `≤` the one of the entry returned; and the index is 0 when
the first entry is after `pts`. -/
theorem nearest_earlier_index_spec (indices : List video_stream_frame_index) (pts : Nat)
    (hs : index_sorted indices) (hne : indices ≠ []) :
    ∃ r, indices[nearest_earlier_index indices indices.length pts]? = some r ∧
      ((∃ e ∈ indices, e.pts ≤ pts) → r.pts ≤ pts) ∧
      (∀ e ∈ indices, e.pts ≤ pts → e.pts ≤ r.pts) ∧
      ((∀ e ∈ indices, pts < e.pts) → nearest_earlier_index indices indices.length pts = 0) := by
  obtain ⟨x, rest, rfl⟩ := List.exists_cons_of_ne_nil hne
  have hsx : ∀ e ∈ rest, x.pts ≤ e.pts := (List.pairwise_cons.1 hs).1
  have hsr : List.Pairwise (fun a b : video_stream_frame_index => a.pts ≤ b.pts) rest :=
    (List.pairwise_cons.1 hs).2
  by_cases hx : x.pts > pts
  · have h0 : nearest_earlier_index (x :: rest) (x :: rest).length pts = 0 := by
      simp [nearest_earlier_index, hx]
    rw [h0]
    refine ⟨x, by simp, ?_, ?_, fun _ => rfl⟩
    · rintro ⟨e, he, hep⟩
      rcases List.mem_cons.1 he with rfl | he
      · omega
      · have := hsx e he
        omega
    · intro e he hep
      rcases List.mem_cons.1 he with rfl | he
      · exact le_refl _
      · have := hsx e he
        omega
  · have hidx : nearest_earlier_index (x :: rest) (x :: rest).length pts =
        nearest_earlier_loop pts rest 1 - 1 := by
      simp [nearest_earlier_index, hx]
    obtain ⟨h1, h2, h3, h4⟩ := nearest_earlier_loop_bounds pts rest 1
    rw [hidx]
    generalize hk : nearest_earlier_loop pts rest 1 - 1 = k at *
    have hklen : k < (x :: rest).length := by
      simp only [List.length_cons]
      omega
    refine ⟨(x :: rest)[k], List.getElem?_eq_getElem hklen, ?_, ?_, ?_⟩
    · intro _
      cases k with
      | zero => simpa using Nat.le_of_not_gt hx
      | succ m =>
        have hm : rest[m]? = some ((x :: rest)[m + 1]) := by
          simp only [List.getElem_cons_succ]
          exact List.getElem?_eq_getElem _
        exact h3 m _ (by omega) hm
    · intro e he hep
      obtain ⟨j, hj⟩ := List.getElem?_of_mem he
      have hjlen : j < (x :: rest).length := (List.getElem?_eq_some.1 hj).1
      have hje : (x :: rest)[j] = e := (List.getElem?_eq_some.1 hj).2
      by_cases hjk : j ≤ k
      · rcases Nat.lt_or_eq_of_le hjk with hlt | heq
        · rw [← hje]
          exact List.pairwise_iff_getElem.1 hs j k hjlen hklen hlt
        · subst heq
          rw [hje]
      · exfalso
        have hkj : k < j := by omega
        have hk1 : k < rest.length := by
          simp only [List.length_cons] at hjlen
          omega
        have hgt := h4 (rest[k]) (List.getElem?_eq_getElem hk1)
        have hle : rest[k].pts ≤ e.pts := by
          rw [← hje]
          rcases Nat.lt_or_eq_of_le (Nat.succ_le_of_lt hkj) with hlt | heq
          · have := List.pairwise_iff_getElem.1 hs (k + 1) j (by simp only [List.length_cons]; omega)
              hjlen hlt
            simpa using this
          · subst heq
            simp
        omega
    · intro hall
      exact absurd (hall x (List.mem_cons_self _ _)) (by omega)

/-- C11, counterexample: the index holds the PTS 18000, 21003 and 24006 and the target
is 3003, before all of them.  The entry returned is the first one; its PTS 18000 is not
`≤ 3003`. -/
theorem nearest_earlier_index_after_target :
    index_sorted sample_index ∧ sample_index ≠ [] ∧
      sample_index[nearest_earlier_index sample_index sample_index.length 3003]? =
        some { pts := 18000, pos := 0 } ∧
      ¬ ((18000 : Nat) ≤ 3003) := by
  decide

/-- C11, amended: on a sorted index that is not empty, when some entry has a PTS
`≤ p`, the entry `r` that `nearest_earlier_index` returns has `r.pts ≤ p` and no entry
of the index has a PTS in `(r.pts, p]`. -/
theorem nearest_earlier_index_contract (indices : List video_stream_frame_index) (p : Nat)
    (hs : index_sorted indices) (hne : indices ≠ []) (hle : ∃ e ∈ indices, e.pts ≤ p) :
    ∃ r, indices[nearest_earlier_index indices indices.length p]? = some r ∧ r.pts ≤ p ∧
      ∀ e ∈ indices, ¬ (r.pts < e.pts ∧ e.pts ≤ p) := by
  obtain ⟨r, hr, h1, h2, _⟩ := nearest_earlier_index_spec indices p hs hne
  refine ⟨r, hr, h1 hle, ?_⟩
  rintro e he ⟨hlt, hep⟩
  have := h2 e he hep
  omega

theorem nearest_earlier_index_contract_witness :
    nearest_earlier_index sample_index sample_index.length 22000 = 1 ∧
      ∃ r, sample_index[nearest_earlier_index sample_index sample_index.length 22000]? = some r ∧
        r.pts ≤ 22000 ∧ ∀ e ∈ sample_index, ¬ (r.pts < e.pts ∧ e.pts ≤ 22000) :=
  ⟨by decide,
    nearest_earlier_index_contract sample_index 22000 (by decide) (by decide) (by decide)⟩

/-- C12: on a sorted index that is not empty, `nearest_earlier_index` returns an entry
with the largest PTS that is `≤ p` when some entry has a PTS `≤ p`, and the first entry
when `p` is before all entries. -/
theorem nearest_earlier_index_largest (indices : List video_stream_frame_index) (p : Nat)
    (hs : index_sorted indices) (hne : indices ≠ []) :
    ((∃ e ∈ indices, e.pts ≤ p) →
        ∃ r, indices[nearest_earlier_index indices indices.length p]? = some r ∧ r.pts ≤ p ∧
          ∀ e ∈ indices, e.pts ≤ p → e.pts ≤ r.pts) ∧
      ((∀ e ∈ indices, p < e.pts) →
        nearest_earlier_index indices indices.length p = 0 ∧
          indices[nearest_earlier_index indices indices.length p]? = indices.head?) := by
  obtain ⟨r, hr, h1, h2, h3⟩ := nearest_earlier_index_spec indices p hs hne
  constructor
  · intro hle
    exact ⟨r, hr, h1 hle, h2⟩
  · intro hall
    refine ⟨h3 hall, ?_⟩
    rw [h3 hall]
    cases indices with
    | nil => exact absurd rfl hne
    | cons x rest => simp

theorem nearest_earlier_index_largest_witness :
    (∃ r, sample_index[nearest_earlier_index sample_index sample_index.length 24006]? = some r ∧
        r.pts ≤ 24006 ∧ ∀ e ∈ sample_index, e.pts ≤ 24006 → e.pts ≤ r.pts) ∧
      nearest_earlier_index sample_index sample_index.length 24006 = 2 ∧
      nearest_earlier_index sample_index sample_index.length 0 = 0 :=
  ⟨(nearest_earlier_index_largest sample_index 24006 (by decide) (by decide)).1 (by decide),
    by decide,
    ((nearest_earlier_index_largest sample_index 0 (by decide) (by decide)).2 (by decide)).1⟩

/-- C13: the comparison `ia->pts - ib->pts` is cut to 32 bits.  Looking for the PTS
`2^32` in an index that holds only the PTS 0 returns that entry, and looking for the PTS
3000000000 in the sorted index with the PTS 0, 1000 and 3000000000 returns `NULL`. -/
theorem find_index_truncated_comparison :
    find_index [{ pts := 0, pos := 0 }] 1 4294967296 = some 0 ∧
      index_sorted wide_index ∧
      (∃ e ∈ wide_index, e.pts = 3000000000) ∧
      find_index wide_index wide_index.length 3000000000 = none := by
  decide

/-! ## Serve loop -/

theorem one_response_send (output : List pipe_write) (code : Int) (data : List Nat) :
    one_response output (send_response output code data.length data) := by
  refine ⟨code, data, ?_⟩
  unfold send_response
  by_cases h : data.length > 0
  · simp [h]
  · simp [h]

theorem one_response_send_empty (output : List pipe_write) (code : Int) :
    one_response output (send_response output code 0 []) :=
  one_response_send output code []

theorem send_response_empty (output : List pipe_write) (code : Int) :
    send_response output code 0 [] =
      output ++ [pipe_write.header { code := code, size := 0 }] := by
  simp [send_response]

theorem serve_image_found_one_response (env : serve_env) (st : serve_state)
    (cache : framecache) (av : av_state) (i imageOpt : Nat) :
    one_response st.output (serve_image_found env st cache av i imageOpt).2.output := by
  unfold serve_image_found
  dsimp only
  split
  · exact one_response_send _ _ _
  · split
    · exact one_response_send_empty _ _
    · exact one_response_send_empty _ _
    · exact one_response_send _ _ _

theorem serve_image_one_response (env : serve_env) (st : serve_state)
    (cmd : nicm_serve_command) :
    one_response st.output (serve_image env st cmd).2.output := by
  unfold serve_image
  split
  · exact one_response_send_empty _ _
  · dsimp only
    split
    · exact one_response_send_empty _ _
    · exact serve_image_found_one_response _ _ _ _ _ _

theorem serve_scene_detect_scores_output (env : serve_env) (st : serve_state)
    (cmd : nicm_serve_command) (cache : framecache) (av : av_state)
    (output : List pipe_write) (fr : Option frame)
    (hok : (serve_scene_detect_scores env st cmd cache av output fr).1 ≠ serve_status.fault) :
    fr ≠ none ∧
      one_response output (serve_scene_detect_scores env st cmd cache av output fr).2.output := by
  unfold serve_scene_detect_scores at hok ⊢
  cases fr with
  | none => simp [init_scene_detect_context] at hok
  | some x =>
    simp only [init_scene_detect_context] at hok ⊢
    split at hok
    · exact absurd rfl hok
    · rename_i heq
      simp only [heq]
      exact ⟨by simp, one_response_send _ _ _⟩

theorem serve_scene_detect_one_response (env : serve_env) (st : serve_state)
    (cmd : nicm_serve_command)
    (hok : (serve_scene_detect env st cmd).1 ≠ serve_status.fault) :
    one_response st.output (serve_scene_detect env st cmd).2.output := by
  unfold serve_scene_detect at hok ⊢
  obtain ⟨hne, hone⟩ := serve_scene_detect_scores_output _ _ _ _ _ _ _ hok
  cases hr : (load_frame st.cache st.av env.stream_index (cmd.args 0) env.indices
      env.frames_in_indices).1 with
  | none =>
    rw [hr] at hne
    simp at hne
  | some i =>
    simp only [hr] at hone ⊢
    exact hone

/-- A `SCENE_DETECT` command whose base frame the loader does not find: the handler
writes the header 404 and then faults in `init_scene_detect_context`. -/
theorem serve_scene_detect_absent (env : serve_env) (st : serve_state)
    (cmd : nicm_serve_command)
    (h : (load_frame st.cache st.av env.stream_index (cmd.args 0) env.indices
      env.frames_in_indices).1 = none) :
    (serve_scene_detect env st cmd).1 = serve_status.fault ∧
      (serve_scene_detect env st cmd).2.output =
        st.output ++ [pipe_write.header { code := 404, size := 0 }] := by
  unfold serve_scene_detect
  simp only [h, Option.map_none']
  unfold serve_scene_detect_scores
  simp [init_scene_detect_context, send_response_empty]

/-- C14, counterexample: the command code 3 is none of `QUIT`, `INFO`, `IMAGE` and
`SCENE_DETECT`; the loop goes on to the next command and nothing is written. -/
theorem serve_command_unknown_code_silent :
    (serve_command sample_env sample_state (command_of 3 0 0 0 0)).1 = serve_status.running ∧
      (serve_command sample_env sample_state (command_of 3 0 0 0 0)).2.output
        = sample_state.output := by
  decide

/-- C14, amended: for a command whose code is `QUIT`, `INFO`, `IMAGE` or
`SCENE_DETECT` and whose handling does not fault, one response header is written and
its `size` is the number of payload bytes written after it; for any other command code
nothing is written. -/
theorem serve_command_one_response (env : serve_env) (st : serve_state)
    (cmd : nicm_serve_command) :
    ((cmd.command = 0 ∨ cmd.command = 1 ∨ cmd.command = 2 ∨ cmd.command = 256) →
        (serve_command env st cmd).1 ≠ serve_status.fault →
        one_response st.output (serve_command env st cmd).2.output) ∧
      (¬ (cmd.command = 0 ∨ cmd.command = 1 ∨ cmd.command = 2 ∨ cmd.command = 256) →
        (serve_command env st cmd).2.output = st.output) := by
  unfold serve_command NICM_SERVE_COMMAND_QUIT NICM_SERVE_COMMAND_INFO NICM_SERVE_COMMAND_IMAGE
    NICM_SERVE_COMMAND_SCENE_DETECT
  constructor
  · intro _ hok
    split
    · exact one_response_send_empty _ _
    · split
      · split
        · exact one_response_send _ _ _
        · exact one_response_send_empty _ _
      · split
        · exact serve_image_one_response env st cmd
        · split
          · rename_i h0 h1 h2 h256
            rw [if_neg h0, if_neg h1, if_neg h2, if_pos h256] at hok
            exact serve_scene_detect_one_response env st cmd hok
          · rename_i h0 h1 h2 h256
            omega
  · intro hno
    rw [if_neg (fun h => hno (Or.inl h)), if_neg (fun h => hno (Or.inr (Or.inl h))),
      if_neg (fun h => hno (Or.inr (Or.inr (Or.inl h)))),
      if_neg (fun h => hno (Or.inr (Or.inr (Or.inr h))))]

theorem serve_command_one_response_witness :
    one_response sample_state.output
        (serve_command sample_env sample_state (command_of 2 1000 0 0 0)).2.output ∧
      (serve_command sample_env sample_state (command_of 2 1000 0 0 0)).2.output =
        [pipe_write.header { code := 0, size := 2 }, pipe_write.payload [0, 0]] ∧
      (serve_command sample_env sample_state (command_of 7 0 0 0 0)).2.output
        = sample_state.output :=
  ⟨(serve_command_one_response sample_env sample_state (command_of 2 1000 0 0 0)).1
      (by decide) (by decide),
    by decide,
    (serve_command_one_response sample_env sample_state (command_of 7 0 0 0 0)).2 (by decide)⟩

/-- C15: an `IMAGE` command with `args[2] < 0` or `args[2] ≥ 8` is answered with the
header of code 400 and size 0 and nothing else happens: the loop goes on, the cache,
the demuxer with its call log and the encoder log are as before. -/
theorem serve_image_bad_variant (env : serve_env) (st : serve_state) (cmd : nicm_serve_command)
    (hcmd : cmd.command = 2) (hvar : cmd.args 2 < 0 ∨ cmd.args 2 ≥ 8) :
    (serve_command env st cmd).1 = serve_status.running ∧
      (serve_command env st cmd).2.output =
        st.output ++ [pipe_write.header { code := 400, size := 0 }] ∧
      (serve_command env st cmd).2.cache = st.cache ∧
      (serve_command env st cmd).2.av = st.av ∧
      (serve_command env st cmd).2.encodes = st.encodes := by
  have h : serve_command env st cmd =
      (serve_status.running,
        { st with output := st.output ++ [pipe_write.header { code := 400, size := 0 }] }) := by
    unfold serve_command NICM_SERVE_COMMAND_QUIT NICM_SERVE_COMMAND_INFO
      NICM_SERVE_COMMAND_IMAGE
    rw [if_neg (by omega), if_neg (by omega), if_pos hcmd]
    unfold serve_image
    rw [if_pos hvar, send_response_empty]
  rw [h]
  exact ⟨rfl, rfl, rfl, rfl, rfl⟩

theorem serve_image_bad_variant_witness :
    (serve_command sample_env sample_state (command_of 2 18000 0 8 0)).1 = serve_status.running ∧
      (serve_command sample_env sample_state (command_of 2 18000 0 8 0)).2.output =
        sample_state.output ++ [pipe_write.header { code := 400, size := 0 }] ∧
      (serve_command sample_env sample_state (command_of 2 18000 0 8 0)).2.cache
        = sample_state.cache ∧
      (serve_command sample_env sample_state (command_of 2 18000 0 8 0)).2.av = sample_state.av ∧
      (serve_command sample_env sample_state (command_of 2 18000 0 8 0)).2.encodes
        = sample_state.encodes :=
  serve_image_bad_variant sample_env sample_state (command_of 2 18000 0 8 0) (by decide)
    (by decide)

/-- C16: `SCENE_DETECT` with the base PTS 100000, which the stream ends before.  The
loader returns `NULL`, the handler writes the header 404 and goes on to
`init_scene_detect_context` with the `NULL` frame, where it faults. -/
theorem serve_scene_detect_absent_base_faults :
    (load_frame sample_state.cache sample_state.av sample_env.stream_index 100000
        sample_env.indices sample_env.frames_in_indices).1 = none ∧
      (serve_command sample_env sample_state (command_of 256 100000 0 5 10000)).1
        = serve_status.fault ∧
      (serve_command sample_env sample_state (command_of 256 100000 0 5 10000)).2.output
        = [pipe_write.header { code := 404, size := 0 }] := by
  decide

/-- C17: `IMAGE` for the PTS 1000 with `args[1] = 0` (exact only).  No frame has the
PTS 1000; the loader returns slot 0, the frame with PTS 0, and the handler answers
with code 0 and the image of that frame. -/
theorem serve_image_exact_only_gets_nearest :
    (command_of 2 1000 0 0 0).args 1 = 0 ∧
      (load_frame sample_state.cache sample_state.av sample_env.stream_index 1000
        sample_env.indices sample_env.frames_in_indices).1 = some 0 ∧
      resident_pts (serve_command sample_env sample_state (command_of 2 1000 0 0 0)).2.cache
        = [0, 3003] ∧
      (serve_command sample_env sample_state (command_of 2 1000 0 0 0)).2.output =
        [pipe_write.header { code := 0, size := 2 }, pipe_write.payload [0, 0]] := by
  decide

/-- C20, counterexample: for `args[2] = -5` the handler keeps the default 100, where
clamping to `[1, 2000]` gives 1. -/
theorem scene_detect_max_frame_negative :
    scene_detect_max_frame (-5) = 100 ∧ max 1 (min (-5 : Int) 2000) = 1 := by
  decide

/-- C20, amended: `max_frame` is 100 when `args[2] ≤ 0` and otherwise `args[2]` clamped
to `[1, 2000]`; `cut_off` is `args[3]` when `0 < args[3] < 10000` and 10000 otherwise. -/
theorem scene_detect_parameters (arg2 arg3 : Int) :
    (arg2 ≤ 0 → scene_detect_max_frame arg2 = 100) ∧
      (0 < arg2 → scene_detect_max_frame arg2 = max 1 (min arg2 2000)) ∧
      (0 < arg3 ∧ arg3 < 10000 → scene_detect_cut_off arg3 = arg3) ∧
      (¬ (0 < arg3 ∧ arg3 < 10000) → scene_detect_cut_off arg3 = 10000) := by
  unfold scene_detect_max_frame scene_detect_cut_off SCENE_DETECT_MAX_FRAMES
    SCENE_DETECT_DEFAULT_FRAMES MAX_SCENE_CHANGE_SCORE
  refine ⟨?_, ?_, ?_, ?_⟩
  · intro h
    rw [if_neg (by omega)]
  · intro h
    rw [if_pos (by omega)]
    split <;> omega
  · intro h
    rw [if_pos (by omega)]
  · intro h
    rw [if_neg (by omega)]

theorem scene_detect_parameters_witness :
    scene_detect_max_frame 5000 = max 1 (min 5000 2000) ∧ scene_detect_max_frame 0 = 100 ∧
      scene_detect_cut_off 500 = 500 ∧ scene_detect_cut_off 10000 = 10000 :=
  ⟨(scene_detect_parameters 5000 500).2.1 (by decide),
    (scene_detect_parameters 0 500).1 (by decide),
    (scene_detect_parameters 5000 500).2.2.1 (by decide),
    (scene_detect_parameters 5000 10000).2.2.2 (by decide)⟩

/-! ## Double precision -/

theorem round_even_sub_le (x : ℚ) : |(round_even x : ℚ) - x| ≤ 1 / 2 := by
  have h1 : (⌊x⌋ : ℚ) ≤ x := Int.floor_le x
  have h2 : x < (⌊x⌋ : ℚ) + 1 := Int.lt_floor_add_one x
  unfold round_even
  rw [abs_le]
  split
  · constructor <;> linarith
  · split
    · push_cast
      constructor <;> linarith
    · split
      · constructor <;> linarith
      · push_cast
        constructor <;> linarith

theorem round_even_intCast (n : ℤ) : round_even (n : ℚ) = n := by
  unfold round_even
  simp

theorem round_even_eq (x : ℚ) (n : ℤ) (h : |x - n| < 1 / 2) : round_even x = n := by
  have hr := round_even_sub_le x
  rw [abs_lt] at h
  rw [abs_le] at hr
  have h1 : ((round_even x : ℤ) : ℚ) - n < 1 := by linarith
  have h2 : (-1 : ℚ) < ((round_even x : ℤ) : ℚ) - n := by linarith
  have h3 : round_even x - n < 1 := by exact_mod_cast h1
  have h4 : -1 < round_even x - n := by exact_mod_cast h2
  omega

theorem double_ulp_pos (q : ℚ) : 0 < double_ulp q := by
  unfold double_ulp
  positivity

theorem double_ulp_le (q : ℚ) (hq : q ≠ 0) : double_ulp q * 2 ^ 52 ≤ |q| := by
  have h := Int.zpow_log_le_self (b := 2) (r := |q|) (by norm_num) (abs_pos.2 hq)
  unfold double_ulp
  rw [zpow_sub₀ (by norm_num : (2 : ℚ) ≠ 0)]
  have h52 : ((2 : ℚ) ^ (52 : ℤ)) = 2 ^ 52 := by norm_cast
  rw [h52, div_mul_cancel₀ _ (by positivity)]
  exact_mod_cast h

/-- The rounding error of `to_double` is at most `2^-53` times the number rounded. -/
theorem to_double_sub_le (q : ℚ) : |to_double q - q| ≤ |q| / 2 ^ 53 := by
  unfold to_double
  by_cases hq : q = 0
  · simp [hq]
  · rw [if_neg hq]
    have hu := double_ulp_pos q
    have hr := round_even_sub_le (q / double_ulp q)
    have hle := double_ulp_le q hq
    have heq : (round_even (q / double_ulp q) : ℚ) * double_ulp q - q =
        ((round_even (q / double_ulp q) : ℚ) - q / double_ulp q) * double_ulp q := by
      field_simp
    rw [heq, abs_mul, abs_of_pos hu]
    calc |(round_even (q / double_ulp q) : ℚ) - q / double_ulp q| * double_ulp q
        ≤ 1 / 2 * double_ulp q := by
          exact mul_le_mul_of_nonneg_right hr hu.le
      _ ≤ |q| / 2 ^ 53 := by
          rw [le_div_iff₀ (by positivity)]
          nlinarith

theorem to_double_zero : to_double 0 = 0 := by
  simp [to_double]

theorem to_double_nonneg (q : ℚ) (hq : 0 ≤ q) : 0 ≤ to_double q := by
  have h := to_double_sub_le q
  rw [abs_of_nonneg hq, abs_le] at h
  have : q / 2 ^ 53 ≤ q := div_le_self hq (by norm_num)
  linarith

/-- An integer below `2^53` in absolute value is a double. -/
theorem to_double_intCast (z : ℤ) (hz : z.natAbs < 2 ^ 53) : to_double (z : ℚ) = z := by
  unfold to_double
  by_cases h0 : (z : ℚ) = 0
  · simp [h0]
  · rw [if_neg h0]
    have habs : |(z : ℚ)| = ((z.natAbs : ℕ) : ℚ) := by
      rw [← Int.cast_abs, Int.abs_eq_natAbs, Int.cast_natCast]
    have hlog : Int.log 2 |(z : ℚ)| = (Nat.log 2 z.natAbs : ℤ) := by
      rw [habs]
      exact Int.log_natCast 2 z.natAbs
    have hlt : Nat.log 2 z.natAbs < 53 := by
      have hz0 : z.natAbs ≠ 0 := by
        intro h
        apply h0
        have : z = 0 := Int.natAbs_eq_zero.1 h
        simp [this]
      exact Nat.log_lt_of_lt_pow hz0 hz
    obtain ⟨k, hk⟩ : ∃ k : ℕ, Nat.log 2 z.natAbs + k = 52 := ⟨52 - Nat.log 2 z.natAbs, by omega⟩
    have hulp : double_ulp (z : ℚ) = ((2 : ℚ) ^ k)⁻¹ := by
      unfold double_ulp
      rw [hlog]
      have : (Nat.log 2 z.natAbs : ℤ) - 52 = -(k : ℤ) := by omega
      rw [this, zpow_neg, zpow_natCast]
    rw [hulp, div_inv_eq_mul]
    have hcast : (z : ℚ) * 2 ^ k = ((z * 2 ^ k : ℤ) : ℚ) := by push_cast; ring
    rw [hcast, round_even_intCast]
    push_cast
    field_simp

theorem to_double_natCast (n : ℕ) (hn : n < 2 ^ 53) : to_double (n : ℚ) = n := by
  have := to_double_intCast (n : ℤ) (by simpa using hn)
  simpa using this

/-- The value of `to_double` at a number whose binade and nearest significand are
known. -/
theorem to_double_eq (q : ℚ) (e m : ℤ) (hq : 0 < q) (h1 : (2 : ℚ) ^ e ≤ q)
    (h2 : q < (2 : ℚ) ^ (e + 1)) (h3 : |q / (2 : ℚ) ^ (e - 52) - m| < 1 / 2) :
    to_double q = m * (2 : ℚ) ^ (e - 52) := by
  have hlog : Int.log 2 |q| = e := by
    rw [abs_of_pos hq]
    apply le_antisymm
    · have := (Int.lt_zpow_iff_log_lt (b := 2) (by norm_num) hq).1 (by exact_mod_cast h2)
      omega
    · exact (Int.zpow_le_iff_le_log (b := 2) (by norm_num) hq).1 (by exact_mod_cast h1)
  unfold to_double double_ulp
  rw [if_neg hq.ne', hlog, round_even_eq _ m h3]

/-! ## Scene score -/

theorem foldl_to_double_exact (l : List Nat) (acc : Nat) (hl : ∀ y ∈ l, y ≤ 255)
    (hb : acc + 255 * l.length < 2 ^ 53) :
    l.foldl (fun (sum : ℚ) (y : Nat) => to_double (sum + (y : ℚ))) (acc : ℚ) =
        ((acc + l.sum : ℕ) : ℚ) ∧
      l.sum ≤ 255 * l.length := by
  induction l generalizing acc with
  | nil => simp
  | cons y rest ih =>
    have hy : y ≤ 255 := hl y (List.mem_cons_self _ _)
    simp only [List.length_cons] at hb
    have hstep : to_double ((acc : ℚ) + (y : ℚ)) = ((acc + y : ℕ) : ℚ) := by
      have := to_double_natCast (acc + y) (by omega)
      simpa using this
    obtain ⟨ih1, ih2⟩ := ih (acc + y) (fun z hz => hl z (List.mem_cons_of_mem _ hz)) (by omega)
    simp only [List.foldl_cons, List.sum_cons, List.length_cons]
    rw [hstep, ih1]
    constructor
    · congr 1
      omega
    · omega

theorem luma_bytes_le (avf : AVFrame) : ∀ y ∈ luma_bytes avf, y ≤ 255 := by
  intro y hy
  unfold luma_bytes at hy
  rw [List.mem_flatMap] at hy
  obtain ⟨h, _, hy⟩ := hy
  rw [List.mem_map] at hy
  obtain ⟨w, _, rfl⟩ := hy
  omega

theorem luma_bytes_length (avf : AVFrame) : (luma_bytes avf).length = avf.height * avf.width := by
  unfold luma_bytes
  rw [List.length_flatMap]
  simp [Function.comp_def, List.map_const', List.sum_replicate]

/-- For a frame of less than `2^53 / 255` pixels `calc_frame_sum` is the exact sum of
the bytes of the luma plane. -/
theorem calc_frame_sum_exact (avf : AVFrame) (h : 255 * (avf.height * avf.width) < 2 ^ 53) :
    calc_frame_sum avf = (luma_sum avf : ℚ) ∧ luma_sum avf ≤ 255 * (avf.height * avf.width) := by
  have := foldl_to_double_exact (luma_bytes avf) 0 (luma_bytes_le avf)
    (by rw [luma_bytes_length]; omega)
  unfold calc_frame_sum luma_sum
  rw [luma_bytes_length] at this
  simpa using this

/-- Two roundings, of `y` and of the product with 10000, are within `3 * 2^-53` of the
exact product. -/
theorem to_double_mul_sub_le (y : ℚ) (hy : 0 ≤ y) :
    |to_double (to_double y * 10000) - y * 10000| ≤ 3 * (y * 10000) / 2 ^ 53 ∧
      0 ≤ to_double (to_double y * 10000) := by
  have h1 := to_double_sub_le y
  have hv1 := to_double_nonneg y hy
  have h2 := to_double_sub_le (to_double y * 10000)
  have hv2 := to_double_nonneg (to_double y * 10000) (by positivity)
  rw [abs_of_nonneg hy, abs_le] at h1
  rw [abs_of_nonneg (by positivity : (0 : ℚ) ≤ to_double y * 10000), abs_le] at h2
  refine ⟨?_, hv2⟩
  have hu : (0 : ℚ) < 2 ^ 53 := by positivity
  have e1 : y / 2 ^ 53 * 2 ^ 53 = y := div_mul_cancel₀ y hu.ne'
  have e2 : to_double y * 10000 / 2 ^ 53 * 2 ^ 53 = to_double y * 10000 :=
    div_mul_cancel₀ _ hu.ne'
  have e3 : 3 * (y * 10000) / 2 ^ 53 * 2 ^ 53 = 3 * (y * 10000) := div_mul_cancel₀ _ hu.ne'
  have hsmall : y / 2 ^ 53 ≤ y := div_le_self hy (by norm_num)
  rw [abs_le]
  constructor
  · nlinarith
  · nlinarith

/-- The integral part of a number `v` within `3 * 2^-53 * x` of the fraction `x = D / a`
of two natural numbers with `3 * D < 2^53`. -/
theorem floor_near_fraction (a D : ℕ) (ha : 0 < a) (hD : 3 * D < 2 ^ 53) (v : ℚ)
    (h : |v - (D : ℚ) / a| ≤ 3 * ((D : ℚ) / a) / 2 ^ 53) :
    ⌊(D : ℚ) / a⌋ - 1 ≤ ⌊v⌋ ∧ ⌊v⌋ ≤ ⌊(D : ℚ) / a⌋ ∧
      ((⌊(D : ℚ) / a⌋ : ℚ) ≠ (D : ℚ) / a → ⌊v⌋ = ⌊(D : ℚ) / a⌋) ∧
      v < (⌊(D : ℚ) / a⌋ : ℚ) + 1 := by
  have haq : (0 : ℚ) < a := by exact_mod_cast ha
  have hDq : (3 : ℚ) * D < 2 ^ 53 := by exact_mod_cast hD
  have hD0 : (0 : ℚ) ≤ D := by positivity
  have h1a : (1 : ℚ) ≤ a := by exact_mod_cast ha
  set x : ℚ := (D : ℚ) / a with hx
  have hxa : x * a = D := div_mul_cancel₀ _ haq.ne'
  have hx0 : 0 ≤ x := by positivity
  have hxD : x ≤ D := div_le_self hD0 h1a
  set n : ℤ := ⌊x⌋ with hn
  have hn1 : (n : ℚ) ≤ x := Int.floor_le x
  have hn2 : x < (n : ℚ) + 1 := Int.lt_floor_add_one x
  -- the error is below `1 / a`
  have herr : 3 * x / 2 ^ 53 * a < 1 := by
    have : 3 * x / 2 ^ 53 * a = 3 * D / 2 ^ 53 := by
      rw [← hxa]
      ring
    rw [this, div_lt_one (by positivity)]
    exact hDq
  have herr1 : 3 * x / 2 ^ 53 < 1 := by
    have h0 : 0 ≤ 3 * x / 2 ^ 53 := by positivity
    nlinarith
  rw [abs_le] at h
  -- `(n + 1) * a - D` is a positive integer
  have hup : (D : ℚ) + 1 ≤ ((n : ℚ) + 1) * a := by
    have hlt : (D : ℚ) < ((n : ℚ) + 1) * a := by
      rw [← hxa]
      exact mul_lt_mul_of_pos_right hn2 haq
    have hlt' : (D : ℤ) < (n + 1) * (a : ℤ) := by exact_mod_cast hlt
    have : (D : ℤ) + 1 ≤ (n + 1) * (a : ℤ) := by omega
    exact_mod_cast this
  have hvlt : v < (n : ℚ) + 1 := by
    have hD' : x * a + 1 ≤ ((n : ℚ) + 1) * a := by rw [hxa]; exact hup
    nlinarith
  have hvgt : (n : ℚ) - 1 < v := by linarith
  refine ⟨?_, ?_, ?_, hvlt⟩
  · have : n - 1 < ⌊v⌋ + 1 := by
      have h3 : ((n - 1 : ℤ) : ℚ) < v := by push_cast; linarith
      have := Int.lt_floor_add_one v
      have h4 : ((n - 1 : ℤ) : ℚ) < ((⌊v⌋ + 1 : ℤ) : ℚ) := by push_cast; push_cast at h3; linarith
      exact_mod_cast h4
    omega
  · have : ⌊v⌋ < n + 1 := by
      have := Int.floor_le v
      have h4 : ((⌊v⌋ : ℤ) : ℚ) < ((n + 1 : ℤ) : ℚ) := by push_cast; linarith
      exact_mod_cast h4
    omega
  · intro hne
    have hlt : (n : ℚ) < x := lt_of_le_of_ne hn1 hne
    have hlow : (n : ℚ) * a + 1 ≤ D := by
      have hlt2 : (n : ℚ) * a < D := by
        rw [← hxa]
        exact mul_lt_mul_of_pos_right hlt haq
      have hlt' : n * (a : ℤ) < (D : ℤ) := by exact_mod_cast hlt2
      have : n * (a : ℤ) + 1 ≤ (D : ℤ) := by omega
      exact_mod_cast this
    have hvn : (n : ℚ) ≤ v := by
      have hD' : (n : ℚ) * a + 1 ≤ x * a := by rw [hxa]; exact hlow
      nlinarith
    exact Int.floor_eq_iff.2 ⟨hvn, hvlt⟩

theorem double_to_int_of_nonneg (v : ℚ) (h0 : 0 ≤ v) (h1 : v < 2147483648) :
    double_to_int v = some ⌊v⌋ := by
  unfold double_to_int
  rw [if_pos ⟨by linarith, h1⟩, if_pos h0]

/-- The expression that `score_scene_change` converts to `int`, for exact luma sums
`a > 0` (previous frame) and `b` (new frame) whose difference is below `2^53`. -/
theorem score_scene_change_eq (context : scene_detect_context) (fr : frame) (a b : ℕ)
    (hctx : context.last_y_sum = (a : ℚ)) (hfr : calc_frame_sum fr.avf = (b : ℚ)) (ha : 0 < a)
    (hd : ((b : ℤ) - (a : ℤ)).natAbs < 2 ^ 53) :
    (score_scene_change context fr).1 =
      double_to_int (to_double (to_double (|(b : ℚ) - (a : ℚ)| / (a : ℚ)) * 10000)) := by
  have haq : (0 : ℚ) < a := by exact_mod_cast ha
  have hsub : to_double ((b : ℚ) - (a : ℚ)) = (b : ℚ) - (a : ℚ) := by
    have := to_double_intCast ((b : ℤ) - (a : ℤ)) hd
    push_cast at this
    exact this
  unfold score_scene_change
  simp only [hctx, hfr, hsub, MAX_SCENE_CHANGE_SCORE]
  rw [if_neg haq.ne']
  norm_num

/-- The score of `score_scene_change` for exact luma sums `a > 0` (previous frame) and
`b` (new frame): with `x = |b - a| / a * 10000`, the score is `⌊x⌋`, or `⌊x⌋ - 1`, which
can only be when `x` is an integer; it is never negative. -/
theorem score_scene_change_value (context : scene_detect_context) (fr : frame) (a b : ℕ)
    (hctx : context.last_y_sum = (a : ℚ)) (hfr : calc_frame_sum fr.avf = (b : ℚ)) (ha : 0 < a)
    (hd : ((b : ℤ) - (a : ℤ)).natAbs < 2 ^ 38)
    (hfit : |(b : ℚ) - (a : ℚ)| / (a : ℚ) * 10000 < 2147483647) :
    ∃ s : ℤ, (score_scene_change context fr).1 = some s ∧ 0 ≤ s ∧
      ⌊|(b : ℚ) - (a : ℚ)| / (a : ℚ) * 10000⌋ - 1 ≤ s ∧
      s ≤ ⌊|(b : ℚ) - (a : ℚ)| / (a : ℚ) * 10000⌋ ∧
      ((⌊|(b : ℚ) - (a : ℚ)| / (a : ℚ) * 10000⌋ : ℚ) ≠ |(b : ℚ) - (a : ℚ)| / (a : ℚ) * 10000 →
        s = ⌊|(b : ℚ) - (a : ℚ)| / (a : ℚ) * 10000⌋) := by
  have habs : |(b : ℚ) - (a : ℚ)| = ((((b : ℤ) - (a : ℤ)).natAbs : ℕ) : ℚ) := by
    have h1 : (b : ℚ) - (a : ℚ) = (((b : ℤ) - (a : ℤ) : ℤ) : ℚ) := by push_cast; ring
    rw [h1, ← Int.cast_abs, Int.abs_eq_natAbs, Int.cast_natCast]
  set dn : ℕ := ((b : ℤ) - (a : ℤ)).natAbs with hdn
  have hx : |(b : ℚ) - (a : ℚ)| / (a : ℚ) * 10000 = ((dn * 10000 : ℕ) : ℚ) / (a : ℚ) := by
    rw [habs]
    push_cast
    ring
  have hy0 : (0 : ℚ) ≤ |(b : ℚ) - (a : ℚ)| / (a : ℚ) := by positivity
  obtain ⟨hv, hv0⟩ := to_double_mul_sub_le (|(b : ℚ) - (a : ℚ)| / (a : ℚ)) hy0
  have hscore := score_scene_change_eq context fr a b hctx hfr ha (by omega)
  rw [hx] at hv hfit ⊢
  obtain ⟨f1, f2, f3, f4⟩ := floor_near_fraction a (dn * 10000) ha (by omega) _ hv
  have hfl : (⌊((dn * 10000 : ℕ) : ℚ) / (a : ℚ)⌋ : ℚ) < 2147483647 :=
    lt_of_le_of_lt (Int.floor_le _) hfit
  have hfl' : ⌊((dn * 10000 : ℕ) : ℚ) / (a : ℚ)⌋ < 2147483647 := by exact_mod_cast hfl
  refine ⟨⌊to_double (to_double (|(b : ℚ) - (a : ℚ)| / (a : ℚ)) * 10000)⌋, ?_, ?_, f1, f2, f3⟩
  · rw [hscore]
    apply double_to_int_of_nonneg _ hv0
    have : ((⌊((dn * 10000 : ℕ) : ℚ) / (a : ℚ)⌋ : ℤ) : ℚ) + 1 ≤ 2147483647 := by
      have : ⌊((dn * 10000 : ℕ) : ℚ) / (a : ℚ)⌋ + 1 ≤ 2147483647 := by omega
      exact_mod_cast this
    linarith
  · exact Int.floor_nonneg.2 hv0

theorem to_double_one_over : to_double (1 / 10000) = 7378697629483821 / 73786976294838206464 := by
  have h := to_double_eq (1 / 10000) (-14) 7378697629483821 (by norm_num)
    (by norm_num [zpow_neg]) (by norm_num [zpow_neg]) (by
      rw [abs_lt]
      constructor <;> norm_num [zpow_neg])
  rw [h]
  norm_num [zpow_neg]

/-- In double precision `1 / 10000 * 10000` is 1. -/
theorem to_double_one_over_mul : to_double (to_double (1 / 10000) * 10000) = 1 := by
  rw [to_double_one_over]
  have h := to_double_eq (7378697629483821 / 73786976294838206464 * 10000) 0 4503599627370496
    (by norm_num) (by norm_num) (by norm_num) (by
      rw [abs_lt]
      constructor <;> norm_num [zpow_neg])
  rw [h]
  norm_num [zpow_neg]

/-- The score is 0 exactly when `|b - a| * 10000 < a`. -/
theorem score_scene_change_zero_iff (context : scene_detect_context) (fr : frame) (a b : ℕ)
    (hctx : context.last_y_sum = (a : ℚ)) (hfr : calc_frame_sum fr.avf = (b : ℚ)) (ha : 0 < a)
    (hd : ((b : ℤ) - (a : ℤ)).natAbs < 2 ^ 38)
    (hfit : |(b : ℚ) - (a : ℚ)| / (a : ℚ) * 10000 < 2147483647) :
    ∃ s : ℤ, (score_scene_change context fr).1 = some s ∧ 0 ≤ s ∧
      (s = 0 ↔ |(b : ℚ) - (a : ℚ)| * 10000 < (a : ℚ)) := by
  have haq : (0 : ℚ) < a := by exact_mod_cast ha
  obtain ⟨s, hs, h0, h1, h2, h3⟩ :=
    score_scene_change_value context fr a b hctx hfr ha hd hfit
  refine ⟨s, hs, h0, ?_⟩
  have hxeq : |(b : ℚ) - (a : ℚ)| / (a : ℚ) * 10000 = |(b : ℚ) - (a : ℚ)| * 10000 / (a : ℚ) := by
    ring
  set x : ℚ := |(b : ℚ) - (a : ℚ)| / (a : ℚ) * 10000 with hxdef
  have hx0 : 0 ≤ x := by positivity
  have hlt_iff : |(b : ℚ) - (a : ℚ)| * 10000 < (a : ℚ) ↔ x < 1 := by
    rw [hxeq, div_lt_one haq]
  rw [hlt_iff]
  constructor
  · intro hs0
    by_contra hx1
    push_neg at hx1
    have hfl1 : 1 ≤ ⌊x⌋ := Int.le_floor.2 (by exact_mod_cast hx1)
    by_cases hint : (⌊x⌋ : ℚ) = x
    · by_cases hone : ⌊x⌋ = 1
      · -- `x = 1`: the quotient is `1 / 10000` and the double product is 1
        have hx1' : x = 1 := by rw [← hint, hone]; norm_num
        have hq : |(b : ℚ) - (a : ℚ)| / (a : ℚ) = 1 / 10000 := by
          have : |(b : ℚ) - (a : ℚ)| / (a : ℚ) * 10000 = 1 := hx1'
          linarith
        have hscore := score_scene_change_eq context fr a b hctx hfr ha (by omega)
        rw [hq, to_double_one_over_mul] at hscore
        rw [hscore] at hs
        have : double_to_int 1 = some 1 := by
          rw [double_to_int_of_nonneg 1 (by norm_num) (by norm_num)]
          simp
        rw [this] at hs
        simp only [Option.some.injEq] at hs
        omega
      · omega
    · have := h3 hint
      omega
  · intro hx1
    have hfl0 : ⌊x⌋ = 0 := Int.floor_eq_iff.2 ⟨by simpa using hx0, by simpa using hx1⟩
    omega

/-- The exact sums of two frames of less than `2^38 / 255` pixels, as the score uses
them. -/
theorem score_frames_sums (A B : frame) (hA : 255 * (A.avf.height * A.avf.width) < 2 ^ 38)
    (hB : 255 * (B.avf.height * B.avf.width) < 2 ^ 38) :
    calc_frame_sum A.avf = (luma_sum A.avf : ℚ) ∧ calc_frame_sum B.avf = (luma_sum B.avf : ℚ) ∧
      ((luma_sum B.avf : ℤ) - (luma_sum A.avf : ℤ)).natAbs < 2 ^ 38 := by
  obtain ⟨ha1, ha2⟩ := calc_frame_sum_exact A.avf (by omega)
  obtain ⟨hb1, hb2⟩ := calc_frame_sum_exact B.avf (by omega)
  exact ⟨ha1, hb1, by omega⟩

theorem luma_sum_three : luma_sum (luma_frame [3]).avf = 3 := by decide

theorem luma_sum_five : luma_sum (luma_frame [5]).avf = 5 := by decide

/-- C18, counterexample: the luma sums are 3 and 5.  The exact value is
`2 / 3 * 10000 = 6666.66...`, its nearest integer is 6667, and `score_scene_change`
returns 6666. -/
theorem score_scene_change_not_rounded :
    luma_sum (luma_frame [3]).avf = 3 ∧ luma_sum (luma_frame [5]).avf = 5 ∧
      (score_scene_change { last_y_sum := calc_frame_sum (luma_frame [3]).avf }
        (luma_frame [5])).1 = some 6666 ∧
      round (|(5 : ℚ) - 3| / 3 * 10000) = 6667 := by
  have hA : calc_frame_sum (luma_frame [3]).avf = ((3 : ℕ) : ℚ) := by
    rw [(calc_frame_sum_exact (luma_frame [3]).avf (by decide)).1, luma_sum_three]
  have hB : calc_frame_sum (luma_frame [5]).avf = ((5 : ℕ) : ℚ) := by
    rw [(calc_frame_sum_exact (luma_frame [5]).avf (by decide)).1, luma_sum_five]
  have hfloor : ⌊|(((5 : ℕ) : ℚ)) - ((3 : ℕ) : ℚ)| / ((3 : ℕ) : ℚ) * 10000⌋ = 6666 := by
    rw [Int.floor_eq_iff]
    constructor <;> norm_num [abs_of_pos]
  obtain ⟨s, hs, _, _, _, h3⟩ := score_scene_change_value
    { last_y_sum := calc_frame_sum (luma_frame [3]).avf } (luma_frame [5]) 3 5 hA hB
    (by norm_num) (by decide) (by norm_num [abs_of_pos])
  rw [hfloor] at h3
  have hs' : s = 6666 := h3 (by norm_num [abs_of_pos])
  refine ⟨luma_sum_three, luma_sum_five, ?_, ?_⟩
  · rw [hs, hs']
  · rw [round_eq, Int.floor_eq_iff]
    constructor <;> norm_num [abs_of_pos]

/-- C18, amended: for frames of less than `2^38 / 255` pixels with a previous luma sum
`> 0` and `x = |sum_B - sum_A| / sum_A * 10000` below `2^31 - 1`, `score_scene_change`
returns `x` cut to its integral part, `⌊x⌋`, except that the roundings of the double
arithmetic can leave `⌊x⌋ - 1` when `x` is an integer. -/
theorem score_scene_change_truncates (A B : frame)
    (hA : 255 * (A.avf.height * A.avf.width) < 2 ^ 38)
    (hB : 255 * (B.avf.height * B.avf.width) < 2 ^ 38) (hpos : 0 < luma_sum A.avf)
    (hfit : |(luma_sum B.avf : ℚ) - (luma_sum A.avf : ℚ)| / (luma_sum A.avf : ℚ) * 10000
      < 2147483647) :
    ∃ s : ℤ, (score_scene_change { last_y_sum := calc_frame_sum A.avf } B).1 = some s ∧
      ⌊|(luma_sum B.avf : ℚ) - (luma_sum A.avf : ℚ)| / (luma_sum A.avf : ℚ) * 10000⌋ - 1 ≤ s ∧
      s ≤ ⌊|(luma_sum B.avf : ℚ) - (luma_sum A.avf : ℚ)| / (luma_sum A.avf : ℚ) * 10000⌋ ∧
      ((⌊|(luma_sum B.avf : ℚ) - (luma_sum A.avf : ℚ)| / (luma_sum A.avf : ℚ) * 10000⌋ : ℚ) ≠
          |(luma_sum B.avf : ℚ) - (luma_sum A.avf : ℚ)| / (luma_sum A.avf : ℚ) * 10000 →
        s = ⌊|(luma_sum B.avf : ℚ) - (luma_sum A.avf : ℚ)| / (luma_sum A.avf : ℚ) * 10000⌋) := by
  obtain ⟨ha, hb, hd⟩ := score_frames_sums A B hA hB
  obtain ⟨s, hs, _, h1, h2, h3⟩ := score_scene_change_value
    { last_y_sum := calc_frame_sum A.avf } B (luma_sum A.avf) (luma_sum B.avf) ha hb hpos hd hfit
  exact ⟨s, hs, h1, h2, h3⟩

theorem score_scene_change_truncates_witness :
    ∃ s : ℤ, (score_scene_change { last_y_sum := calc_frame_sum (luma_frame [3]).avf }
        (luma_frame [5])).1 = some s ∧
      ⌊|(luma_sum (luma_frame [5]).avf : ℚ) - (luma_sum (luma_frame [3]).avf : ℚ)| /
          (luma_sum (luma_frame [3]).avf : ℚ) * 10000⌋ - 1 ≤ s ∧
      s ≤ ⌊|(luma_sum (luma_frame [5]).avf : ℚ) - (luma_sum (luma_frame [3]).avf : ℚ)| /
          (luma_sum (luma_frame [3]).avf : ℚ) * 10000⌋ :=
  (score_scene_change_truncates (luma_frame [3]) (luma_frame [5]) (by decide) (by decide)
    (by decide) (by rw [luma_sum_three, luma_sum_five]; norm_num [abs_of_pos])).imp
    fun _ h => ⟨h.1, h.2.1, h.2.2.1⟩

theorem luma_sum_dim : luma_sum (luma_frame (List.replicate 50 250)).avf = 12500 := by decide

theorem luma_sum_dim_next :
    luma_sum (luma_frame (List.replicate 49 250 ++ [251])).avf = 12501 := by decide

/-- C19, counterexample: the luma sums are 12500 and 12501, not equal, and the score
is 0: the value `1 / 12500 * 10000 = 0.8` is cut to its integral part. -/
theorem score_scene_change_zero_unequal_sums :
    luma_sum (luma_frame (List.replicate 50 250)).avf = 12500 ∧
      luma_sum (luma_frame (List.replicate 49 250 ++ [251])).avf = 12501 ∧
      (score_scene_change
        { last_y_sum := calc_frame_sum (luma_frame (List.replicate 50 250)).avf }
        (luma_frame (List.replicate 49 250 ++ [251]))).1 = some 0 := by
  have hA : calc_frame_sum (luma_frame (List.replicate 50 250)).avf = ((12500 : ℕ) : ℚ) := by
    rw [(calc_frame_sum_exact _ (by decide)).1, luma_sum_dim]
  have hB : calc_frame_sum (luma_frame (List.replicate 49 250 ++ [251])).avf
      = ((12501 : ℕ) : ℚ) := by
    rw [(calc_frame_sum_exact _ (by decide)).1, luma_sum_dim_next]
  obtain ⟨s, hs, _, hiff⟩ := score_scene_change_zero_iff
    { last_y_sum := calc_frame_sum (luma_frame (List.replicate 50 250)).avf }
    (luma_frame (List.replicate 49 250 ++ [251])) 12500 12501 hA hB
    (by norm_num) (by decide) (by norm_num [abs_of_pos])
  have hs0 : s = 0 := hiff.2 (by norm_num [abs_of_pos])
  exact ⟨luma_sum_dim, luma_sum_dim_next, by rw [hs, hs0]⟩

/-- C19, amended: for frames of less than `2^38 / 255` pixels with a previous luma sum
`> 0` and a value below `2^31 - 1`, the score of `score_scene_change` is `≥ 0`, and it
is 0 exactly when `|sum_B - sum_A| * 10000 < sum_A`; equal sums give 0. -/
theorem score_scene_change_nonneg (A B : frame)
    (hA : 255 * (A.avf.height * A.avf.width) < 2 ^ 38)
    (hB : 255 * (B.avf.height * B.avf.width) < 2 ^ 38) (hpos : 0 < luma_sum A.avf)
    (hfit : |(luma_sum B.avf : ℚ) - (luma_sum A.avf : ℚ)| / (luma_sum A.avf : ℚ) * 10000
      < 2147483647) :
    ∃ s : ℤ, (score_scene_change { last_y_sum := calc_frame_sum A.avf } B).1 = some s ∧
      0 ≤ s ∧
      (s = 0 ↔ |(luma_sum B.avf : ℚ) - (luma_sum A.avf : ℚ)| * 10000 < (luma_sum A.avf : ℚ)) ∧
      (luma_sum B.avf = luma_sum A.avf → s = 0) := by
  obtain ⟨ha, hb, hd⟩ := score_frames_sums A B hA hB
  obtain ⟨s, hs, h0, hiff⟩ := score_scene_change_zero_iff
    { last_y_sum := calc_frame_sum A.avf } B (luma_sum A.avf) (luma_sum B.avf) ha hb hpos hd hfit
  refine ⟨s, hs, h0, hiff, ?_⟩
  intro heq
  apply hiff.2
  rw [heq]
  simpa using hpos

theorem score_scene_change_nonneg_witness :
    ∃ s : ℤ, (score_scene_change { last_y_sum := calc_frame_sum (luma_frame [3]).avf }
        (luma_frame [5])).1 = some s ∧ 0 ≤ s ∧
      (s = 0 ↔ |(luma_sum (luma_frame [5]).avf : ℚ) - (luma_sum (luma_frame [3]).avf : ℚ)| * 10000
        < (luma_sum (luma_frame [3]).avf : ℚ)) :=
  (score_scene_change_nonneg (luma_frame [3]) (luma_frame [5]) (by decide) (by decide)
    (by decide) (by rw [luma_sum_three, luma_sum_five]; norm_num [abs_of_pos])).imp
    fun _ h => ⟨h.1, h.2.1, h.2.2.1⟩

/-- The luma sums are 25 and 82.  The exact value `57 / 25 * 10000` is 22800, the double
product is just below it, and the score is 22799. -/
theorem score_scene_change_below_exact :
    luma_sum (luma_frame [25]).avf = 25 ∧ luma_sum (luma_frame [82]).avf = 82 ∧
      |(82 : ℚ) - 25| / 25 * 10000 = 22800 ∧
      (score_scene_change { last_y_sum := calc_frame_sum (luma_frame [25]).avf }
        (luma_frame [82])).1 = some 22799 := by
  have hsA : luma_sum (luma_frame [25]).avf = 25 := by decide
  have hsB : luma_sum (luma_frame [82]).avf = 82 := by decide
  have hA : calc_frame_sum (luma_frame [25]).avf = ((25 : ℕ) : ℚ) := by
    rw [(calc_frame_sum_exact _ (by decide)).1, hsA]
  have hB : calc_frame_sum (luma_frame [82]).avf = ((82 : ℕ) : ℚ) := by
    rw [(calc_frame_sum_exact _ (by decide)).1, hsB]
  have hq : |(((82 : ℕ) : ℚ)) - ((25 : ℕ) : ℚ)| / ((25 : ℕ) : ℚ) = 57 / 25 := by
    norm_num [abs_of_pos]
  have h1 : to_double (57 / 25) = 5134103575202365 / 2251799813685248 := by
    have h := to_double_eq (57 / 25) 1 5134103575202365 (by norm_num) (by norm_num)
      (by norm_num) (by
        rw [abs_lt]
        constructor <;> norm_num [zpow_neg])
    rw [h]
    norm_num [zpow_neg]
  have h2 : to_double (5134103575202365 / 2251799813685248 * 10000) =
      6267216278323199 / 274877906944 := by
    have h := to_double_eq (5134103575202365 / 2251799813685248 * 10000) 14 6267216278323199
      (by norm_num) (by norm_num) (by norm_num) (by
        rw [abs_lt]
        constructor <;> norm_num [zpow_neg])
    rw [h]
    norm_num [zpow_neg]
  have hscore := score_scene_change_eq
    { last_y_sum := calc_frame_sum (luma_frame [25]).avf } (luma_frame [82]) 25 82 hA hB
    (by norm_num) (by decide)
  rw [hq, h1, h2, double_to_int_of_nonneg _ (by norm_num) (by norm_num)] at hscore
  refine ⟨hsA, hsB, by norm_num [abs_of_pos], ?_⟩
  rw [hscore]
  congr 1
  rw [Int.floor_eq_iff]
  constructor <;> norm_num

/-! ## `find_index` on PTS values below `2^31` -/

theorem compare_stream_frame_index_small (a b : video_stream_frame_index)
    (ha : a.pts < 2 ^ 31) (hb : b.pts < 2 ^ 31) :
    compare_stream_frame_index a b = (a.pts : Int) - (b.pts : Int) := by
  unfold compare_stream_frame_index wrap32
  omega

theorem bsearch_loop_correct (key : video_stream_frame_index)
    (indices : List video_stream_frame_index) (hs : index_sorted indices)
    (hkey : key.pts < 2 ^ 31) (hsmall : ∀ e ∈ indices, e.pts < 2 ^ 31)
    (fuel l u : Nat) (hu : u ≤ indices.length) (hfuel : u ≤ l + fuel)
    (hL : ∀ i (hi : i < indices.length), i < l → indices[i].pts < key.pts)
    (hU : ∀ i (hi : i < indices.length), u ≤ i → key.pts < indices[i].pts) :
    match bsearch_loop key indices compare_stream_frame_index fuel l u with
    | some i => ∃ e, indices[i]? = some e ∧ e.pts = key.pts
    | none => ∀ e ∈ indices, e.pts ≠ key.pts := by
  have hnone : ¬ l < u → ∀ e ∈ indices, e.pts ≠ key.pts := by
    intro hlu e he
    obtain ⟨i, hi⟩ := List.getElem?_of_mem he
    obtain ⟨hilen, hie⟩ := List.getElem?_eq_some.1 hi
    rw [← hie]
    by_cases hil : i < l
    · exact Nat.ne_of_lt (hL i hilen hil)
    · exact Nat.ne_of_gt (hU i hilen (by omega))
  induction fuel generalizing l u with
  | zero =>
    simp only [bsearch_loop]
    exact hnone (by omega)
  | succ fuel ih =>
    by_cases hlu : l < u
    · have hidx : (l + u) / 2 < indices.length := by omega
      have hget : indices.getD ((l + u) / 2) default = indices[(l + u) / 2] := by
        simp [List.getD, List.getElem?_eq_getElem hidx]
      have hcmp := compare_stream_frame_index_small key (indices[(l + u) / 2]) hkey
        (hsmall _ (List.getElem_mem _))
      simp only [bsearch_loop, if_pos hlu, hget, hcmp]
      have hsorted := List.pairwise_iff_getElem.1 hs
      by_cases hlt : (key.pts : Int) - (indices[(l + u) / 2].pts : Int) < 0
      · rw [if_pos hlt]
        apply ih l ((l + u) / 2) (by omega) (by omega) hL
        · intro i hi hle
          rcases Nat.lt_or_eq_of_le hle with h | h
          · have := hsorted _ _ hidx hi h
            omega
          · subst h
            omega
        · intro hlu' e he
          obtain ⟨i, hi⟩ := List.getElem?_of_mem he
          obtain ⟨hilen, hie⟩ := List.getElem?_eq_some.1 hi
          rw [← hie]
          by_cases hil : i < l
          · exact Nat.ne_of_lt (hL i hilen hil)
          · have hge : (l + u) / 2 ≤ i := by omega
            rcases Nat.lt_or_eq_of_le hge with h | h
            · have := hsorted _ _ hidx hilen h
              omega
            · subst h
              omega
      · rw [if_neg hlt]
        by_cases hgt : (key.pts : Int) - (indices[(l + u) / 2].pts : Int) > 0
        · rw [if_pos hgt]
          apply ih ((l + u) / 2 + 1) u hu (by omega)
          · intro i hi hle
            rcases Nat.lt_or_eq_of_le (Nat.le_of_lt_succ hle) with h | h
            · have := hsorted _ _ hi hidx h
              omega
            · subst h
              omega
          · exact hU
          · intro hlu' e he
            obtain ⟨i, hi⟩ := List.getElem?_of_mem he
            obtain ⟨hilen, hie⟩ := List.getElem?_eq_some.1 hi
            rw [← hie]
            by_cases hiu : u ≤ i
            · exact Nat.ne_of_gt (hU i hilen hiu)
            · have hle : i ≤ (l + u) / 2 := by omega
              rcases Nat.lt_or_eq_of_le hle with h | h
              · have := hsorted _ _ hilen hidx h
                omega
              · subst h
                omega
        · rw [if_neg hgt]
          exact ⟨indices[(l + u) / 2], List.getElem?_eq_getElem hidx, by omega⟩
    · simp only [bsearch_loop, if_neg hlu]
      exact hnone hlu

/-- On a sorted index whose PTS values and the target are below `2^31`, where the cut
to 32 bits of the comparison does no harm, `find_index` returns an entry with the PTS
asked for when there is one and `NULL` when there is none. -/
theorem find_index_small (indices : List video_stream_frame_index) (pts : Nat)
    (hs : index_sorted indices) (hpts : pts < 2 ^ 31) (hsmall : ∀ e ∈ indices, e.pts < 2 ^ 31) :
    match find_index indices indices.length pts with
    | some i => ∃ e, indices[i]? = some e ∧ e.pts = pts
    | none => ∀ e ∈ indices, e.pts ≠ pts := by
  unfold find_index bsearch
  exact bsearch_loop_correct { pts := pts, pos := 0 } indices hs hpts hsmall indices.length 0
    indices.length (le_refl _) (by omega) (fun i _ h => absurd h (Nat.not_lt_zero i))
    (fun i hi h => absurd hi (by omega))

/-! ## `delta` and the encode configurations -/

theorem wrap32_of_small (x : Int) (h0 : -2147483648 ≤ x) (h1 : x < 2147483648) :
    wrap32 x = x := by
  unfold wrap32
  omega

theorem int_div_pos (a b : Int) (ha : 0 ≤ a) (hb : 0 < b) : int_div a b = some (a / b) := by
  unfold int_div
  rw [if_neg (by omega), Int.tdiv_eq_ediv ha (by omega)]

theorem floor_div_int (a b : Int) (hb : 0 < b) : ⌊((a : ℚ) / (b : ℚ))⌋ = a / b := by
  have := Rat.floor_intCast_div_natCast a b.toNat
  rw [Int.toNat_of_nonneg hb.le] at this
  rw [← this]
  congr 2
  exact_mod_cast (Int.toNat_of_nonneg hb.le).symm

theorem int_div_div (a b c : Int) (ha : 0 ≤ a) (hb : 0 < b) (hc : 0 < c) :
    a / b / c = a / (b * c) := by
  lift a to ℕ using ha
  lift b to ℕ using hb.le
  lift c to ℕ using hc.le
  exact_mod_cast Nat.div_div_eq_div_mul a b c

theorem floor_div_div (a b c : Int) (ha : 0 ≤ a) (hb : 0 < b) (hc : 0 < c) :
    ⌊((a : ℚ) / ((b : ℚ) * (c : ℚ)))⌋ = a / b / c := by
  have := floor_div_int a (b * c) (by positivity)
  push_cast at this
  rw [this, int_div_div a b c ha hb hc]

/-- C22: for a frame rate and a time base with positive numerators and denominators
whose product `r_frame_rate.den * time_base.den` fits an `int`, the `delta` of
`serve_stream` is `time_base.den × fps.den / (time_base.num × fps.num)` rounded down;
for the time base 1/90000 and the frame rate 30000/1001 it is 3003. -/
theorem serve_delta_floor (fps time_base : AVRational)
    (hfn : 0 < fps.num) (hfd : 0 < fps.den) (htn : 0 < time_base.num) (htd : 0 < time_base.den)
    (hfit : fps.den * time_base.den < 2147483648) :
    serve_delta fps time_base = some (spec_delta fps time_base) ∧
      serve_delta { num := 30000, den := 1001 } { num := 1, den := 90000 } = some 3003 := by
  have hprod : 0 ≤ fps.den * time_base.den := by positivity
  refine ⟨?_, by decide⟩
  unfold serve_delta spec_delta
  rw [wrap32_of_small _ (by omega) hfit, int_div_pos _ _ hprod hfn, Option.some_bind,
    int_div_pos _ _ (Int.ediv_nonneg hprod hfn.le) htn]
  congr 1
  have := floor_div_div (fps.den * time_base.den) fps.num time_base.num hprod hfn htn
  rw [← this]
  congr 1
  push_cast
  ring

theorem serve_delta_floor_witness :
    serve_delta { num := 24000, den := 1001 } { num := 1, den := 90000 } =
        some (spec_delta { num := 24000, den := 1001 } { num := 1, den := 90000 }) ∧
      serve_delta { num := 30000, den := 1001 } { num := 1, den := 90000 } = some 3003 :=
  serve_delta_floor { num := 24000, den := 1001 } { num := 1, den := 90000 } (by decide)
    (by decide) (by decide) (by decide) (by decide)

theorem floor_half (a : Int) (ha : 0 ≤ a) : ⌊((a : ℚ) / 2)⌋ = Int.tdiv a 2 := by
  have := floor_div_int a 2 (by norm_num)
  rw [Int.tdiv_eq_ediv ha (by norm_num), ← this]
  norm_num

/-- C23: for a stream of width `W > 0` and height `H > 0` with the sample aspect ratio
`SARn / SARd`, both positive, and a product `W * SARn` that fits an `int`, the eight
encode configurations that `serve_stream` sets up are the rows of the variant table,
each quotient rounded down; the variants `k` and `k + 4` have the same width and height,
and the variants 3 and 7 have the width `⌊W·SARn/(2·SARd)⌋` and the height `⌊H/2⌋`. -/
theorem init_encode_configs_table (W H SARn SARd : Int) (hW : 0 < W) (hH : 0 < H)
    (hn : 0 < SARn) (hd : 0 < SARd) (hfit : W * SARn < 2147483648) :
    init_encode_configs W H { num := SARn, den := SARd } = some (variant_table W H SARn SARd) ∧
      (∀ k, k < 4 → ∃ a b, (variant_table W H SARn SARd)[k]? = some a ∧
        (variant_table W H SARn SARd)[k + 4]? = some b ∧ a.width = b.width ∧
        a.height = b.height) ∧
      ((variant_table W H SARn SARd)[3]?).map (fun c => (c.width, c.height)) =
        some (⌊(W : ℚ) * SARn / (2 * SARd)⌋, ⌊(H : ℚ) / 2⌋) ∧
      ((variant_table W H SARn SARd)[7]?).map (fun c => (c.width, c.height)) =
        some (⌊(W : ℚ) * SARn / (2 * SARd)⌋, ⌊(H : ℚ) / 2⌋) := by
  have hprod : 0 ≤ W * SARn := by positivity
  have h2 : ⌊(W : ℚ) * SARn / SARd⌋ = W * SARn / SARd := by
    have := floor_div_int (W * SARn) SARd hd
    push_cast at this
    exact this
  have h3 : ⌊(W : ℚ) * SARn / (2 * SARd)⌋ = Int.tdiv (W * SARn / SARd) 2 := by
    have := floor_div_div (W * SARn) SARd 2 hprod hd (by norm_num)
    push_cast at this
    rw [Int.tdiv_eq_ediv (Int.ediv_nonneg hprod hd.le) (by norm_num), ← this]
    congr 2
    ring
  refine ⟨?_, ?_, rfl, rfl⟩
  · unfold init_encode_configs
    simp only [wrap32_of_small _ (show -2147483648 ≤ W * SARn by omega) hfit,
      int_div_pos _ _ hprod hd]
    simp only [variant_table, variant_row, Int.floor_intCast, floor_half W hW.le,
      floor_half H hH.le, h2, h3, List.map_cons, List.map_nil, List.cons_append, List.nil_append]
  · intro k hk
    have hk' : k = 0 ∨ k = 1 ∨ k = 2 ∨ k = 3 := by omega
    rcases hk' with rfl | rfl | rfl | rfl <;>
      exact ⟨_, _, rfl, rfl, rfl, rfl⟩

theorem init_encode_configs_table_witness :
    init_encode_configs 1440 1080 { num := 4, den := 3 } = some (variant_table 1440 1080 4 3) ∧
      ((variant_table 1440 1080 4 3)[3]?).map (fun c => (c.width, c.height)) =
        some (⌊((1440 : ℤ) : ℚ) * (4 : ℤ) / (2 * (3 : ℤ))⌋, ⌊((1080 : ℤ) : ℚ) / 2⌋) ∧
      init_encode_configs 1440 1080 { num := 4, den := 3 } =
        some
          [{ width := 1440, height := 1080, encoder := AVCodecID.AV_CODEC_ID_PNG,
             fmt := AVPixelFormat.AV_PIX_FMT_RGB24 },
           { width := 720, height := 540, encoder := AVCodecID.AV_CODEC_ID_PNG,
             fmt := AVPixelFormat.AV_PIX_FMT_RGB24 },
           { width := 1920, height := 1080, encoder := AVCodecID.AV_CODEC_ID_PNG,
             fmt := AVPixelFormat.AV_PIX_FMT_RGB24 },
           { width := 960, height := 540, encoder := AVCodecID.AV_CODEC_ID_PNG,
             fmt := AVPixelFormat.AV_PIX_FMT_RGB24 },
           { width := 1440, height := 1080, encoder := AVCodecID.AV_CODEC_ID_MJPEG,
             fmt := AVPixelFormat.AV_PIX_FMT_YUVJ420P },
           { width := 720, height := 540, encoder := AVCodecID.AV_CODEC_ID_MJPEG,
             fmt := AVPixelFormat.AV_PIX_FMT_YUVJ420P },
           { width := 1920, height := 1080, encoder := AVCodecID.AV_CODEC_ID_MJPEG,
             fmt := AVPixelFormat.AV_PIX_FMT_YUVJ420P },
           { width := 960, height := 540, encoder := AVCodecID.AV_CODEC_ID_MJPEG,
             fmt := AVPixelFormat.AV_PIX_FMT_YUVJ420P }] :=
  ⟨(init_encode_configs_table 1440 1080 4 3 (by decide) (by decide) (by decide) (by decide)
      (by decide)).1,
    (init_encode_configs_table 1440 1080 4 3 (by decide) (by decide) (by decide) (by decide)
      (by decide)).2.2.1,
    by decide⟩

/-! ## Transport stream check -/

theorem packet_byte_lt (packet : List Nat) (i : Nat) : packet_byte packet i < 256 := by
  unfold packet_byte
  omega

theorem ts_pid_eq (packet : List Nat) :
    ts_pid packet = 256 * (packet_byte packet 1 % 32) + packet_byte packet 2 := by
  have h1 := packet_byte_lt packet 1
  have h2 := packet_byte_lt packet 2
  unfold ts_pid
  have := Nat.and_pow_two_sub_one_eq_mod (256 * packet_byte packet 1 + packet_byte packet 2) 13
  norm_num at this
  rw [this]
  omega

theorem packet_pid_eq (packet : List Nat) : packet_pid packet = (ts_pid packet : Int) := by
  have h2 := packet_byte_lt packet 2
  unfold packet_pid
  rw [ts_pid_eq]
  have ha := Nat.and_pow_two_sub_one_eq_mod (packet_byte packet 1) 5
  norm_num at ha
  have hb := Nat.mul_add_lt_is_or (i := 8) (b := packet_byte packet 2) (by norm_num; exact h2)
    (packet_byte packet 1 % 32)
  norm_num at hb
  rw [ha, Nat.shiftLeft_eq, Nat.mul_comm, ← hb]

theorem ts_pid_le (packet : List Nat) : ts_pid packet ≤ 0x1fff := by
  have h2 := packet_byte_lt packet 2
  rw [ts_pid_eq]
  omega

/-- What `check_packet` does to the entry of a PID: an entry of another PID, and every
entry when the packet does not start with the sync byte, is left as it was. -/
theorem check_packet_other (st : check_state) (packet : List Nat) (pid : Nat)
    (h : packet_byte packet 0 ≠ TS_SYNC_BYTE ∨ ts_pid packet ≠ pid) :
    (check_packet st packet).pid_info pid = st.pid_info pid := by
  unfold check_packet
  by_cases hs : packet_byte packet 0 ≠ TS_SYNC_BYTE
  · rw [if_pos hs]
  · rw [if_neg hs]
    have hp : ts_pid packet ≠ pid := by
      rcases h with h | h
      · exact absurd h hs
      · exact h
    have hle := ts_pid_le packet
    simp only [packet_pid_eq, Int.toNat_ofNat]
    rw [if_neg (by omega)]
    exact Function.update_noteq (Ne.symm hp) _ _

theorem check_packet_same (st : check_state) (packet : List Nat)
    (hs : packet_byte packet 0 = TS_SYNC_BYTE) :
    (check_packet st packet).pid_info (ts_pid packet) =
      (if packet_byte packet 3 &&& 0xc0 ≠ 0 then
        { check_continuity
            { st.pid_info (ts_pid packet) with
              total := wrap32 ((st.pid_info (ts_pid packet)).total + 1) } packet with
          scrambled := wrap32 ((check_continuity
            { st.pid_info (ts_pid packet) with
              total := wrap32 ((st.pid_info (ts_pid packet)).total + 1) } packet).scrambled + 1) }
      else
        check_continuity
          { st.pid_info (ts_pid packet) with
            total := wrap32 ((st.pid_info (ts_pid packet)).total + 1) } packet) ∧
      (check_packet st packet).logic_errors = st.logic_errors ∧
      (check_packet st packet).error_packet = st.error_packet := by
  have hle := ts_pid_le packet
  unfold check_packet
  rw [if_neg (by simpa using hs)]
  simp only [packet_pid_eq, Int.toNat_ofNat]
  rw [if_neg (by omega)]
  simp only [Function.update_same, and_self]

theorem check_continuity_total (info : pid_info) (packet : List Nat) :
    (check_continuity info packet).total = info.total ∧
      (check_continuity info packet).scrambled = info.scrambled := by
  unfold check_continuity
  split
  · dsimp only
    split <;> exact ⟨rfl, rfl⟩
  · exact ⟨rfl, rfl⟩

/-- The fields `dropped` and `next_counter` of the entry of a PID after `check_packet`:
they change only for a packet of that PID that starts with the sync byte and bears a
payload. -/
theorem check_packet_entry (st : check_state) (packet : List Nat) (pid : Nat) :
    ((check_packet st packet).pid_info pid).dropped =
        (if packet_byte packet 0 = TS_SYNC_BYTE ∧ ts_pid packet = pid ∧
            packet_byte packet 3 &&& 0x10 ≠ 0 then
          if (st.pid_info pid).next_counter ≠ 0 ∧
              (st.pid_info pid).next_counter % 16 ≠ ((packet_byte packet 3 &&& 0x0f : Nat) : Int) then
            wrap32 ((st.pid_info pid).dropped + 1)
          else (st.pid_info pid).dropped
        else (st.pid_info pid).dropped) ∧
      ((check_packet st packet).pid_info pid).next_counter =
        (if packet_byte packet 0 = TS_SYNC_BYTE ∧ ts_pid packet = pid ∧
            packet_byte packet 3 &&& 0x10 ≠ 0 then
          ((packet_byte packet 3 &&& 0x0f : Nat) : Int) + 1
        else (st.pid_info pid).next_counter) := by
  by_cases hs : packet_byte packet 0 = TS_SYNC_BYTE
  · by_cases hp : ts_pid packet = pid
    · subst hp
      have hsame : ((check_packet st packet).pid_info (ts_pid packet)).dropped =
            (check_continuity
              { st.pid_info (ts_pid packet) with
                total := wrap32 ((st.pid_info (ts_pid packet)).total + 1) } packet).dropped ∧
          ((check_packet st packet).pid_info (ts_pid packet)).next_counter =
            (check_continuity
              { st.pid_info (ts_pid packet) with
                total := wrap32 ((st.pid_info (ts_pid packet)).total + 1) } packet).next_counter := by
        rw [(check_packet_same st packet hs).1]
        split <;> exact ⟨rfl, rfl⟩
      rw [hsame.1, hsame.2]
      by_cases hb : packet_byte packet 3 &&& 0x10 ≠ 0
      · have hc : packet_byte packet 0 = TS_SYNC_BYTE ∧ ts_pid packet = ts_pid packet ∧
            packet_byte packet 3 &&& 0x10 ≠ 0 := ⟨hs, rfl, hb⟩
        rw [if_pos hc, if_pos hc]
        unfold check_continuity
        rw [if_pos hb]
        dsimp only
        split <;> exact ⟨rfl, rfl⟩
      · have hc : ¬ (packet_byte packet 0 = TS_SYNC_BYTE ∧ ts_pid packet = ts_pid packet ∧
            packet_byte packet 3 &&& 0x10 ≠ 0) := fun h => hb h.2.2
        rw [if_neg hc, if_neg hc]
        unfold check_continuity
        rw [if_neg hb]
        exact ⟨rfl, rfl⟩
    · rw [check_packet_other st packet pid (Or.inr hp), if_neg (fun h => hp h.2.1),
        if_neg (fun h => hp h.2.1)]
      exact ⟨rfl, rfl⟩
  · rw [check_packet_other st packet pid (Or.inl hs), if_neg (fun h => hs h.1),
      if_neg (fun h => hs h.1)]
    exact ⟨rfl, rfl⟩

theorem payload_counters_cons (pid : Nat) (packet : List Nat) (rest : List (List Nat)) :
    payload_counters pid (packet :: rest) =
      if packet_byte packet 0 = TS_SYNC_BYTE ∧ ts_pid packet = pid ∧
          packet_byte packet 3 &&& 0x10 ≠ 0 then
        (packet_byte packet 3 &&& 0x0f) :: payload_counters pid rest
      else payload_counters pid rest := by
  unfold payload_counters
  by_cases h : packet_byte packet 0 = TS_SYNC_BYTE ∧ ts_pid packet = pid ∧
      packet_byte packet 3 &&& 0x10 ≠ 0
  · rw [if_pos h, List.filter_cons_of_pos (by simpa using h), List.map_cons]
  · rw [if_neg h, List.filter_cons_of_neg (by simpa using h)]

theorem wrap32_range (x : Int) : -2147483648 ≤ wrap32 x ∧ wrap32 x < 2147483648 := by
  unfold wrap32
  omega

theorem wrap32_add_wrap32 (x y : Int) : wrap32 (wrap32 x + y) = wrap32 (x + y) := by
  unfold wrap32
  omega

/-- The field `dropped` of the entry of a PID after the loop over `packets`, from any
state of the array. -/
theorem foldl_check_dropped (packets : List (List Nat)) (st : check_state) (pid : Nat)
    (hd : -2147483648 ≤ (st.pid_info pid).dropped ∧ (st.pid_info pid).dropped < 2147483648) :
    ((packets.foldl check_packet st).pid_info pid).dropped =
      wrap32 ((st.pid_info pid).dropped +
        discontinuities_from (st.pid_info pid).next_counter (payload_counters pid packets)) := by
  induction packets generalizing st with
  | nil =>
    simp only [List.foldl_nil, payload_counters, List.filter_nil, List.map_nil,
      discontinuities_from, Nat.cast_zero, add_zero]
    exact (wrap32_of_small _ hd.1 hd.2).symm
  | cons packet rest ih =>
    obtain ⟨h1, h2⟩ := check_packet_entry st packet pid
    rw [List.foldl_cons, payload_counters_cons]
    by_cases hc : packet_byte packet 0 = TS_SYNC_BYTE ∧ ts_pid packet = pid ∧
        packet_byte packet 3 &&& 0x10 ≠ 0
    · rw [if_pos hc] at h1 h2 ⊢
      simp only [discontinuities_from]
      by_cases hn : (st.pid_info pid).next_counter ≠ 0 ∧
          (st.pid_info pid).next_counter % 16 ≠ ((packet_byte packet 3 &&& 0x0f : Nat) : Int)
      · rw [if_pos hn] at h1 ⊢
        rw [ih _ (by rw [h1]; exact wrap32_range _), h1, h2, wrap32_add_wrap32]
        congr 1
        push_cast
        ring
      · rw [if_neg hn] at h1 ⊢
        rw [ih _ (by rw [h1]; exact hd), h1, h2]
        congr 1
        push_cast
        ring
    · rw [if_neg hc] at h1 h2 ⊢
      rw [ih _ (by rw [h1]; exact hd), h1, h2]

theorem and_fifteen_lt (n : Nat) : n &&& 0x0f < 16 := by
  have := Nat.and_pow_two_sub_one_eq_mod n 4
  norm_num at this
  rw [this]
  omega

theorem payload_counters_lt (pid : Nat) (packets : List (List Nat)) :
    ∀ c ∈ payload_counters pid packets, c < 16 := by
  intro c hc
  unfold payload_counters at hc
  rw [List.mem_map] at hc
  obtain ⟨p, _, rfl⟩ := hc
  exact and_fifteen_lt _

theorem discontinuities_from_succ (a : Nat) (l : List Nat) (ha : a < 16)
    (hl : ∀ c ∈ l, c < 16) :
    discontinuities_from ((a : Int) + 1) l = discontinuities (a :: l) := by
  induction l generalizing a with
  | nil => simp [discontinuities_from, discontinuities]
  | cons b rest ih =>
    have hb : b < 16 := hl b (List.mem_cons_self _ _)
    simp only [discontinuities_from, discontinuities,
      ih b hb (fun c hc => hl c (List.mem_cons_of_mem _ hc))]
    congr 1
    by_cases h : b = (a + 1) % 16
    · rw [if_neg (by omega), if_neg (by omega)]
    · rw [if_pos (by omega), if_pos (by omega)]

theorem discontinuities_from_zero (l : List Nat) (hl : ∀ c ∈ l, c < 16) :
    discontinuities_from 0 l = discontinuities l := by
  cases l with
  | nil => rfl
  | cons a rest =>
    simp only [discontinuities_from, ne_eq, not_true_eq_false, false_and, if_false, zero_add]
    exact discontinuities_from_succ a rest (hl a (List.mem_cons_self _ _))
      (fun c hc => hl c (List.mem_cons_of_mem _ hc))

theorem discontinuities_le (l : List Nat) : discontinuities l ≤ l.length := by
  induction l with
  | nil => simp [discontinuities]
  | cons a rest ih =>
    cases rest with
    | nil => simp [discontinuities]
    | cons b rest =>
      simp only [discontinuities, List.length_cons] at ih ⊢
      split <;> omega

theorem discontinuities_chain (l : List Nat) :
    discontinuities l = 0 ↔ List.Chain' (fun a b => b = (a + 1) % 16) l := by
  induction l with
  | nil => simp [discontinuities]
  | cons a rest ih =>
    cases rest with
    | nil => simp [discontinuities]
    | cons b rest =>
      simp only [discontinuities, List.chain'_cons, ← ih]
      by_cases h : b = (a + 1) % 16
      · simp [h]
      · simp [h]

theorem read_packets_length (input : List Nat) :
    (read_packets input).length = input.length / TS_PACKET_SIZE := by
  simp [read_packets]

theorem payload_counters_length (pid : Nat) (packets : List (List Nat)) :
    (payload_counters pid packets).length ≤ packets.length := by
  unfold payload_counters
  rw [List.length_map]
  exact List.length_filter_le _ _

theorem mem_perform_check (input : List Nat) (pid : Nat) (info : pid_info) :
    (pid, info) ∈ perform_check input ↔
      pid < TS_PID_COUNT ∧ ((check_loop input).pid_info pid).total > 0 ∧
        info = (check_loop input).pid_info pid := by
  unfold perform_check
  simp only [List.mem_map, List.mem_filter, List.mem_range, decide_eq_true_eq, Prod.mk.injEq]
  constructor
  · rintro ⟨i, ⟨hi, ht⟩, rfl, rfl⟩
    exact ⟨hi, ht, rfl⟩
  · rintro ⟨hi, ht, rfl⟩
    exact ⟨pid, ⟨hi, ht⟩, rfl, rfl⟩

theorem check_loop_dropped (input : List Nat) (pid : Nat) :
    ((check_loop input).pid_info pid).dropped =
      wrap32 (discontinuities (payload_counters pid (read_packets input))) := by
  unfold check_loop
  rw [foldl_check_dropped _ _ _ (by simp [check_init])]
  simp only [check_init, zero_add]
  rw [discontinuities_from_zero _ (payload_counters_lt pid _)]

/-- C25: the count "dropped" that `perform_check` reports for a PID is the number of the
packets of that PID with the sync byte and a payload (byte 3 `& 0x10`), the first one
apart, whose continuity counter differs from the counter of the payload-bearing packet
before it plus one modulo 16, as an `int`; it is that number itself for an input of
fewer than `2^31` packets, and it is 0 for a PID whose counters advance by one modulo 16
throughout. -/
theorem perform_check_dropped (input : List Nat) (pid : Nat) (info : pid_info)
    (h : (pid, info) ∈ perform_check input) :
    info.dropped = wrap32 (discontinuities (payload_counters pid (read_packets input))) ∧
      (input.length < 188 * 2147483648 →
        info.dropped = discontinuities (payload_counters pid (read_packets input))) ∧
      (List.Chain' (fun a b => b = (a + 1) % 16) (payload_counters pid (read_packets input)) →
        info.dropped = 0) := by
  obtain ⟨_, _, rfl⟩ := (mem_perform_check input pid info).1 h
  have hd := check_loop_dropped input pid
  refine ⟨hd, ?_, ?_⟩
  · intro hlen
    rw [hd]
    have h1 := discontinuities_le (payload_counters pid (read_packets input))
    have h2 := payload_counters_length pid (read_packets input)
    have h3 := read_packets_length input
    have h4 : input.length / TS_PACKET_SIZE < 2147483648 := by
      unfold TS_PACKET_SIZE
      omega
    exact wrap32_of_small _ (by omega) (by omega)
  · intro hc
    rw [hd, (discontinuities_chain _).2 hc]
    rfl

set_option maxRecDepth 100000 in
theorem perform_check_dropped_witness :
    (0x100, { total := 5, dropped := 1, scrambled := 0, next_counter := 3 })
        ∈ perform_check sample_ts ∧
      payload_counters 0x100 (read_packets sample_ts) = [14, 15, 0, 2] ∧
      (1 : Int) = wrap32 (discontinuities (payload_counters 0x100 (read_packets sample_ts))) :=
  ⟨(mem_perform_check sample_ts 0x100 _).2 ⟨by decide, by decide, by decide⟩, by decide,
    (perform_check_dropped sample_ts 0x100
      { total := 5, dropped := 1, scrambled := 0, next_counter := 3 }
      ((mem_perform_check sample_ts 0x100 _).2 ⟨by decide, by decide, by decide⟩)).1⟩

theorem foldl_check_logic_errors (packets : List (List Nat)) (st : check_state) :
    (packets.foldl check_packet st).logic_errors = st.logic_errors := by
  induction packets generalizing st with
  | nil => rfl
  | cons packet rest ih =>
    rw [List.foldl_cons, ih]
    by_cases hs : packet_byte packet 0 = TS_SYNC_BYTE
    · exact (check_packet_same st packet hs).2.1
    · unfold check_packet
      rw [if_pos hs]

/-- C26: for a packet that starts with the sync byte `0x47`, the PID that `perform_check`
computes is the 16 bit value of the bytes 1 and 2, high byte first, masked with `0x1fff`;
it lies in `[0, 0x1fff]`, no line "error in the logic" is written, the `total` of that PID
goes up by one (as an `int`) and the entries of all other PIDs are left as they are.  A
packet that does not start with `0x47` changes no entry.  Over a whole input the branch
"error in the logic" is never taken. -/
theorem check_packet_pid (st : check_state) (packet : List Nat) :
    (packet_byte packet 0 = TS_SYNC_BYTE →
      packet_pid packet = (ts_pid packet : Int) ∧
        0 ≤ packet_pid packet ∧ packet_pid packet ≤ 0x1fff ∧
        (check_packet st packet).logic_errors = st.logic_errors ∧
        ((check_packet st packet).pid_info (ts_pid packet)).total =
          wrap32 ((st.pid_info (ts_pid packet)).total + 1) ∧
        ((st.pid_info (ts_pid packet)).total < 2147483647 →
          -2147483648 ≤ (st.pid_info (ts_pid packet)).total →
          ((check_packet st packet).pid_info (ts_pid packet)).total =
            (st.pid_info (ts_pid packet)).total + 1) ∧
        ∀ q, q ≠ ts_pid packet → (check_packet st packet).pid_info q = st.pid_info q) ∧
      (packet_byte packet 0 ≠ TS_SYNC_BYTE →
        (check_packet st packet).pid_info = st.pid_info ∧
          (check_packet st packet).logic_errors = st.logic_errors) ∧
      ∀ input, (check_loop input).logic_errors = 0 := by
  refine ⟨?_, ?_, ?_⟩
  · intro hs
    have hle := ts_pid_le packet
    have htotal : ((check_packet st packet).pid_info (ts_pid packet)).total =
        wrap32 ((st.pid_info (ts_pid packet)).total + 1) := by
      rw [(check_packet_same st packet hs).1]
      split
      · exact (check_continuity_total _ packet).1
      · exact (check_continuity_total _ packet).1
    refine ⟨packet_pid_eq packet, ?_, ?_, (check_packet_same st packet hs).2.1, htotal, ?_, ?_⟩
    · rw [packet_pid_eq]
      omega
    · rw [packet_pid_eq]
      omega
    · intro h1 h2
      rw [htotal, wrap32_of_small _ (by omega) (by omega)]
    · intro q hq
      exact check_packet_other st packet q (Or.inr (Ne.symm hq))
  · intro hs
    unfold check_packet
    rw [if_pos hs]
    exact ⟨rfl, rfl⟩
  · intro input
    unfold check_loop
    rw [foldl_check_logic_errors]
    rfl

set_option maxRecDepth 100000 in
theorem check_packet_pid_witness :
    (packet_pid (ts_packet 0x1abc 0x1e) = 0x1abc ∧
        ((check_packet check_init (ts_packet 0x1abc 0x1e)).pid_info 0x1abc).total = 1) ∧
      (check_packet check_init (0x48 :: List.replicate 187 0xff)).pid_info = check_init.pid_info :=
  ⟨⟨((check_packet_pid check_init (ts_packet 0x1abc 0x1e)).1 (by decide)).1.trans (by decide),
      (((check_packet_pid check_init (ts_packet 0x1abc 0x1e)).1 (by decide)).2.2.2.2.1).trans
        (by decide)⟩,
    ((check_packet_pid check_init (0x48 :: List.replicate 187 0xff)).2.1 (by decide)).1⟩

/-! ## Results of the lookups and the loader -/

theorem first_index_lt (p : frame → Prop) (c : framecache) (n : Nat)
    (h : first_index p (resident c) n) :
    n < c.num_frames ∧ ∃ fr, (resident c)[n]? = some fr ∧ p fr := by
  obtain ⟨⟨fr, hfr, hp⟩, _⟩ := h
  have hlt : n < (resident c).length := (List.getElem?_eq_some.1 hfr).1
  have hle : (resident c).length ≤ c.num_frames := by
    unfold resident
    rw [List.length_take]
    exact Nat.min_le_left _ _
  exact ⟨by omega, fr, hfr, hp⟩

/-- A result `≥ 0` of `find_in_framecache` is below `num_frames` and is the index of a
resident frame with the PTS asked for. -/
theorem find_in_framecache_lt (c : framecache) (pts : Int) (h : 0 ≤ find_in_framecache c pts) :
    find_in_framecache c pts < (c.num_frames : Int) ∧
      ∃ fr, (resident c)[(find_in_framecache c pts).toNat]? = some fr ∧ fr.pts = pts := by
  obtain ⟨n, hn, _, hfirst⟩ := find_in_framecache_nonneg c pts h
  obtain ⟨hlt, fr, hfr, hp⟩ := first_index_lt _ c n hfirst
  rw [hn, Int.toNat_ofNat]
  exact ⟨by omega, fr, hfr, hp⟩

/-- A result `≥ 0` of `find_nearest_frame` is below `num_frames` and is the index of a
resident frame that covers the PTS asked for. -/
theorem find_nearest_frame_lt (c : framecache) (pts : Int) (h : 0 ≤ find_nearest_frame c pts) :
    find_nearest_frame c pts < (c.num_frames : Int) ∧
      ∃ fr, (resident c)[(find_nearest_frame c pts).toNat]? = some fr ∧ covers pts fr := by
  obtain ⟨n, hn, _, hfirst⟩ := find_nearest_frame_nonneg c pts h
  obtain ⟨hlt, fr, hfr, hp⟩ := first_index_lt _ c n hfirst
  rw [hn, Int.toNat_ofNat]
  exact ⟨by omega, fr, hfr, hp⟩

theorem resident_of_empty (c : framecache) (h : c.num_frames = 0) : resident c = [] := by
  unfold resident
  rw [h, List.take_zero]

theorem find_empty (c : framecache) (pts : Int) (h : c.num_frames = 0) :
    find_nearest_frame c pts = -1 ∧ find_in_framecache c pts < 0 := by
  have hres := resident_of_empty c h
  constructor
  · exact find_nearest_frame_miss c pts (Or.inr (by rw [hres]; simp))
  · rw [find_in_framecache_miss c pts (Or.inr (by rw [hres]; simp))]
    split <;> omega

/-- C30: in a cache reached from `init_framecache` by calls of `add_framecache`, a result
`≥ 0` of `find_in_framecache` or of `find_nearest_frame` is below `num_frames` and is the
index of a resident frame; on an empty cache `find_nearest_frame` returns -1 and
`find_in_framecache` a negative value. -/
theorem find_result_indexes_resident (n : Nat) (d t a : Int) (adds : List AVFrame) (pts : Int) :
    (0 ≤ find_in_framecache (cache_after n d t a adds) pts →
        find_in_framecache (cache_after n d t a adds) pts <
            ((cache_after n d t a adds).num_frames : Int) ∧
          ∃ fr, (resident (cache_after n d t a adds))[(find_in_framecache
            (cache_after n d t a adds) pts).toNat]? = some fr) ∧
      (0 ≤ find_nearest_frame (cache_after n d t a adds) pts →
        find_nearest_frame (cache_after n d t a adds) pts <
            ((cache_after n d t a adds).num_frames : Int) ∧
          ∃ fr, (resident (cache_after n d t a adds))[(find_nearest_frame
            (cache_after n d t a adds) pts).toNat]? = some fr) ∧
      ((cache_after n d t a adds).num_frames = 0 →
        find_nearest_frame (cache_after n d t a adds) pts = -1 ∧
          find_in_framecache (cache_after n d t a adds) pts < 0) ∧
      find_nearest_frame (init_framecache n d t a) pts = -1 ∧
      find_in_framecache (init_framecache n d t a) pts < 0 := by
  refine ⟨?_, ?_, find_empty _ pts, (find_empty _ pts rfl).1, (find_empty _ pts rfl).2⟩
  · intro h
    obtain ⟨hlt, fr, hfr, _⟩ := find_in_framecache_lt _ pts h
    exact ⟨hlt, fr, hfr⟩
  · intro h
    obtain ⟨hlt, fr, hfr, _⟩ := find_nearest_frame_lt _ pts h
    exact ⟨hlt, fr, hfr⟩

theorem find_result_indexes_resident_witness :
    (find_in_framecache sample_cache 0 = 0 ∧ sample_cache.num_frames = 1) ∧
      find_in_framecache (cache_after 120 3003 30 40 [{ pts := 0, duration := 3003 }]) 0 <
        ((cache_after 120 3003 30 40 [{ pts := 0, duration := 3003 }]).num_frames : Int) ∧
      find_nearest_frame
          (cache_after 120 3003 30 40
            [{ pts := 0, duration := 3003 }, { pts := 3003, duration := 3003 }]) 1000 <
        ((cache_after 120 3003 30 40
          [{ pts := 0, duration := 3003 }, { pts := 3003, duration := 3003 }]).num_frames : Int) ∧
      find_nearest_frame (cache_after 120 3003 30 40 []) 1000 = -1 :=
  ⟨by decide,
    ((find_result_indexes_resident 120 3003 30 40 [{ pts := 0, duration := 3003 }] 0).1
      (by decide)).1,
    ((find_result_indexes_resident 120 3003 30 40
      [{ pts := 0, duration := 3003 }, { pts := 3003, duration := 3003 }] 1000).2.1
      (by decide)).1,
    ((find_result_indexes_resident 120 3003 30 40 [] 1000).2.2.1 (by decide)).1⟩

theorem mem_take_store_frame (frames : List frame) (n : Nat) (fr : frame) :
    fr ∈ (store_frame frames n fr).take (n + 1) := by
  unfold store_frame
  rw [List.take_append_eq_append_take]
  apply List.mem_append_right
  have hlen : (frames.take n).length ≤ n := by
    rw [List.length_take]
    exact Nat.min_le_left _ _
  have : n + 1 - (frames.take n).length = (n - (frames.take n).length) + 1 := by omega
  rw [this, List.take_succ_cons]
  exact List.mem_cons_self _ _

/-- After `add_framecache` the PTS of the frame added lies in the PTS range and the frame
added is resident, whatever the cache was. -/
theorem add_framecache_has (c : framecache) (avf : AVFrame) :
    ((add_framecache c avf).pts_range_start ≤ avf.pts ∧
        avf.pts ≤ (add_framecache c avf).pts_range_end) ∧
      frame_of avf ∈ resident (add_framecache c avf) := by
  unfold add_framecache resident
  dsimp only
  refine ⟨⟨?_, ?_⟩, mem_take_store_frame _ _ _⟩
  · split <;> omega
  · split <;> omega

theorem find_in_framecache_add (c : framecache) (avf : AVFrame) :
    0 ≤ find_in_framecache (add_framecache c avf) avf.pts := by
  obtain ⟨hr, hm⟩ := add_framecache_has c avf
  obtain ⟨n, hfirst⟩ := first_index_exists (fun fr => fr.pts = avf.pts)
    (resident (add_framecache c avf)) ⟨frame_of avf, hm, rfl⟩
  rw [find_in_framecache_some _ _ n hr hfirst]
  omega

/-- C29: right after `add_framecache(cache, frame)`, whatever the cache was,
`find_in_framecache(cache, frame.pts)` returns an index `≥ 0`, the index of a resident
frame with that PTS.  Hence in the loop of `load_frame`, where `cache_next_frame` has
returned 0 and `cache->pts_last == pts`, the call of `find_in_framecache` never returns
an error: the branch that reports "cache->pts_last == pts but find returned error" is
not reached. -/
theorem find_in_framecache_after_add (c : framecache) (avf : AVFrame) :
    (0 ≤ find_in_framecache (add_framecache c avf) avf.pts ∧
        ∃ fr, (resident (add_framecache c avf))[(find_in_framecache (add_framecache c avf)
          avf.pts).toNat]? = some fr ∧ fr.pts = avf.pts) ∧
      ∀ (av : av_state) (stream_index pts : Int),
        (cache_next_frame c av stream_index AV_NOPTS_VALUE AV_NOPTS_VALUE).1 = 0 →
        (cache_next_frame c av stream_index AV_NOPTS_VALUE AV_NOPTS_VALUE).2.1.pts_last = pts →
        0 ≤ find_in_framecache
          (cache_next_frame c av stream_index AV_NOPTS_VALUE AV_NOPTS_VALUE).2.1 pts := by
  refine ⟨⟨find_in_framecache_add c avf,
    (find_in_framecache_lt _ _ (find_in_framecache_add c avf)).2⟩, ?_⟩
  intro av stream_index pts h0 hlast
  rcases cache_next_frame_post c av stream_index with ⟨_, _, avf2, _, _, hadd, _⟩ | ⟨h1, _⟩
  · rw [hadd] at hlast ⊢
    rw [pts_last_add] at hlast
    rw [← hlast]
    exact find_in_framecache_add c avf2
  · rw [h1] at h0
    exact absurd h0 (by decide)

theorem find_in_framecache_after_add_witness :
    find_in_framecache (add_framecache sample_cache { pts := 3003, duration := 3003 }) 3003 = 1 ∧
      0 ≤ find_in_framecache
        (cache_next_frame sample_cache sample_av 0 AV_NOPTS_VALUE AV_NOPTS_VALUE).2.1 3003 :=
  ⟨by decide,
    (find_in_framecache_after_add sample_cache { pts := 3003, duration := 3003 }).2 sample_av 0
      3003 (by decide) (by decide)⟩

/-- The loop of `load_frame`, entered with no resident frame of the PTS asked for: when
it returns a frame with another PTS, no resident frame has the PTS asked for. -/
theorem load_frame_loop_nearest (stream_index pts : Int) (fuel : Nat) (cache : framecache)
    (av : av_state) (i : Nat) (hc : cache_ok cache)
    (hn : ∀ fr ∈ resident cache, fr.pts ≠ pts)
    (hs : stream_has_pts stream_index av.packets)
    (h : (load_frame_loop stream_index pts fuel cache av).1 = some i) (fr : frame)
    (hfr : (resident (load_frame_loop stream_index pts fuel cache av).2.1)[i]? = some fr)
    (hp : fr.pts ≠ pts) :
    ∀ g ∈ resident (load_frame_loop stream_index pts fuel cache av).2.1, g.pts ≠ pts := by
  induction fuel generalizing cache av with
  | zero => simp [load_frame_loop] at h
  | succ fuel ih =>
    rw [load_frame_loop_succ] at h hfr ⊢
    rcases cache_next_frame_post cache av stream_index with
      ⟨h0, p, avf, hpm, hadm, hadd, _, hsub, _⟩ | ⟨h1, _, _⟩
    · have hlast :
          (cache_next_frame cache av stream_index AV_NOPTS_VALUE AV_NOPTS_VALUE).2.1.pts_last
            = avf.pts := by
        rw [hadd]
        exact pts_last_add cache avf
      have hres : ∀ x ∈ resident
          (cache_next_frame cache av stream_index AV_NOPTS_VALUE AV_NOPTS_VALUE).2.1,
          x ∈ resident cache ∨ x = frame_of avf := by
        rw [hadd]
        exact fun x hx => mem_resident_add cache avf hc.1 x hx
      rw [if_pos h0] at h hfr ⊢
      by_cases he : avf.pts = pts
      · rw [if_pos (by rw [hlast]; exact he)] at h hfr ⊢
        exfalso
        by_cases hf : find_in_framecache
            (cache_next_frame cache av stream_index AV_NOPTS_VALUE AV_NOPTS_VALUE).2.1 pts ≥ 0
        · rw [if_pos hf] at h hfr
          have hi : (find_in_framecache
              (cache_next_frame cache av stream_index AV_NOPTS_VALUE AV_NOPTS_VALUE).2.1
              pts).toNat = i := by simpa using h
          obtain ⟨_, g, hg, hgp⟩ := find_in_framecache_lt _ pts hf
          rw [hi] at hg
          rw [hfr] at hg
          simp only [Option.some.injEq] at hg
          rw [hg] at hp
          exact hp hgp
        · rw [if_neg hf] at h
          simp at h
      · rw [if_neg (by rw [hlast]; exact he)] at h hfr ⊢
        by_cases hg : avf.pts > pts
        · rw [if_pos (by rw [hlast]; exact hg)] at h hfr ⊢
          by_cases hf : find_nearest_frame
              (cache_next_frame cache av stream_index AV_NOPTS_VALUE AV_NOPTS_VALUE).2.1 pts ≥ 0
          · rw [if_pos hf]
            intro x hx
            rcases hres x hx with hx | hx
            · exact hn x hx
            · rw [hx]
              exact he
          · rw [if_neg hf] at h
            simp at h
        · rw [if_neg (by rw [hlast]; exact hg)] at h hfr ⊢
          refine ih _ _ ?_ ?_ ?_ h hfr
          · rw [hadd]
            exact cache_ok_add cache avf hc (hs p hpm avf hadm)
          · intro x hx
            rcases hres x hx with hx | hx
            · exact hn x hx
            · rw [hx]
              exact he
          · exact fun q hq => hs q (hsub q hq)
    · rw [if_neg (by rw [h1]; decide)] at h
      simp at h

/-- C28: in a loader state built from frames with a PTS, when `load_frame(pts)` returns a
frame whose PTS is not `pts`, no frame resident in the cache as the call leaves it has
the PTS `pts`: a frame with the PTS asked for is always preferred to a nearest frame. -/
theorem load_frame_exact_wins (cache : framecache) (av : av_state) (stream_index pts : Int)
    (indices : Option (List video_stream_frame_index)) (n : Nat)
    (hok : loader_ok cache av stream_index) (i : Nat) (fr : frame)
    (h1 : (load_frame cache av stream_index pts indices n).1 = some i)
    (h2 : (resident (load_frame cache av stream_index pts indices n).2.1)[i]? = some fr)
    (h3 : fr.pts ≠ pts) :
    ∀ g ∈ resident (load_frame cache av stream_index pts indices n).2.1, g.pts ≠ pts := by
  rw [load_frame_eq] at h1 h2 ⊢
  by_cases hf : find_in_framecache cache pts ≥ 0
  · rw [if_pos hf] at h1 h2
    exfalso
    have hi : (find_in_framecache cache pts).toNat = i := by simpa using h1
    obtain ⟨_, g, hg, hgp⟩ := find_in_framecache_lt cache pts hf
    rw [hi] at hg
    have h2' : (resident cache)[i]? = some fr := h2
    rw [h2'] at hg
    simp only [Option.some.injEq] at hg
    rw [hg] at h3
    exact h3 hgp
  · rw [if_neg hf] at h1 h2 ⊢
    by_cases hs : (load_frame_seek cache av stream_index pts indices n
        (find_in_framecache cache pts)).1 ≠ 0
    · rw [if_pos hs] at h1
      simp at h1
    · rw [if_neg hs] at h1 h2 ⊢
      obtain ⟨hc1, hres1, hpk1⟩ := load_frame_seek_ok cache av stream_index pts indices n
        (find_in_framecache cache pts) hok
      refine load_frame_loop_nearest _ _ _ _ _ i hc1 ?_ hpk1 h1 fr h2 h3
      rw [hres1]
      intro x hx hxp
      exact hf ((cache_ok_find_iff cache hok.1 pts).2 ⟨x, hx, hxp⟩)

theorem load_frame_exact_wins_witness :
    (load_frame sample_cache sample_av 0 1000 none 0).1 = some 0 ∧
      (resident (load_frame sample_cache sample_av 0 1000 none 0).2.1)[0]? =
        some (frame_of { pts := 0, duration := 3003 }) ∧
      resident_pts (load_frame sample_cache sample_av 0 1000 none 0).2.1 = [0, 3003] ∧
      ∀ g ∈ resident (load_frame sample_cache sample_av 0 1000 none 0).2.1, g.pts ≠ 1000 :=
  ⟨by decide, by decide, by decide,
    load_frame_exact_wins sample_cache sample_av 0 1000 none 0 sample_loader_ok 0
      (frame_of { pts := 0, duration := 3003 }) (by decide) (by decide) (by decide)⟩

/-! ## Encode cache -/

theorem send_response_eq (output : List pipe_write) (data : List Nat) :
    send_response output 0 data.length data = output ++ image_response data := by
  unfold image_response send_response
  by_cases h : data.length > 0
  · simp [h]
  · simp [h]

theorem serve_image_found_cached (env : serve_env) (st : serve_state) (cache : framecache)
    (av : av_state) (i k : Nat) (p : AVPacket)
    (h : (cache.frames.getD i zero_frame).encoded.getD k none = some p) :
    serve_image_found env st cache av i k =
      (serve_status.running,
        { cache := cache, av := av, encodes := st.encodes,
          output := st.output ++ image_response p.data }) := by
  unfold serve_image_found
  simp only [h, send_response_eq]

theorem load_frame_hit (cache : framecache) (av : av_state) (stream_index pts : Int)
    (indices : Option (List video_stream_frame_index)) (n : Nat) (i : Nat)
    (h : find_in_framecache cache pts = (i : Int)) :
    load_frame cache av stream_index pts indices n = (some i, cache, av) := by
  rw [load_frame_eq, if_pos (by omega), h, Int.toNat_ofNat]

theorem serve_image_cached (env : serve_env) (st : serve_state) (cmd : nicm_serve_command)
    (i : Nat) (p : AVPacket) (hk : 0 ≤ cmd.args 2 ∧ cmd.args 2 < 8)
    (hload : (load_frame st.cache st.av env.stream_index (cmd.args 0) env.indices
      env.frames_in_indices).1 = some i)
    (henc : (((load_frame st.cache st.av env.stream_index (cmd.args 0) env.indices
      env.frames_in_indices).2.1.frames.getD i zero_frame).encoded.getD (cmd.args 2).toNat none)
      = some p) :
    serve_image env st cmd =
      (serve_status.running,
        { cache := (load_frame st.cache st.av env.stream_index (cmd.args 0) env.indices
            env.frames_in_indices).2.1
          av := (load_frame st.cache st.av env.stream_index (cmd.args 0) env.indices
            env.frames_in_indices).2.2
          encodes := st.encodes
          output := st.output ++ image_response p.data }) := by
  unfold serve_image
  rw [if_neg (by omega)]
  simp only [hload]
  exact serve_image_found_cached env st _ _ i _ p henc

theorem serve_loop_image_repeat (env : serve_env) (cmd : nicm_serve_command)
    (cache : framecache) (av : av_state) (encodes : List (Int × Nat)) (i : Nat) (p : AVPacket)
    (hc : cmd.command = NICM_SERVE_COMMAND_IMAGE) (hk : 0 ≤ cmd.args 2 ∧ cmd.args 2 < 8)
    (hfind : find_in_framecache cache (cmd.args 0) = (i : Int))
    (henc : ((cache.frames.getD i zero_frame).encoded.getD (cmd.args 2).toNat none) = some p)
    (n : Nat) (output : List pipe_write) :
    serve_loop env { cache := cache, av := av, encodes := encodes, output := output }
        (List.replicate n cmd) =
      (serve_status.running,
        { cache := cache, av := av, encodes := encodes,
          output := output ++ (List.replicate n (image_response p.data)).flatten }) := by
  induction n generalizing output with
  | zero => simp [serve_loop]
  | succ n ih =>
    have hl := load_frame_hit cache av env.stream_index (cmd.args 0) env.indices
      env.frames_in_indices i hfind
    have hstep : serve_command env
        { cache := cache, av := av, encodes := encodes, output := output } cmd =
        (serve_status.running,
          { cache := cache, av := av, encodes := encodes,
            output := output ++ image_response p.data }) := by
      unfold serve_command
      rw [if_neg (by rw [hc]; decide), if_neg (by rw [hc]; decide), if_pos hc]
      have := serve_image_cached env
        { cache := cache, av := av, encodes := encodes, output := output } cmd i p hk
        (by simp only [hl]) (by simp only [hl]; exact henc)
      simp only [hl] at this
      exact this
    rw [List.replicate_succ, serve_loop, hstep]
    simp only
    rw [ih, List.replicate_succ, List.flatten_cons, List.append_assoc]

/-- C24: an `IMAGE` request with a variant `k` in 0..7 that the loader resolves to a slot
whose `encoded[k]` is populated does not run the scaler and the encoder (the log of their
runs is unchanged), leaves the cache as the loader left it, `encoded[k]` included, and
answers with code 0 and exactly the bytes of `encoded[k]`.  When the request resolves to
that slot from the cache, the server state is unchanged but for the pipe, and the request
repeated any number of times gets the same bytes each time. -/
theorem serve_image_encode_cache (env : serve_env) (st : serve_state)
    (cmd : nicm_serve_command) (i : Nat) (p : AVPacket)
    (hc : cmd.command = NICM_SERVE_COMMAND_IMAGE) (hk : 0 ≤ cmd.args 2 ∧ cmd.args 2 < 8)
    (hload : (load_frame st.cache st.av env.stream_index (cmd.args 0) env.indices
      env.frames_in_indices).1 = some i)
    (henc : (((load_frame st.cache st.av env.stream_index (cmd.args 0) env.indices
      env.frames_in_indices).2.1.frames.getD i zero_frame).encoded.getD (cmd.args 2).toNat none)
      = some p) :
    serve_command env st cmd =
        (serve_status.running,
          { cache := (load_frame st.cache st.av env.stream_index (cmd.args 0) env.indices
              env.frames_in_indices).2.1
            av := (load_frame st.cache st.av env.stream_index (cmd.args 0) env.indices
              env.frames_in_indices).2.2
            encodes := st.encodes
            output := st.output ++ image_response p.data }) ∧
      (find_in_framecache st.cache (cmd.args 0) = (i : Int) →
        ∀ n, serve_loop env st (List.replicate n cmd) =
          (serve_status.running,
            { cache := st.cache, av := st.av, encodes := st.encodes,
              output := st.output ++ (List.replicate n (image_response p.data)).flatten })) := by
  constructor
  · unfold serve_command
    rw [if_neg (by rw [hc]; decide), if_neg (by rw [hc]; decide), if_pos hc]
    exact serve_image_cached env st cmd i p hk hload henc
  · intro hfind n
    have hl := load_frame_hit st.cache st.av env.stream_index (cmd.args 0) env.indices
      env.frames_in_indices i hfind
    rw [hl] at henc
    exact serve_loop_image_repeat env cmd st.cache st.av st.encodes i p hc hk hfind henc n
      st.output

theorem serve_image_encode_cache_witness :
    (serve_command sample_env sample_state (command_of 2 0 0 1 0)).2.encodes = [(0, 1)] ∧
      (serve_command sample_env sample_state (command_of 2 0 0 1 0)).2.output =
        [pipe_write.header { code := 0, size := 2 }, pipe_write.payload [0, 1]] ∧
      (serve_loop sample_env (serve_command sample_env sample_state (command_of 2 0 0 1 0)).2
          (List.replicate 2 (command_of 2 0 0 1 0))).2.encodes = [(0, 1)] ∧
      (serve_loop sample_env (serve_command sample_env sample_state (command_of 2 0 0 1 0)).2
          (List.replicate 2 (command_of 2 0 0 1 0))).2.output =
        [pipe_write.header { code := 0, size := 2 }, pipe_write.payload [0, 1],
          pipe_write.header { code := 0, size := 2 }, pipe_write.payload [0, 1],
          pipe_write.header { code := 0, size := 2 }, pipe_write.payload [0, 1]] :=
  ⟨by decide, by decide,
    (congrArg (fun r => r.2.encodes)
      ((serve_image_encode_cache sample_env
        (serve_command sample_env sample_state (command_of 2 0 0 1 0)).2 (command_of 2 0 0 1 0) 0
        { data := [0, 1] } (by decide) (by decide) (by decide) (by decide)).2 (by decide) 2)).trans
      (by decide),
    (congrArg (fun r => r.2.output)
      ((serve_image_encode_cache sample_env
        (serve_command sample_env sample_state (command_of 2 0 0 1 0)).2 (command_of 2 0 0 1 0) 0
        { data := [0, 1] } (by decide) (by decide) (by decide) (by decide)).2 (by decide) 2)).trans
      (by decide)⟩

/-! ## Seek target of the loader -/

theorem av_seek_frame_calls (av : av_state) (s t f : Int) :
    (av_seek_frame av s t f).2.calls = av.calls ++ [av_call.seek_frame s t f] := by
  unfold av_seek_frame
  dsimp only
  split <;> rfl

/-- The seek by byte of `seek_frame` goes to the position of the entry that `find_index`
or else `nearest_earlier_index` points to. -/
theorem seek_frame_byte_calls (av : av_state) (stream_index : Int) (pts : Nat)
    (indices : List video_stream_frame_index) (n : Nat) :
    (seek_frame av stream_index pts (some indices) n).2.calls =
      av.calls ++ [av_call.seek_frame stream_index
        (wrap64 (indices.getD
          (match find_index indices n pts with
            | some i => i
            | none => nearest_earlier_index indices n pts) default).pos) AVSEEK_FLAG_BYTE] := by
  simp only [seek_frame]
  split <;> exact av_seek_frame_calls _ _ _ _

/-- With a sorted index that is not empty, and a seek target and PTS values of the index
below `2^31`, `seek_frame` seeks to the byte position of an entry with the largest PTS
`≤` the target, or of the first entry when the target is before all entries. -/
theorem seek_frame_byte_small (av : av_state) (stream_index : Int) (pts : Nat)
    (indices : List video_stream_frame_index) (hs : index_sorted indices) (hne : indices ≠ [])
    (hpts : pts < 2 ^ 31) (hsmall : ∀ e ∈ indices, e.pts < 2 ^ 31) :
    ∃ r ∈ indices,
      (seek_frame av stream_index pts (some indices) indices.length).2.calls =
        av.calls ++ [av_call.seek_frame stream_index (wrap64 r.pos) AVSEEK_FLAG_BYTE] ∧
      ((∃ e ∈ indices, e.pts ≤ pts) → r.pts ≤ pts ∧ ∀ e ∈ indices, e.pts ≤ pts → e.pts ≤ r.pts) ∧
      ((∀ e ∈ indices, pts < e.pts) → indices.head? = some r) := by
  rw [seek_frame_byte_calls]
  have hfind := find_index_small indices pts hs hpts hsmall
  cases hf : find_index indices indices.length pts with
  | some i =>
    rw [hf] at hfind
    obtain ⟨e, he, hep⟩ := hfind
    have hmem : e ∈ indices := List.getElem?_mem he
    refine ⟨e, hmem, ?_, ?_, ?_⟩
    · simp [List.getD_eq_getElem?_getD, he]
    · intro _
      exact ⟨by omega, fun x _ hx => by omega⟩
    · intro hall
      have := hall e hmem
      omega
  | none =>
    obtain ⟨r, hr, h1, h2, h3⟩ := nearest_earlier_index_spec indices pts hs hne
    refine ⟨r, List.getElem?_mem hr, ?_, ?_, ?_⟩
    · simp [List.getD_eq_getElem?_getD, hr]
    · intro hex
      exact ⟨h1 hex, h2⟩
    · intro hall
      rw [h3 hall] at hr
      rw [← hr]
      cases indices with
      | nil => exact absurd rfl hne
      | cons x rest => simp

/-- C27: the cache holds the frame with PTS 24006 and the request is for the PTS 18000,
the first key frame of the index, in byte-seek mode.  The request is a far miss and the
seek target is `18000 - 3003 * 40 = -102120`, before all entries of the index.  Passed
as `unsigned long` it is `2^64 - 102120`: `nearest_earlier_index` returns the last entry
and `load_frame` seeks to its byte position 376, not to the position 0 of the first
entry; it then decodes the frame with PTS 24006 and returns `NULL`.  From the position 0
the loop of `load_frame` finds the frame. -/
theorem load_frame_negative_seek_target :
    index_sorted sample_index ∧
      find_in_framecache index_cache 18000 = -1 ∧
      wrap64 (18000 - wrap64 (index_cache.delta * index_cache.seek_amount)) = -102120 ∧
      (∀ e ∈ sample_index, (-102120 : Int) < (e.pts : Int)) ∧
      to_u64 (-102120) = 18446744073709449496 ∧
      nearest_earlier_index sample_index 3 18446744073709449496 = 2 ∧
      (load_frame index_cache index_av 0 18000 (some sample_index) 3).2.2.calls =
        [av_call.seek_frame 0 376 AVSEEK_FLAG_BYTE, av_call.flush_buffers,
          av_call.read_frame, av_call.send_packet, av_call.receive_frame] ∧
      (load_frame index_cache index_av 0 18000 (some sample_index) 3).1 = none ∧
      (load_frame_loop 0 18000 4 { index_cache with pts_last := AV_NOPTS_VALUE }
        { index_av with packets := index_packets }).1 = some 1 := by
  decide

/-! ## Scene walk -/

theorem scene_detect_loop_succ (env : serve_env) (pts : Int) (backward : Bool) (cut_off : Int)
    (rounds : Nat) (f : Int) (sd : scene_detect_context) (cache : framecache) (av : av_state)
    (scores : List Int) :
    scene_detect_loop env pts backward cut_off (rounds + 1) f sd cache av scores =
      match (load_frame cache av env.stream_index (walk_target pts backward f cache.delta)
          env.indices env.frames_in_indices).1 with
      | none =>
        some (scores,
          (load_frame cache av env.stream_index (walk_target pts backward f cache.delta)
            env.indices env.frames_in_indices).2)
      | some i =>
        match (score_scene_change sd
            ((load_frame cache av env.stream_index (walk_target pts backward f cache.delta)
              env.indices env.frames_in_indices).2.1.frames.getD i zero_frame)).1 with
        | none => none
        | some score =>
          if score > cut_off then
            some (scores ++ [score],
              (load_frame cache av env.stream_index (walk_target pts backward f cache.delta)
                env.indices env.frames_in_indices).2)
          else
            scene_detect_loop env pts backward cut_off rounds (f + 1)
              (score_scene_change sd
                ((load_frame cache av env.stream_index (walk_target pts backward f cache.delta)
                  env.indices env.frames_in_indices).2.1.frames.getD i zero_frame)).2
              (load_frame cache av env.stream_index (walk_target pts backward f cache.delta)
                env.indices env.frames_in_indices).2.1
              (load_frame cache av env.stream_index (walk_target pts backward f cache.delta)
                env.indices env.frames_in_indices).2.2
              (scores ++ [score]) := by
  rw [scene_detect_loop]
  unfold walk_target
  rcases hl : load_frame cache av env.stream_index
      (if backward = true then wrap64 (pts - wrap64 (f * cache.delta))
        else wrap64 (pts + wrap64 (f * cache.delta))) env.indices env.frames_in_indices
    with ⟨o, c, a⟩
  cases o with
  | none => rfl
  | some i =>
    dsimp only
    rcases hsc : score_scene_change sd (c.frames.getD i zero_frame) with ⟨s, sd2⟩
    cases s with
    | none => rfl
    | some score => rfl

/-- The scores that the loop of the `SCENE_DETECT` handler adds in `rounds` rounds: at
most `rounds` of them, and all but the last are `≤ cut_off`. -/
theorem scene_detect_loop_scores (env : serve_env) (pts : Int) (backward : Bool)
    (cut_off : Int) (rounds : Nat) (f : Int) (sd : scene_detect_context) (cache : framecache)
    (av : av_state) (scores : List Int) (r : List Int × framecache × av_state)
    (h : scene_detect_loop env pts backward cut_off rounds f sd cache av scores = some r) :
    ∃ added, r.1 = scores ++ added ∧ added.length ≤ rounds ∧
      ∀ s ∈ added.dropLast, s ≤ cut_off := by
  induction rounds generalizing f sd cache av scores with
  | zero =>
    simp only [scene_detect_loop, Option.some.injEq] at h
    exact ⟨[], by rw [← h]; simp, by simp, by simp⟩
  | succ rounds ih =>
    rw [scene_detect_loop_succ] at h
    cases hl : (load_frame cache av env.stream_index (walk_target pts backward f cache.delta)
        env.indices env.frames_in_indices).1 with
    | none =>
      simp only [hl, Option.some.injEq] at h
      exact ⟨[], by rw [← h]; simp, by simp, by simp⟩
    | some i =>
      simp only [hl] at h
      cases hsc : (score_scene_change sd
          ((load_frame cache av env.stream_index (walk_target pts backward f cache.delta)
            env.indices env.frames_in_indices).2.1.frames.getD i zero_frame)).1 with
      | none =>
        simp only [hsc] at h
        exact absurd h (by simp)
      | some score =>
        simp only [hsc] at h
        by_cases hcut : score > cut_off
        · rw [if_pos hcut, Option.some.injEq] at h
          exact ⟨[score], by rw [← h], by simp, by simp⟩
        · rw [if_neg hcut] at h
          obtain ⟨added, h1, h2, h3⟩ := ih _ _ _ _ _ h
          refine ⟨score :: added, by rw [h1]; simp, by simp; omega, ?_⟩
          intro s hs
          cases added with
          | nil => simp at hs
          | cons x rest =>
            rw [List.dropLast_cons_of_ne_nil (by simp)] at hs
            rcases List.mem_cons.1 hs with hs | hs
            · omega
            · exact h3 s hs

/-- The first score of the loop is the score of the frame of its first step against the
context it starts with; with no frame at the first step there is no score. -/
theorem scene_detect_loop_first (env : serve_env) (pts : Int) (backward : Bool)
    (cut_off : Int) (rounds : Nat) (f : Int) (sd : scene_detect_context) (cache : framecache)
    (av : av_state) (r : List Int × framecache × av_state)
    (h : scene_detect_loop env pts backward cut_off (rounds + 1) f sd cache av [] = some r) :
    ((load_frame cache av env.stream_index (walk_target pts backward f cache.delta)
        env.indices env.frames_in_indices).1 = none → r.1 = []) ∧
      ∀ i, (load_frame cache av env.stream_index (walk_target pts backward f cache.delta)
          env.indices env.frames_in_indices).1 = some i →
        r.1.head? = (score_scene_change sd
          ((load_frame cache av env.stream_index (walk_target pts backward f cache.delta)
            env.indices env.frames_in_indices).2.1.frames.getD i zero_frame)).1 := by
  rw [scene_detect_loop_succ] at h
  constructor
  · intro hl
    simp only [hl, Option.some.injEq] at h
    rw [← h]
  · intro i hl
    simp only [hl] at h
    cases hsc : (score_scene_change sd
        ((load_frame cache av env.stream_index (walk_target pts backward f cache.delta)
          env.indices env.frames_in_indices).2.1.frames.getD i zero_frame)).1 with
    | none =>
      simp only [hsc] at h
      exact absurd h (by simp)
    | some score =>
      simp only [hsc] at h
      by_cases hcut : score > cut_off
      · rw [if_pos hcut, Option.some.injEq] at h
        rw [← h]
        rfl
      · rw [if_neg hcut] at h
        obtain ⟨added, h1, _, _⟩ := scene_detect_loop_scores _ _ _ _ _ _ _ _ _ _ _ h
        rw [h1]
        rfl

theorem scene_detect_max_frame_pos (arg2 : Int) :
    1 ≤ scene_detect_max_frame arg2 ∧ scene_detect_max_frame arg2 ≤ 2000 := by
  unfold scene_detect_max_frame SCENE_DETECT_MAX_FRAMES SCENE_DETECT_DEFAULT_FRAMES
  split
  · split <;> omega
  · omega

/-- C21: a `SCENE_DETECT` command whose base frame the loader finds, handled without a
fault, answers with the list of scores of its walk: the list has at most `max_frame`
elements, all its elements but the last are `≤ cut_off` (the walk ends with the first
score above the cutoff), and there is no score for the base frame: the first score is
that of the frame of the first step, at `pts ± delta`, against the base frame, and the
list is empty when the loader finds no frame at the first step. -/
theorem serve_scene_detect_walk (env : serve_env) (st : serve_state)
    (cmd : nicm_serve_command) (i : Nat)
    (hbase : (load_frame st.cache st.av env.stream_index (cmd.args 0) env.indices
      env.frames_in_indices).1 = some i)
    (hok : (serve_scene_detect env st cmd).1 = serve_status.running) :
    ∃ scores : List Int,
      (serve_scene_detect env st cmd).2.output =
          send_response_json st.output 0 (env.dumps_scores scores) ∧
        (scores.length : Int) ≤ scene_detect_max_frame (cmd.args 2) ∧
        (∀ s ∈ scores.dropLast, s ≤ scene_detect_cut_off (cmd.args 3)) ∧
        ((load_frame
            (load_frame st.cache st.av env.stream_index (cmd.args 0) env.indices
              env.frames_in_indices).2.1
            (load_frame st.cache st.av env.stream_index (cmd.args 0) env.indices
              env.frames_in_indices).2.2
            env.stream_index
            (walk_target (cmd.args 0) (decide (cmd.args 1 % 2 = 1)) 1
              (load_frame st.cache st.av env.stream_index (cmd.args 0) env.indices
                env.frames_in_indices).2.1.delta)
            env.indices env.frames_in_indices).1 = none → scores = []) ∧
        ∀ j, (load_frame
            (load_frame st.cache st.av env.stream_index (cmd.args 0) env.indices
              env.frames_in_indices).2.1
            (load_frame st.cache st.av env.stream_index (cmd.args 0) env.indices
              env.frames_in_indices).2.2
            env.stream_index
            (walk_target (cmd.args 0) (decide (cmd.args 1 % 2 = 1)) 1
              (load_frame st.cache st.av env.stream_index (cmd.args 0) env.indices
                env.frames_in_indices).2.1.delta)
            env.indices env.frames_in_indices).1 = some j →
          scores.head? =
            (score_scene_change
              { last_y_sum := calc_frame_sum
                  ((load_frame st.cache st.av env.stream_index (cmd.args 0) env.indices
                    env.frames_in_indices).2.1.frames.getD i zero_frame).avf }
              ((load_frame
                (load_frame st.cache st.av env.stream_index (cmd.args 0) env.indices
                  env.frames_in_indices).2.1
                (load_frame st.cache st.av env.stream_index (cmd.args 0) env.indices
                  env.frames_in_indices).2.2
                env.stream_index
                (walk_target (cmd.args 0) (decide (cmd.args 1 % 2 = 1)) 1
                  (load_frame st.cache st.av env.stream_index (cmd.args 0) env.indices
                    env.frames_in_indices).2.1.delta)
                env.indices env.frames_in_indices).2.1.frames.getD j zero_frame)).1 := by
  obtain ⟨hm1, hm2⟩ := scene_detect_max_frame_pos (cmd.args 2)
  obtain ⟨m, hm⟩ : ∃ m : Nat, (scene_detect_max_frame (cmd.args 2)).toNat = m + 1 :=
    ⟨(scene_detect_max_frame (cmd.args 2)).toNat - 1, by omega⟩
  unfold serve_scene_detect serve_scene_detect_scores at hok ⊢
  simp only [hbase, Option.map_some', init_scene_detect_context] at hok ⊢
  cases hloop : scene_detect_loop env (cmd.args 0) (decide (cmd.args 1 % 2 = 1))
      (scene_detect_cut_off (cmd.args 3)) (scene_detect_max_frame (cmd.args 2)).toNat 1
      { last_y_sum := calc_frame_sum
          ((load_frame st.cache st.av env.stream_index (cmd.args 0) env.indices
            env.frames_in_indices).2.1.frames.getD i zero_frame).avf }
      (load_frame st.cache st.av env.stream_index (cmd.args 0) env.indices
        env.frames_in_indices).2.1
      (load_frame st.cache st.av env.stream_index (cmd.args 0) env.indices
        env.frames_in_indices).2.2 [] with
  | none =>
    rw [hloop] at hok
    simp at hok
  | some r =>
    obtain ⟨added, h1, h2, h3⟩ := scene_detect_loop_scores _ _ _ _ _ _ _ _ _ _ _ hloop
    rw [List.nil_append] at h1
    rw [hm] at hloop
    obtain ⟨h4, h5⟩ := scene_detect_loop_first _ _ _ _ _ _ _ _ _ _ hloop
    refine ⟨r.1, rfl, ?_, ?_, h4, h5⟩
    · rw [h1]
      omega
    · rw [h1]
      exact h3

theorem score_scene_change_snd (context : scene_detect_context) (fr : frame) :
    (score_scene_change context fr).2 = { last_y_sum := calc_frame_sum fr.avf } := rfl

theorem score_three_five (context : scene_detect_context) (fr : frame)
    (h1 : context.last_y_sum = ((3 : ℕ) : ℚ)) (h2 : calc_frame_sum fr.avf = ((5 : ℕ) : ℚ)) :
    (score_scene_change context fr).1 = some 6666 := by
  have hfloor : ⌊|(((5 : ℕ) : ℚ)) - ((3 : ℕ) : ℚ)| / ((3 : ℕ) : ℚ) * 10000⌋ = 6666 := by
    rw [Int.floor_eq_iff]
    constructor <;> norm_num [abs_of_pos]
  obtain ⟨s, hs, _, _, _, h3⟩ := score_scene_change_value context fr 3 5 h1 h2
    (by norm_num) (by decide) (by norm_num [abs_of_pos])
  rw [hfloor] at h3
  rw [hs, h3 (by norm_num [abs_of_pos])]

theorem score_equal_sums (context : scene_detect_context) (fr : frame) (a : ℕ) (ha : 0 < a)
    (h1 : context.last_y_sum = (a : ℚ)) (h2 : calc_frame_sum fr.avf = (a : ℚ)) :
    (score_scene_change context fr).1 = some 0 := by
  rw [score_scene_change_eq context fr a a h1 h2 ha (by simp)]
  simp [to_double_zero, double_to_int]


/-- A `SCENE_DETECT` command with a base frame whose loop returns the list `scores` is
handled without a fault and answers with that list. -/
theorem serve_scene_detect_running (env : serve_env) (st : serve_state)
    (cmd : nicm_serve_command) (i : Nat) (scores : List Int)
    (hbase : (load_frame st.cache st.av env.stream_index (cmd.args 0) env.indices
      env.frames_in_indices).1 = some i)
    (hloop : (scene_detect_loop env (cmd.args 0) (decide (cmd.args 1 % 2 = 1))
      (scene_detect_cut_off (cmd.args 3)) (scene_detect_max_frame (cmd.args 2)).toNat 1
      { last_y_sum := calc_frame_sum
          ((load_frame st.cache st.av env.stream_index (cmd.args 0) env.indices
            env.frames_in_indices).2.1.frames.getD i zero_frame).avf }
      (load_frame st.cache st.av env.stream_index (cmd.args 0) env.indices
        env.frames_in_indices).2.1
      (load_frame st.cache st.av env.stream_index (cmd.args 0) env.indices
        env.frames_in_indices).2.2 []).map (fun r => r.1) = some scores) :
    (serve_scene_detect env st cmd).1 = serve_status.running ∧
      (serve_scene_detect env st cmd).2.output =
        send_response_json st.output 0 (env.dumps_scores scores) := by
  unfold serve_scene_detect serve_scene_detect_scores
  simp only [hbase, Option.map_some', init_scene_detect_context]
  obtain ⟨r, hr, hrs⟩ := Option.map_eq_some'.1 hloop
  rw [hr]
  simp only [hrs, and_self]

/-- Two rounds of the loop of the `SCENE_DETECT` handler that find a frame and a score
each, the first score not above the cutoff. -/
theorem scene_detect_loop_two (env : serve_env) (pts : Int) (backward : Bool) (cut_off : Int)
    (f : Int) (sd : scene_detect_context) (cache : framecache) (av : av_state)
    (i1 i2 : Nat) (s1 s2 : Int)
    (h1 : (load_frame cache av env.stream_index (walk_target pts backward f cache.delta)
      env.indices env.frames_in_indices).1 = some i1)
    (hs1 : (score_scene_change sd
      ((load_frame cache av env.stream_index (walk_target pts backward f cache.delta)
        env.indices env.frames_in_indices).2.1.frames.getD i1 zero_frame)).1 = some s1)
    (hc1 : ¬ s1 > cut_off)
    (h2 : (load_frame
      (load_frame cache av env.stream_index (walk_target pts backward f cache.delta)
        env.indices env.frames_in_indices).2.1
      (load_frame cache av env.stream_index (walk_target pts backward f cache.delta)
        env.indices env.frames_in_indices).2.2
      env.stream_index
      (walk_target pts backward (f + 1)
        (load_frame cache av env.stream_index (walk_target pts backward f cache.delta)
          env.indices env.frames_in_indices).2.1.delta)
      env.indices env.frames_in_indices).1 = some i2)
    (hs2 : (score_scene_change
      (score_scene_change sd
        ((load_frame cache av env.stream_index (walk_target pts backward f cache.delta)
          env.indices env.frames_in_indices).2.1.frames.getD i1 zero_frame)).2
      ((load_frame
        (load_frame cache av env.stream_index (walk_target pts backward f cache.delta)
          env.indices env.frames_in_indices).2.1
        (load_frame cache av env.stream_index (walk_target pts backward f cache.delta)
          env.indices env.frames_in_indices).2.2
        env.stream_index
        (walk_target pts backward (f + 1)
          (load_frame cache av env.stream_index (walk_target pts backward f cache.delta)
            env.indices env.frames_in_indices).2.1.delta)
        env.indices env.frames_in_indices).2.1.frames.getD i2 zero_frame)).1 = some s2) :
    (scene_detect_loop env pts backward cut_off 2 f sd cache av []).map (fun r => r.1) =
      some [s1, s2] := by
  rw [scene_detect_loop_succ]
  simp only [h1, hs1, if_neg hc1]
  rw [scene_detect_loop_succ]
  simp only [h2, hs2]
  split <;> simp [scene_detect_loop]

theorem calc_frame_sum_of (fr : frame) (n : ℕ)
    (hpix : 255 * (fr.avf.height * fr.avf.width) < 2 ^ 53) (hsum : luma_sum fr.avf = n) :
    calc_frame_sum fr.avf = (n : ℚ) := by
  rw [(calc_frame_sum_exact fr.avf hpix).1, hsum]

/-- The walk of two steps from the base frame of `luma_state`, with the luma sums 3, 5
and 5: the scores are 6666 and 0. -/
theorem luma_walk_scores :
    (scene_detect_loop sample_env 0 false 10000 2 1
      { last_y_sum := calc_frame_sum
          ((load_frame luma_state.cache luma_state.av 0 0 none 0).2.1.frames.getD 0
            zero_frame).avf }
      (load_frame luma_state.cache luma_state.av 0 0 none 0).2.1
      (load_frame luma_state.cache luma_state.av 0 0 none 0).2.2 []).map (fun r => r.1) =
      some [6666, 0] :=
  scene_detect_loop_two sample_env 0 false 10000 1 _ _ _ 1 2 6666 0 (by decide)
    (score_three_five _ _ (calc_frame_sum_of _ 3 (by decide) (by decide))
      (calc_frame_sum_of _ 5 (by decide) (by decide)))
    (by decide) (by decide)
    (score_equal_sums _ _ 5 (by decide) (calc_frame_sum_of _ 5 (by decide) (by decide))
      (calc_frame_sum_of _ 5 (by decide) (by decide)))

theorem serve_scene_detect_walk_witness :
    (serve_scene_detect sample_env luma_state (command_of 256 0 0 2 0)).2.output =
        [pipe_write.header { code := 0, size := 4 }, pipe_write.payload [123, 6666, 0, 125]] ∧
      ∃ scores : List Int,
        (serve_scene_detect sample_env luma_state (command_of 256 0 0 2 0)).2.output =
            send_response_json luma_state.output 0 (sample_env.dumps_scores scores) ∧
          (scores.length : Int) ≤ scene_detect_max_frame 2 ∧
          ∀ s ∈ scores.dropLast, s ≤ scene_detect_cut_off 0 :=
  ⟨(serve_scene_detect_running sample_env luma_state (command_of 256 0 0 2 0) 0 [6666, 0]
      (by decide) luma_walk_scores).2.trans (by decide),
    (serve_scene_detect_walk sample_env luma_state (command_of 256 0 0 2 0) 0 (by decide)
      (serve_scene_detect_running sample_env luma_state (command_of 256 0 0 2 0) 0 [6666, 0]
        (by decide) luma_walk_scores).1).imp fun _ h => ⟨h.1, h.2.1, h.2.2.1⟩⟩

end Nimoch
